import Mathlib

/-!
# The energy bar of the simulation core

A shallow embedding of `sim/core/energy.go`, followed by the talent hooks of
`sim/paladin/talents.go` (Vengeance, Righteous Vengeance) and
`sim/warrior/arms/talents.go` (Taste for Blood) that rest on the core.

* In the methods `float64` amounts are exact rationals: the rounding of the `float64`
  operations is left out there. The section on `float64` arithmetic gives the rounded
  operations, for the steps of the code where the rounding shows.
* `time.Duration` is an integer number of nanoseconds.
* The thresholds are 64-bit `int` values: the conversion of a cost to a threshold
  and the difference taken by the comparison of the sort stay in that range, the
  difference by wrap-around as in Go. The combo points are `int32` values, with
  wrap-around as well.
* A method of `*energyBar` that also receives `*Simulation` is a function on a
  `World` (the bar together with the simulation); it returns an `Outcome`, which
  is either a normal return or a Go panic, each with the state reached.
* What the bar does to its collaborators is recorded in the simulation: the
  metrics events, the number of `Rotation.DoNextAction` calls, the scheduler
  calls and the number of log lines.
-/

namespace Cata

/-! ## Constants and conversions -/

/-- Time between energy ticks: `time.Millisecond * 100`, in nanoseconds. -/
def EnergyTickDuration : Int := 100000000

/-- Energy of one tick before the multipliers. -/
def EnergyPerTick : ℚ := 1

/-- Sentinel of `time.Duration` for a task that is never due (`math.MaxInt64`). -/
def NeverExpires : Int := 9223372036854775807

/-- Go's conversion `int(x)` of a float: truncation toward zero. -/
def goInt (q : ℚ) : Int := if 0 ≤ q then ⌊q⌋ else ⌈q⌉

/-- The values of Go's 64-bit `int`. -/
abbrev InIntRange (x : Int) : Prop := -9223372036854775808 ≤ x ∧ x < 9223372036854775808

/-- Go's `int(math.Ceil(x))`: the ceiling when it is an `int`; the conversion of a value out of
range gives the least `int`, as the amd64 instruction does. -/
def goCeilInt (q : ℚ) : Int := if InIntRange ⌈q⌉ then ⌈q⌉ else -9223372036854775808

/-- Two's complement wrap-around of `int32` arithmetic. -/
def wrapInt32 (x : Int) : Int := (x + 2147483648) % 4294967296 - 2147483648

/-- Two's complement wrap-around of `int` (64-bit) arithmetic. -/
def wrapInt64 (x : Int) : Int :=
  (x + 9223372036854775808) % 18446744073709551616 - 9223372036854775808

/-! ## Outcomes -/

/-- Result of a call: a normal return with a value, or a panic with its message;
both carry the state reached at that point. -/
inductive Outcome (σ : Type) (α : Type) where
  | ok (val : α) (st : σ)
  | panic (msg : String) (st : σ)

/-- State reached by a call, whether it returned or panicked. -/
def Outcome.state {σ α : Type} : Outcome σ α → σ
  | .ok _ st => st
  | .panic _ st => st

/-- Whether the call returned normally. -/
def Outcome.completes {σ α : Type} : Outcome σ α → Bool
  | .ok _ _ => true
  | .panic _ _ => false

/-- Sequencing: a panic stops the rest of the body. -/
def Outcome.andThen {σ α β : Type} (o : Outcome σ α) (f : α → σ → Outcome σ β) : Outcome σ β :=
  match o with
  | .ok v st => f v st
  | .panic msg st => .panic msg st

/-- Message of the add-side guard. -/
def addNegativeMsg : String := "Trying to add negative energy!"

/-- Message of the spend-side guard. -/
def spendNegativeMsg : String := "Trying to spend negative energy!"

/-- Runtime panic of an out-of-range slice index. -/
def indexOutOfRangeMsg : String := "index out of range"

/-- Runtime panic of `make` with a negative length. -/
def makeSliceMsg : String := "makeslice: len out of range"

/-- Runtime panic of a field access through a nil `*Unit`. -/
def nilDerefMsg : String := "invalid memory address or nil pointer dereference"

/-! ## Data model -/

/-- One `ResourceMetrics.AddEvent(gross, net)` call; `sink` identifies the
`*ResourceMetrics` it was made on. -/
structure MetricsEvent where
  sink : Nat
  gross : ℚ
  net : ℚ
deriving DecidableEq

/-- An operand of an `APLValueCompare`, reduced to what `setupEnergyThresholds`
asks of it. -/
structure APLOperand where
  /-- The operand is an `*APLValueCurrentEnergy`. -/
  isCurrentEnergy : Bool
  /-- The result of `getConstAPLFloatValue`: the constant, or `-1` for an operand that is
  not a constant. -/
  constVal : ℚ

/-- An APL value as returned by `GetAllAPLValues`. -/
inductive APLValue where
  | compare (lhs rhs : APLOperand)
  | other

/-- A spell as returned by `GetAllSpells`. -/
structure SpellInfo where
  /-- The assertion `spell.Cost.(*EnergyCost)` succeeds. -/
  hasEnergyCost : Bool
  /-- The field `spell.DefaultCast.Cost`. -/
  defaultCastCost : ℚ

/-- An APL action with its spells and values. -/
structure APLAction where
  spells : List SpellInfo
  values : List APLValue

/-- The part of `Unit` the energy bar reads. -/
structure UnitInfo where
  /-- The result of `Rotation.allAPLActions()`. -/
  aplActions : List APLAction
  /-- The test `unit.Type == PetUnit`. -/
  isPet : Bool
  /-- The value of `unit.GetStat(stats.MeleeHaste)`. -/
  meleeHaste : ℚ

/-- The struct `energyBar`; `unit = none` is the nil pointer and
`cumulativeEnergyDecisionThresholds = none` the nil slice. -/
structure energyBar where
  unit : Option UnitInfo
  maxEnergy : ℚ
  currentEnergy : ℚ
  comboPoints : Int
  energyDecisionThresholds : List Int
  cumulativeEnergyDecisionThresholds : Option (List Int)
  nextEnergyTick : Int
  energyRegenMultiplier : ℚ
  hasteRatingMultiplier : ℚ
  regenMetrics : Nat
  EnergyRefundMetrics : Nat

/-- A call made to the task scheduler. -/
inductive SchedulerCall where
  | addTask
  | removeTask
  | reschedule (due : Int)
deriving DecidableEq

/-- The simulation as the energy bar sees it, with the record of what the bar did
to its collaborators. -/
structure Simulation where
  CurrentTime : Int
  /-- The option `sim.Options.Interactive`. -/
  Interactive : Bool
  /-- The test `sim.Log != nil`. -/
  logEnabled : Bool
  /-- The value of `sim.Environment.PrepullStartTime()`. -/
  prepullStartTime : Int
  /-- The random stream: the value of the n-th draw. -/
  randomStream : Nat → ℚ
  /-- Number of draws made so far. -/
  randomDraws : Nat
  /-- Every `AddEvent` call, oldest first. -/
  metrics : List MetricsEvent
  /-- Number of `Rotation.DoNextAction` calls. -/
  nextActionCalls : Nat
  /-- Every scheduler call, oldest first. -/
  schedulerCalls : List SchedulerCall
  /-- Number of lines written by `Unit.Log`. -/
  logLines : Nat

/-- The bar and the simulation it runs in. -/
structure World where
  eb : energyBar
  sim : Simulation

/-- The call `metrics.AddEvent(gross, net)`. -/
def World.addEvent (w : World) (sink : Nat) (gross net : ℚ) : World :=
  { w with sim := { w.sim with metrics := w.sim.metrics ++ [⟨sink, gross, net⟩] } }

/-- The guarded call `if sim.Log != nil then eb.unit.Log(...)`. -/
def World.logIfEnabled (w : World) : World :=
  if w.sim.logEnabled then { w with sim := { w.sim with logLines := w.sim.logLines + 1 } } else w

/-- The call `sim.RescheduleTask(t)`. -/
def World.rescheduleTask (w : World) (t : Int) : World :=
  { w with sim := { w.sim with schedulerCalls := w.sim.schedulerCalls ++ [SchedulerCall.reschedule t] } }

/-! ## Slices -/

/-- Read `tbl[i]` with Go's bounds check; `none` is the index-out-of-range panic. -/
def sliceGet (tbl : List Int) (i : Int) : Option Int :=
  if 0 ≤ i ∧ i < tbl.length then tbl[i.toNat]? else none

/-- Write `tbl[i] = v` with Go's bounds check; `none` is the index-out-of-range panic. -/
def sliceSet (tbl : List Int) (i : Int) (v : Int) : Option (List Int) :=
  if 0 ≤ i ∧ i < tbl.length then some (tbl.set i.toNat v) else none

/-! ## EnableEnergyBar -/

/-- The bar installed by `Unit.EnableEnergyBar(maxEnergy)`; the two arguments after the unit
are the sinks returned by `NewEnergyMetrics`. -/
def EnableEnergyBar (unit : UnitInfo) (regenSink refundSink : Nat) (maxEnergy : ℚ) : energyBar :=
  { unit := some unit
    maxEnergy := max 100 maxEnergy
    currentEnergy := 0
    comboPoints := 0
    energyDecisionThresholds := []
    cumulativeEnergyDecisionThresholds := none
    nextEnergyTick := 0
    energyRegenMultiplier := 1
    hasteRatingMultiplier := 0
    regenMetrics := regenSink
    EnergyRefundMetrics := refundSink }

/-! ## setupEnergyThresholds -/

/-- Thresholds from spell costs: first loop of `setupEnergyThresholds`. -/
def spellCostThresholds (actions : List APLAction) : List Int :=
  (actions.map fun action =>
    (action.spells.filter fun spell => spell.hasEnergyCost).map fun spell =>
      goCeilInt spell.defaultCastCost).flatten

/-- Threshold contributed by one APL value: body of the second loop. -/
def compareThreshold : APLValue → List Int
  | .compare lhs rhs =>
    if !lhs.isCurrentEnergy && !rhs.isCurrentEnergy then []
    else if lhs.isCurrentEnergy && rhs.constVal != -1 then [goCeilInt rhs.constVal]
    else if rhs.isCurrentEnergy && lhs.constVal != -1 then [goCeilInt lhs.constVal]
    else []
  | .other => []

/-- Thresholds from conditional comparisons: second loop of `setupEnergyThresholds`. -/
def compareThresholds (actions : List APLAction) : List Int :=
  (actions.map fun action => (action.values.map compareThreshold).flatten).flatten

/-- The local `energyThresholds` before sorting. -/
def collectThresholds (actions : List APLAction) : List Int :=
  spellCostThresholds actions ++ compareThresholds actions

/-- The comparison function handed to `slices.SortStableFunc`: the difference of two `int`
values, which wraps around when it leaves the 64-bit range. -/
def thresholdCmp (t1 t2 : Int) : Int := wrapInt64 (t1 - t2)

/-- The inner loop of the library's insertion sort: the new element `x` moves left while it
compares below its left neighbour. The part already placed is given last element first. -/
def insertSorted (x : Int) : List Int → List Int
  | [] => [x]
  | y :: before =>
    if thresholdCmp x y < 0 then y :: insertSorted x before else x :: y :: before

/-- The call `slices.SortStableFunc(energyThresholds, cmp)` of the standard library: insertion
sort from the left, element by element, which is what the library runs on a slice of up to 20
elements. A longer slice is sorted in blocks of 20 in this way and the blocks are merged, with
the same result whenever the comparison orders the elements consistently. -/
def sortStable (thresholds : List Int) : List Int :=
  (thresholds.foldl (fun placed x => insertSorted x placed) []).reverse

/-- The loop adding each unique value to the final list, from `curVal` on. -/
def uniqueThresholds : Int → List Int → List Int
  | _, [] => []
  | curVal, threshold :: rest =>
    if threshold > curVal then threshold :: uniqueThresholds threshold rest
    else uniqueThresholds curVal rest

/-- The loop `for curEnergy < threshold` storing `cumulativeVal`; the counter is the number
of iterations left, `(threshold - curEnergy).toNat` at the start. An error is the
index-out-of-range panic, with the table as written so far. -/
def fillBelow (cumulativeVal threshold : Int) :
    Nat → List Int → Int → Except (List Int) (List Int × Int)
  | 0, tbl, curEnergy => .ok (tbl, curEnergy)
  | n + 1, tbl, curEnergy =>
    if curEnergy < threshold then
      match sliceSet tbl curEnergy cumulativeVal with
      | some tbl1 => fillBelow cumulativeVal threshold n tbl1 (curEnergy + 1)
      | none => .error tbl
    else .ok (tbl, curEnergy)

/-- The loop over `eb.energyDecisionThresholds` filling the table; returns the table,
`curEnergy` and `cumulativeVal`. -/
def fillThresholds : List Int → List Int → Int → Int → Except (List Int) (List Int × Int × Int)
  | [], tbl, curEnergy, cumulativeVal => .ok (tbl, curEnergy, cumulativeVal)
  | threshold :: rest, tbl, curEnergy, cumulativeVal =>
    match fillBelow cumulativeVal threshold (threshold - curEnergy).toNat tbl curEnergy with
    | .ok (tbl1, curEnergy1) => fillThresholds rest tbl1 curEnergy1 (cumulativeVal + 1)
    | .error tbl1 => .error tbl1

/-- Both filling loops on a fresh table of the given length. -/
def buildTable (thresholds : List Int) (len : Nat) : Except (List Int) (List Int) :=
  match fillThresholds thresholds (List.replicate len 0) 0 0 with
  | .ok (tbl, curEnergy, cumulativeVal) =>
    match fillBelow cumulativeVal len (len - curEnergy).toNat tbl curEnergy with
    | .ok (tbl1, _) => .ok tbl1
    | .error tbl1 => .error tbl1
  | .error tbl => .error tbl

/-- The method `setupEnergyThresholds`. -/
def setupEnergyThresholds (eb : energyBar) : Outcome energyBar Unit :=
  match eb.unit with
  | none => .ok () eb
  | some unit =>
    let energyThresholds := sortStable (collectThresholds unit.aplActions)
    let eb1 := { eb with
      energyDecisionThresholds := eb.energyDecisionThresholds ++ uniqueThresholds 0 energyThresholds }
    let len := goInt eb1.maxEnergy + 1
    if len < 0 then .panic makeSliceMsg eb1
    else
      match buildTable eb1.energyDecisionThresholds len.toNat with
      | .ok tbl => .ok () { eb1 with cumulativeEnergyDecisionThresholds := some tbl }
      | .error tbl => .panic indexOutOfRangeMsg { eb1 with cumulativeEnergyDecisionThresholds := some tbl }

/-! ## Gains and spends -/

/-- The method `HasEnergyBar`. -/
def HasEnergyBar (eb : energyBar) : Bool := eb.unit.isSome

/-- The method `CurrentEnergy`. -/
def CurrentEnergy (eb : energyBar) : ℚ := eb.currentEnergy

/-- The method `NextEnergyTickAt`. -/
def NextEnergyTickAt (eb : energyBar) : Int := eb.nextEnergyTick

/-- The method `ComboPoints`. -/
def ComboPoints (eb : energyBar) : Int := eb.comboPoints

/-- The method `onEnergyGain`. -/
def onEnergyGain (crossedThreshold : Bool) (w : World) : Outcome World Unit :=
  if w.sim.CurrentTime < 0 then .ok () w
  else if !w.sim.Interactive && crossedThreshold then
    match w.eb.unit with
    | some _ => .ok () { w with sim := { w.sim with nextActionCalls := w.sim.nextActionCalls + 1 } }
    | none => .panic nilDerefMsg w
  else .ok () w

/-- The method `addEnergyInternal`; the value returned is `crossedThreshold`. -/
def addEnergyInternal (amount : ℚ) (metrics : Nat) (w : World) : Outcome World Bool :=
  if amount < 0 then .panic addNegativeMsg w
  else
    let newEnergy := min (w.eb.currentEnergy + amount) w.eb.maxEnergy
    let w1 := (w.addEvent metrics amount (newEnergy - w.eb.currentEnergy)).logIfEnabled
    match w.eb.cumulativeEnergyDecisionThresholds with
    | none => .ok true { w1 with eb := { w1.eb with currentEnergy := newEnergy } }
    | some tbl =>
      match sliceGet tbl (goInt w.eb.currentEnergy), sliceGet tbl (goInt newEnergy) with
      | some before, some after =>
        .ok (before != after) { w1 with eb := { w1.eb with currentEnergy := newEnergy } }
      | _, _ => .panic indexOutOfRangeMsg w1

/-- The method `AddEnergy`. -/
def AddEnergy (amount : ℚ) (metrics : Nat) (w : World) : Outcome World Unit :=
  (addEnergyInternal amount metrics w).andThen fun crossedThreshold w1 =>
    onEnergyGain crossedThreshold w1

/-- The method `SpendEnergy`. -/
def SpendEnergy (amount : ℚ) (metrics : Nat) (w : World) : Outcome World Unit :=
  if amount < 0 then .panic spendNegativeMsg w
  else
    let newEnergy := w.eb.currentEnergy - amount
    let w1 := (w.addEvent metrics (-amount) (-amount)).logIfEnabled
    .ok () { w1 with eb := { w1.eb with currentEnergy := newEnergy } }

/-- The local `partialTickAmount` of `ResetEnergyTick`: the share of a tick earned since
the last full tick. -/
def partialTickAmount (w : World) : ℚ :=
  let timeSinceLastTick := w.sim.CurrentTime - (NextEnergyTickAt w.eb - EnergyTickDuration)
  (EnergyPerTick * w.eb.hasteRatingMultiplier * w.eb.energyRegenMultiplier) *
    ((timeSinceLastTick : ℚ) / (EnergyTickDuration : ℚ))

/-- The method `ResetEnergyTick`: an immediate share of a tick and a restart of the timer. -/
def ResetEnergyTick (w : World) : Outcome World Unit :=
  (addEnergyInternal (partialTickAmount w) w.eb.regenMetrics w).andThen fun crossedThreshold w1 =>
    let w2 := { w1 with eb := { w1.eb with nextEnergyTick := w1.sim.CurrentTime + EnergyTickDuration } }
    (onEnergyGain crossedThreshold w2).andThen fun _ w3 =>
      .ok () (w3.rescheduleTask w3.eb.nextEnergyTick)

/-- The method `MultiplyEnergyRegenSpeed`. -/
def MultiplyEnergyRegenSpeed (multiplier : ℚ) (w : World) : Outcome World Unit :=
  (ResetEnergyTick w).andThen fun _ w1 =>
    .ok () { w1 with eb := { w1.eb with
      energyRegenMultiplier := w1.eb.energyRegenMultiplier * multiplier } }

/-- The haste factor `1.0 + GetStat(MeleeHaste)/(100*HasteRatingPerHastePercent)`; the
constant is declared outside this file and is an argument here. -/
def hasteFactor (hasteRatingPerHastePercent : ℚ) (unit : UnitInfo) : ℚ :=
  1 + unit.meleeHaste / (100 * hasteRatingPerHastePercent)

/-- The method `ProcessDynamicHasteRatingChange`. -/
def ProcessDynamicHasteRatingChange (hasteRatingPerHastePercent : ℚ) (w : World) :
    Outcome World Unit :=
  (ResetEnergyTick w).andThen fun _ w1 =>
    match w1.eb.unit with
    | some unit => .ok () { w1 with eb := { w1.eb with
        hasteRatingMultiplier := hasteFactor hasteRatingPerHastePercent unit } }
    | none => .panic nilDerefMsg w1

/-- The method `UpdateMaxEnergy`. -/
def UpdateMaxEnergy (bonusEnergy : ℚ) (metrics : Nat) (w : World) : Outcome World Unit :=
  (ResetEnergyTick w).andThen fun _ w1 =>
    let w2 := { w1 with eb := { w1.eb with maxEnergy := w1.eb.maxEnergy + bonusEnergy } }
    if bonusEnergy ≥ 0 then AddEnergy bonusEnergy metrics w2
    else SpendEnergy (min (-bonusEnergy) w2.eb.currentEnergy) metrics w2

/-- The method `AddComboPoints`, on `int32` values. -/
def AddComboPoints (pointsToAdd : Int) (metrics : Nat) (w : World) : Outcome World Unit :=
  let newComboPoints := min (wrapInt32 (w.eb.comboPoints + pointsToAdd)) 5
  let w1 := (w.addEvent metrics (pointsToAdd : ℚ)
    ((wrapInt32 (newComboPoints - w.eb.comboPoints) : Int) : ℚ)).logIfEnabled
  .ok () { w1 with eb := { w1.eb with comboPoints := newComboPoints } }

/-- The method `SpendComboPoints`. -/
def SpendComboPoints (metrics : Nat) (w : World) : Outcome World Unit :=
  let w1 := w.logIfEnabled
  let w2 := w1.addEvent metrics ((wrapInt32 (-w1.eb.comboPoints) : Int) : ℚ)
    ((wrapInt32 (-w1.eb.comboPoints) : Int) : ℚ)
  .ok () { w2 with eb := { w2.eb with comboPoints := 0 } }

/-- The method `RunTask`; the value returned is the next due time. -/
def RunTask (w : World) : Outcome World Int :=
  if w.sim.CurrentTime < w.eb.nextEnergyTick then .ok w.eb.nextEnergyTick w
  else
    (addEnergyInternal (EnergyPerTick * w.eb.hasteRatingMultiplier * w.eb.energyRegenMultiplier)
        w.eb.regenMetrics w).andThen fun crossedThreshold w1 =>
      let w2 := { w1 with eb := { w1.eb with nextEnergyTick := w1.sim.CurrentTime + EnergyTickDuration } }
      (onEnergyGain crossedThreshold w2).andThen fun _ w3 => .ok w3.eb.nextEnergyTick w3

/-- The call `sim.RandomFloat(label)`: the next value of the stream. -/
def World.randomFloat (w : World) : ℚ × World :=
  (w.sim.randomStream w.sim.randomDraws,
    { w with sim := { w.sim with randomDraws := w.sim.randomDraws + 1 } })

/-- The method `enable`. -/
def enable (startAt : Int) (w : World) : Outcome World Unit :=
  let w1 := { w with sim := { w.sim with schedulerCalls := w.sim.schedulerCalls ++ [SchedulerCall.addTask] } }
  let (r, w2) := w1.randomFloat
  let w3 := { w2 with eb := { w2.eb with
    nextEnergyTick := startAt + goInt (r * (EnergyTickDuration : ℚ)) } }
  let w4 := w3.rescheduleTask w3.eb.nextEnergyTick
  if w4.eb.cumulativeEnergyDecisionThresholds.isSome && w4.sim.logEnabled then
    .ok () { w4 with sim := { w4.sim with logLines := w4.sim.logLines + 1 } }
  else .ok () w4

/-- The method `reset`. -/
def reset (hasteRatingPerHastePercent : ℚ) (w : World) : Outcome World Unit :=
  match w.eb.unit with
  | none => .ok () w
  | some unit =>
    let w1 := { w with eb := { w.eb with
      currentEnergy := w.eb.maxEnergy
      comboPoints := 0
      hasteRatingMultiplier := hasteFactor hasteRatingPerHastePercent unit
      energyRegenMultiplier := 1 } }
    if !unit.isPet then enable w1.sim.prepullStartTime w1 else .ok () w1

/-- The method `disable`. -/
def disable (w : World) : Outcome World Unit :=
  let w1 := { w with eb := { w.eb with nextEnergyTick := NeverExpires } }
  .ok () { w1 with sim := { w1.sim with schedulerCalls := w1.sim.schedulerCalls ++ [SchedulerCall.removeTask] } }

/-- Number of entries of a threshold list that are at most `e`. -/
def thresholdsAtMost (ts : List Int) (e : Int) : Nat := (ts.filter fun t => decide (t ≤ e)).length

/-! ## Sequences of calls -/

/-- A call on the energy bar. -/
inductive BarCall where
  | addEnergy (amount : ℚ) (metrics : Nat)
  | spendEnergy (amount : ℚ) (metrics : Nat)
  | resetEnergyTick
  | runTask
  | multiplyEnergyRegenSpeed (multiplier : ℚ)
  | updateMaxEnergy (bonusEnergy : ℚ) (metrics : Nat)
  | reset

/-- Perform one call. -/
def BarCall.run (hasteRatingPerHastePercent : ℚ) : BarCall → World → Outcome World Unit
  | .addEnergy amount metrics, w => AddEnergy amount metrics w
  | .spendEnergy amount metrics, w => SpendEnergy amount metrics w
  | .resetEnergyTick, w => ResetEnergyTick w
  | .runTask, w => (RunTask w).andThen fun _ w1 => .ok () w1
  | .multiplyEnergyRegenSpeed multiplier, w => MultiplyEnergyRegenSpeed multiplier w
  | .updateMaxEnergy bonusEnergy metrics, w => UpdateMaxEnergy bonusEnergy metrics w
  | .reset, w => Cata.reset hasteRatingPerHastePercent w

/-- Perform a sequence of calls, each at the simulation time given with it; the first panic
ends the run. -/
def runCalls (hasteRatingPerHastePercent : ℚ) : List (Int × BarCall) → World → Outcome World Unit
  | [], w => .ok () w
  | (now, call) :: rest, w =>
    (call.run hasteRatingPerHastePercent { w with sim := { w.sim with CurrentTime := now } }).andThen
      fun _ w1 => runCalls hasteRatingPerHastePercent rest w1

/-- The bound kept by every call: the amount is at most the maximum, or at most zero when
the maximum is negative. -/
def Bounded (eb : energyBar) : Prop := eb.currentEnergy ≤ max eb.maxEnergy 0

/-! ## Energy costs of spells -/

/-- The struct `EnergyCostOptions`; `RefundMetrics = none` is the nil pointer. -/
structure EnergyCostOptions where
  Cost : ℚ
  Refund : ℚ
  RefundMetrics : Option Nat

/-- The struct `EnergyCost`; the metrics fields hold the identity of their sink, and
`RefundMetrics = none` is the nil pointer. -/
structure EnergyCost where
  Refund : ℚ
  RefundMetrics : Option Nat
  ResourceMetrics : Nat
  ComboPointMetrics : Nat

/-- The part of `Spell` the energy cost reads and writes. The unit of the spell is the owner of
the bar in the `World`. -/
structure Spell where
  /-- The field `spell.DefaultCast.Cost`. -/
  DefaultCastCost : ℚ
  /-- The field `spell.CurCast.Cost`. -/
  CurCastCost : ℚ
  /-- The method `spell.ApplyCostModifiers`, declared outside this file. -/
  ApplyCostModifiers : ℚ → ℚ
  /-- The field `spell.Cost` when it holds an `*EnergyCost`; `none` is a cost of another
  kind. -/
  Cost : Option EnergyCost

/-- The function `newEnergyCost`; the first two arguments are the sinks returned by
`NewEnergyMetrics(spell.ActionID)` and `NewComboPointMetrics(spell.ActionID)`. It returns the
spell with its default cost set, and the cost. -/
def newEnergyCost (energySink comboSink : Nat) (eb : energyBar) (spell : Spell)
    (options : EnergyCostOptions) : Spell × EnergyCost :=
  let spell1 := { spell with DefaultCastCost := options.Cost }
  let options1 :=
    if options.Refund > 0 && options.RefundMetrics.isNone then
      { options with RefundMetrics := some eb.EnergyRefundMetrics }
    else options
  (spell1,
    { Refund := options1.Refund
      RefundMetrics := options1.RefundMetrics
      ResourceMetrics := energySink
      ComboPointMetrics := comboSink })

/-- The method `EnergyCost.MeetsRequirement`: the answer and the spell with its finalized
cost. -/
def EnergyCost.MeetsRequirement (_ec : EnergyCost) (spell : Spell) (w : World) : Bool × Spell :=
  let spell1 := { spell with CurCastCost := spell.ApplyCostModifiers spell.CurCastCost }
  (decide (CurrentEnergy w.eb ≥ spell1.CurCastCost), spell1)

/-- The method `EnergyCost.SpendCost`. -/
def EnergyCost.SpendCost (ec : EnergyCost) (spell : Spell) (w : World) : Outcome World Unit :=
  SpendEnergy spell.CurCastCost ec.ResourceMetrics w

/-- The method `EnergyCost.IssueRefund`. With a nil `RefundMetrics` the gain passes the
guard on the amount and then fails on `metrics.AddEvent`. -/
def EnergyCost.IssueRefund (ec : EnergyCost) (spell : Spell) (w : World) : Outcome World Unit :=
  if ec.Refund > 0 then
    match ec.RefundMetrics with
    | some metrics => AddEnergy (ec.Refund * spell.CurCastCost) metrics w
    | none =>
      if ec.Refund * spell.CurCastCost < 0 then .panic addNegativeMsg w else .panic nilDerefMsg w
  else .ok () w

/-- Runtime panic of a failed type assertion `spell.Cost.(*EnergyCost)`. -/
def typeAssertionMsg : String := "interface conversion: not *core.EnergyCost"

/-- The method `Spell.EnergyMetrics`; `none` is the panic of the type assertion. -/
def Spell.EnergyMetrics (spell : Spell) : Option Nat :=
  match spell.Cost with
  | some ec => some ec.ComboPointMetrics
  | none => none

/-- The method `Spell.ComboPointMetrics`; `none` is the panic of the type assertion. -/
def Spell.ComboPointMetrics (spell : Spell) : Option Nat :=
  match spell.Cost with
  | some ec => some ec.ComboPointMetrics
  | none => none

/-! ## Ticks at their due time -/

/-- The scheduler invoking `RunTask` the given number of times, each time at the due time the
bar holds; the first panic ends the run. -/
def runTicks : Nat → World → Outcome World Unit
  | 0, w => .ok () w
  | n + 1, w =>
    (RunTask { w with sim := { w.sim with CurrentTime := w.eb.nextEnergyTick } }).andThen
      fun _ w1 => runTicks n w1

/-! ## Paladin talents: Vengeance and Righteous Vengeance (sim/paladin/talents.go) -/

/-- The local `bonusPerStack` of `applyVengeance`: `0.01 * float64(Talents.Vengeance)`. -/
def vengeanceBonusPerStack (vengeanceRank : Int) : ℚ := (1 / 100) * (vengeanceRank : ℚ)

/-- The hook `OnStacksChange` of the aura "Vengeance Proc", as a function of the unit's
`PseudoStats.DamageDealtMultiplier`: divide by the factor of the old stacks, multiply by the
factor of the new ones. -/
def vengeanceOnStacksChange (bonusPerStack : ℚ) (oldStacks newStacks : Int)
    (damageDealtMultiplier : ℚ) : ℚ :=
  (damageDealtMultiplier / (1 + bonusPerStack * (oldStacks : ℚ))) *
    (1 + bonusPerStack * (newStacks : ℚ))

/-- The hook called once for each change of a chain of stack counts: from `oldStacks` to the
first entry of the list, from there to the second, and so on. -/
def vengeanceStackChanges (bonusPerStack : ℚ) : Int → List Int → ℚ → ℚ
  | _, [], damageDealtMultiplier => damageDealtMultiplier
  | oldStacks, newStacks :: rest, damageDealtMultiplier =>
    vengeanceStackChanges bonusPerStack newStacks rest
      (vengeanceOnStacksChange bonusPerStack oldStacks newStacks damageDealtMultiplier)

/-- What `applyRighteousVengeance` keeps for one target: the local `pool` of the loop body, the
`Damage` of the spell effect bound into the Dot's `TickEffects` (`none` for the `TickEffects` of
the registration, which have no `Calculator`), and whether the Dot is active. -/
structure RighteousVengeanceDot where
  pool : ℚ
  boundDamage : Option ℚ
  active : Bool

/-- The `Calculator` of the bound tick effect: the damage returned and the pool left. -/
def rvCalculator (righteousVengeanceRank : Int) (spellEffectDamage : ℚ) (pool : ℚ) : ℚ × ℚ :=
  let pool1 := pool + spellEffectDamage * ((1 / 10) * (righteousVengeanceRank : ℚ))
  let damage := pool1 / 4
  (damage, pool1 - damage)

/-- One tick of the Dot with a bound effect: the damage released and the Dot afterwards. With
the `TickEffects` of the registration no `Calculator` runs and the pool is not touched. -/
def rvTick (righteousVengeanceRank : Int) (dot : RighteousVengeanceDot) :
    Option ℚ × RighteousVengeanceDot :=
  match dot.boundDamage with
  | some spellEffectDamage =>
    (some (rvCalculator righteousVengeanceRank spellEffectDamage dot.pool).1,
      { dot with pool := (rvCalculator righteousVengeanceRank spellEffectDamage dot.pool).2 })
  | none => (none, dot)

/-- The hook `OnExpire` of the Dot's aura. -/
def rvOnExpire (dot : RighteousVengeanceDot) : RighteousVengeanceDot :=
  { dot with pool := 0 }

/-- Modelled from the spec: the expiration of the Dot's aura, declared outside the sources,
invokes the hook "on expire" and leaves the Dot inactive. -/
def rvDotExpire (dot : RighteousVengeanceDot) : RighteousVengeanceDot :=
  { rvOnExpire dot with active := false }

/-- Modelled from the spec: `Dot.Apply`, declared outside the sources, activates the Dot's
aura. -/
def rvDotApply (dot : RighteousVengeanceDot) : RighteousVengeanceDot :=
  { dot with active := true }

/-- Modelled from the spec: `Dot.Refresh`, declared outside the sources, restarts the duration
of the Dot without resetting the accumulator; the duration is not part of this state. -/
def rvDotRefresh (dot : RighteousVengeanceDot) : RighteousVengeanceDot := dot

/-- The hook `OnSpellHitDealt` of the aura "Righteous Vengeance" for the target of the Dot.
`triggers` is the test on the spell (Crusader Strike, Divine Storm or a Judgement). -/
def rvOnSpellHitDealt (didCrit landed triggers : Bool) (spellEffectDamage : ℚ)
    (dot : RighteousVengeanceDot) : RighteousVengeanceDot :=
  if !didCrit || !landed then dot
  else if triggers then
    let dot1 := { dot with boundDamage := some spellEffectDamage }
    let dot2 := if !dot1.active then rvDotApply dot1 else dot1
    rvDotRefresh dot2
  else dot

/-! ## Arms warrior talents: Taste for Blood (sim/warrior/arms/talents.go) -/

/-- The local `procChance` of `applyTasteForBlood`: the entry of `{0, 0.33, 0.66, 1}` at the
talent rank; `none` is the index-out-of-range panic. -/
def tasteForBloodProcChance (rank : Nat) : Option ℚ :=
  [0, 33 / 100, 66 / 100, (1 : ℚ)][rank]?

/-- Length of the internal cooldown of the trigger: `time.Second * 5`. -/
def tasteForBloodIcdDuration : Int := 5000000000

/-- Duration of the aura "Taste for Blood": `time.Second * 9`. -/
def tasteForBloodDuration : Int := 9000000000

/-- What the trigger of Taste for Blood reads and writes: the state of the random stream, the
time at which the timer of the internal cooldown is ready, and the aura "Taste for Blood". -/
structure TasteForBloodState (ρ : Type) where
  random : ρ
  icdReadyAt : Int
  auraActive : Bool
  auraExpires : Int

/-- Modelled from the spec: `Cooldown.IsReady`, declared outside the sources, is the gate
"elapsed time since last Use": the timer is ready once the current time has reached it. -/
def icdIsReady {ρ : Type} (now : Int) (st : TasteForBloodState ρ) : Bool :=
  decide (st.icdReadyAt ≤ now)

/-- Modelled from the spec: `Cooldown.Use`, declared outside the sources, starts the internal
cooldown at the current time. -/
def icdUse {ρ : Type} (now : Int) (st : TasteForBloodState ρ) : TasteForBloodState ρ :=
  { st with icdReadyAt := now + tasteForBloodIcdDuration }

/-- Modelled from the spec: `Aura.Activate`, declared outside the sources, makes the aura
active until its duration has passed. -/
def tfbAuraActivate {ρ : Type} (now : Int) (st : TasteForBloodState ρ) : TasteForBloodState ρ :=
  { st with auraActive := true, auraExpires := now + tasteForBloodDuration }

/-- The hook `OnPeriodicDamageDealt` of the aura "Taste for Blood Trigger". `proc` is
`sim.Proc`, declared outside the sources: from the chance and the state of the random stream it
gives the outcome and the state of the stream afterwards. `isRend` is the test
`spell == war.Rend`. -/
def tasteForBloodOnPeriodicDamageDealt {ρ : Type} (proc : ℚ → ρ → Bool × ρ) (procChance : ℚ)
    (now : Int) (isRend : Bool) (st : TasteForBloodState ρ) : TasteForBloodState ρ :=
  if !isRend then st
  else if !icdIsReady now st then st
  else
    let outcome := proc procChance st.random
    let st1 := { st with random := outcome.2 }
    if outcome.1 then tfbAuraActivate now (icdUse now st1) else st1

/-! ## float64 arithmetic -/

/-- A finite `float64` value, `mantissa * 2 ^ exponent`. -/
structure Float64 where
  mantissa : Int
  exponent : Int
deriving DecidableEq

/-- The rational number a `float64` value stands for. -/
def Float64.toRat (x : Float64) : ℚ := (x.mantissa : ℚ) * (2 : ℚ) ^ x.exponent

/-- Number of binary digits of a natural number, by halving. -/
def bitLengthAux : Nat → Nat → Nat
  | 0, _ => 0
  | fuel + 1, n => if n = 0 then 0 else bitLengthAux fuel (n / 2) + 1

/-- Number of binary digits of a natural number. -/
def bitLength (n : Nat) : Nat := bitLengthAux n n

/-- The rounding every `float64` operation ends with: the value `mantissa * 2 ^ exponent` is
brought to 53 binary digits, to the nearest such value and to the even one on a tie. Overflow
and subnormal values are left out. -/
def roundFloat64 (mantissa exponent : Int) : Float64 :=
  let digits := bitLength mantissa.natAbs
  if digits ≤ 53 then ⟨mantissa, exponent⟩
  else
    let shift := digits - 53
    let kept := mantissa.natAbs / 2 ^ shift
    let dropped := mantissa.natAbs % 2 ^ shift
    let half := 2 ^ (shift - 1)
    let rounded := if dropped > half ∨ (dropped = half ∧ kept % 2 = 1) then kept + 1 else kept
    ⟨mantissa.sign * (rounded : Int), exponent + (shift : Int)⟩

/-- The mantissa of a value written with a smaller exponent. -/
def Float64.mantissaAt (x : Float64) (exponent : Int) : Int :=
  x.mantissa * 2 ^ (x.exponent - exponent).toNat

/-- The `float64` sum `x + y`. -/
def Float64.add (x y : Float64) : Float64 :=
  let exponent := min x.exponent y.exponent
  roundFloat64 (x.mantissaAt exponent + y.mantissaAt exponent) exponent

/-- The `float64` difference `x - y`. -/
def Float64.sub (x y : Float64) : Float64 :=
  let exponent := min x.exponent y.exponent
  roundFloat64 (x.mantissaAt exponent - y.mantissaAt exponent) exponent

/-- The `float64` product `x * y`. -/
def Float64.mul (x y : Float64) : Float64 :=
  roundFloat64 (x.mantissa * y.mantissa) (x.exponent + y.exponent)

/-- The comparison `x < y` of two `float64` values. -/
def Float64.lt (x y : Float64) : Bool :=
  decide (x.mantissaAt (min x.exponent y.exponent) < y.mantissaAt (min x.exponent y.exponent))

/-- Go's builtin `min(x, y)` on two `float64` values. -/
def Float64.min (x y : Float64) : Float64 := if y.lt x then y else x

/-- The `float64` arithmetic of `addEnergyInternal`: the new amount
`min(eb.currentEnergy+amount, eb.maxEnergy)` and the two values handed to `metrics.AddEvent`,
`amount` and `newEnergy-eb.currentEnergy`. -/
def addEnergyInternalFloat64 (currentEnergy maxEnergy amount : Float64) :
    Float64 × Float64 × Float64 :=
  let newEnergy := Float64.min (currentEnergy.add amount) maxEnergy
  (newEnergy, amount, newEnergy.sub currentEnergy)

/-- The `float64` arithmetic of a `RunTask` tick that is due: the gain
`EnergyPerTick*eb.hasteRatingMultiplier*eb.energyRegenMultiplier` goes through
`addEnergyInternal`; the value is the new currentEnergy. -/
def tickEnergyFloat64 (maxEnergy hasteRatingMultiplier energyRegenMultiplier
    currentEnergy : Float64) : Float64 :=
  (addEnergyInternalFloat64 currentEnergy maxEnergy
    ((Float64.mul ⟨1, 0⟩ hasteRatingMultiplier).mul energyRegenMultiplier)).1

/-- The currentEnergy after a number of due ticks, in `float64` arithmetic. -/
def runTicksFloat64 (maxEnergy hasteRatingMultiplier energyRegenMultiplier : Float64) :
    Nat → Float64 → Float64
  | 0, currentEnergy => currentEnergy
  | n + 1, currentEnergy =>
    runTicksFloat64 maxEnergy hasteRatingMultiplier energyRegenMultiplier n
      (tickEnergyFloat64 maxEnergy hasteRatingMultiplier energyRegenMultiplier currentEnergy)

/-- The `float64` arithmetic of `SpendCost` followed by `IssueRefund` with `Refund > 0`:
`SpendEnergy` leaves `eb.currentEnergy - amount` and the refund `ec.Refund*spell.CurCast.Cost`
goes through `addEnergyInternal`; the value is the final currentEnergy. -/
def spendThenRefundFloat64 (currentEnergy maxEnergy cost refund : Float64) : Float64 :=
  (addEnergyInternalFloat64 (currentEnergy.sub cost) maxEnergy (refund.mul cost)).1

/-! ## Worlds used in the examples -/

/-- A unit with no APL action. -/
def plainUnit : UnitInfo := { aplActions := [], isPet := false, meleeHaste := 0 }

/-- A simulation at the given time with nothing recorded yet. -/
def simAt (now : Int) : Simulation :=
  { CurrentTime := now
    Interactive := false
    logEnabled := false
    prepullStartTime := 0
    randomStream := fun _ => 0
    randomDraws := 0
    metrics := []
    nextActionCalls := 0
    schedulerCalls := []
    logLines := 0 }

/-- A bar of maximum 100 holding the given amount, no threshold table, both multipliers 1,
regen sink 0 and refund sink 1, next tick due at the given time. -/
def barWith (currentEnergy : ℚ) (nextEnergyTick : Int) : energyBar :=
  { EnableEnergyBar plainUnit 0 1 100 with
    currentEnergy := currentEnergy
    nextEnergyTick := nextEnergyTick
    hasteRatingMultiplier := 1 }

/-- A unit whose one action has spells costing 35, 35, 50 and 85 energy, a spell without
energy cost, and a comparison of the current energy with the constant 60. -/
def exampleUnit : UnitInfo :=
  { aplActions := [
      { spells := [⟨true, 35⟩, ⟨true, 35⟩, ⟨true, 50⟩, ⟨true, 85⟩, ⟨false, 20⟩]
        values := [APLValue.compare ⟨true, -1⟩ ⟨false, 60⟩, APLValue.other] }]
    isPet := false
    meleeHaste := 0 }

/-- A unit whose one action has one spell for each of the given energy costs. -/
def unitWithCosts (costs : List ℚ) : UnitInfo :=
  { aplActions := [{ spells := costs.map fun cost => ⟨true, cost⟩, values := [] }]
    isPet := false
    meleeHaste := 0 }

/-- The table of the example: 35 entries 0, then 15 entries 1, 10 entries 2, 25 entries 3 and
16 entries 4. -/
def exampleTable : List Int :=
  List.replicate 35 0 ++ List.replicate 15 1 ++ List.replicate 10 2 ++ List.replicate 25 3 ++
    List.replicate 16 4

/-- The bar of `exampleUnit` once `setupEnergyThresholds` has run on it. -/
def exampleTableBar : energyBar :=
  { EnableEnergyBar exampleUnit 0 1 100 with
    energyDecisionThresholds := [35, 50, 60, 85]
    cumulativeEnergyDecisionThresholds := some exampleTable }

/-- A spell whose current and default cast cost are the given amount, with a cost modifier
that takes 5 off. -/
def spellCosting (cost : ℚ) : Spell :=
  { DefaultCastCost := cost
    CurCastCost := cost
    ApplyCostModifiers := fun c => c - 5
    Cost := none }

/-- The cost built by `newEnergyCost` for a spell costing 40 with a refund of 4/5 and no
refund sink supplied, on the bar of the examples; its own sinks are 5 and 6. -/
def exampleCost : EnergyCost :=
  (newEnergyCost 5 6 (barWith 100 0) (spellCosting 40) ⟨40, 4 / 5, none⟩).2

/-- The stack count at the end of a chain of changes that starts at the given count. -/
def lastStacks : Int → List Int → Int
  | oldStacks, [] => oldStacks
  | _, newStacks :: rest => lastStacks newStacks rest

/-- A random stream for the examples: `sim.Proc` drawing the next value of a fixed sequence
and comparing it with the chance. The state is the number of draws made. -/
def exampleProc (chance : ℚ) (draws : Nat) : Bool × Nat :=
  (decide (([1 / 2, 9 / 10, 1 / 10] : List ℚ).getD draws 0 < chance), draws + 1)

/-- The `float64` value nearest to 0.6. -/
def sixTenths : Float64 := ⟨5404319552844595, -53⟩

/-- The `float64` value nearest to 1.1. -/
def elevenTenths : Float64 := ⟨2476979795053773, -51⟩

/-- The `float64` value nearest to 5.1. -/
def fiftyOneTenths : Float64 := ⟨2871044762448691, -49⟩

/-- The `float64` value written 25.158069415076422. -/
def oddEnergy : Float64 := ⟨7081367002693703, -48⟩

/-! ## Helper lemmas -/

theorem andThen_eq_ok {σ α β : Type} {o : Outcome σ α} {f : α → σ → Outcome σ β} {b : β} {s : σ}
    (h : o.andThen f = .ok b s) : ∃ a s1, o = .ok a s1 ∧ f a s1 = .ok b s := by
  cases o with
  | ok a s1 => exact ⟨a, s1, rfl, h⟩
  | panic msg s1 => simp [Outcome.andThen] at h

theorem addEnergyInternal_eq_ok {amount : ℚ} {metrics : Nat} {w w1 : World} {crossed : Bool}
    (h : addEnergyInternal amount metrics w = .ok crossed w1) :
    0 ≤ amount ∧
    w1.eb = { w.eb with currentEnergy := min (w.eb.currentEnergy + amount) w.eb.maxEnergy } ∧
    w1.sim = { w.sim with
      metrics := w.sim.metrics ++
        [⟨metrics, amount, min (w.eb.currentEnergy + amount) w.eb.maxEnergy - w.eb.currentEnergy⟩]
      logLines := if w.sim.logEnabled then w.sim.logLines + 1 else w.sim.logLines } := by
  unfold addEnergyInternal at h
  split at h
  · simp at h
  · rename_i hneg
    refine ⟨not_lt.mp hneg, ?_⟩
    simp only at h
    split at h
    · injection h with _ h2
      subst h2
      simp only [World.addEvent, World.logIfEnabled]
      split <;> simp
    · split at h
      · injection h with _ h2
        subst h2
        simp only [World.addEvent, World.logIfEnabled]
        split <;> simp
      · simp at h

/-- The value returned by a completed `addEnergyInternal`. -/
theorem addEnergyInternal_crossed {amount : ℚ} {metrics : Nat} {w w1 : World} {crossed : Bool}
    (h : addEnergyInternal amount metrics w = .ok crossed w1) :
    crossed = true ↔
      (w.eb.cumulativeEnergyDecisionThresholds = none ∨
        ∃ tbl, w.eb.cumulativeEnergyDecisionThresholds = some tbl ∧
          sliceGet tbl (goInt w.eb.currentEnergy) ≠
            sliceGet tbl (goInt (min (w.eb.currentEnergy + amount) w.eb.maxEnergy))) := by
  unfold addEnergyInternal at h
  split at h
  · simp at h
  · simp only at h
    split at h
    · rename_i hnone
      injection h with h1 _
      simp [← h1, hnone]
    · rename_i tbl hsome
      split at h
      · rename_i before after hb ha
        injection h with h1 _
        simp [← h1, hsome, hb, ha]
      · simp at h

theorem onEnergyGain_eq_ok {crossed : Bool} {w w1 : World}
    (h : onEnergyGain crossed w = .ok () w1) :
    w1.eb = w.eb ∧
    w1.sim = { w.sim with
      nextActionCalls := w.sim.nextActionCalls +
        (if 0 ≤ w.sim.CurrentTime ∧ w.sim.Interactive = false ∧ crossed = true then 1 else 0) } := by
  unfold onEnergyGain at h
  split at h
  · rename_i ht
    injection h with _ h2
    subst h2
    simp [not_le.mpr ht]
  · rename_i ht
    split at h
    · rename_i hc
      split at h
      · injection h with _ h2
        subst h2
        simp at hc
        simp [not_lt.mp ht, hc]
      · simp at h
    · rename_i hc
      injection h with _ h2
      subst h2
      simp at hc
      have : ¬ (w.sim.Interactive = false ∧ crossed = true) := by
        intro hh; rw [hc hh.1] at hh; simp at hh
      simp [this]

theorem SpendEnergy_eq_ok {amount : ℚ} {metrics : Nat} {w w1 : World}
    (h : SpendEnergy amount metrics w = .ok () w1) :
    0 ≤ amount ∧
    w1.eb = { w.eb with currentEnergy := w.eb.currentEnergy - amount } ∧
    w1.sim = { w.sim with
      metrics := w.sim.metrics ++ [⟨metrics, -amount, -amount⟩]
      logLines := if w.sim.logEnabled then w.sim.logLines + 1 else w.sim.logLines } := by
  unfold SpendEnergy at h
  split at h
  · simp at h
  · rename_i hneg
    refine ⟨not_lt.mp hneg, ?_⟩
    injection h with _ h2
    subst h2
    simp only [World.addEvent, World.logIfEnabled]
    split <;> simp

theorem AddEnergy_eq_ok {amount : ℚ} {metrics : Nat} {w w1 : World}
    (h : AddEnergy amount metrics w = .ok () w1) :
    ∃ crossed wm, addEnergyInternal amount metrics w = .ok crossed wm ∧
      w1.eb = { w.eb with currentEnergy := min (w.eb.currentEnergy + amount) w.eb.maxEnergy } ∧
      w1.sim = { wm.sim with
        nextActionCalls := w.sim.nextActionCalls +
          (if 0 ≤ w.sim.CurrentTime ∧ w.sim.Interactive = false ∧ crossed = true then 1 else 0) } := by
  obtain ⟨crossed, wm, h1, h2⟩ := andThen_eq_ok h
  obtain ⟨_, he, hs⟩ := addEnergyInternal_eq_ok h1
  obtain ⟨he2, hs2⟩ := onEnergyGain_eq_ok h2
  refine ⟨crossed, wm, h1, he2.trans he, ?_⟩
  rw [hs2, hs]

theorem ResetEnergyTick_eq_ok {w w1 : World} (h : ResetEnergyTick w = .ok () w1) :
    0 ≤ partialTickAmount w ∧
    w1.eb = { w.eb with
      currentEnergy := min (w.eb.currentEnergy + partialTickAmount w) w.eb.maxEnergy
      nextEnergyTick := w.sim.CurrentTime + EnergyTickDuration } ∧
    w1.sim.metrics = w.sim.metrics ++ [⟨w.eb.regenMetrics, partialTickAmount w,
      min (w.eb.currentEnergy + partialTickAmount w) w.eb.maxEnergy - w.eb.currentEnergy⟩] ∧
    w1.sim.CurrentTime = w.sim.CurrentTime := by
  obtain ⟨crossed, wm, h1, h2⟩ := andThen_eq_ok h
  obtain ⟨hpos, he, hs⟩ := addEnergyInternal_eq_ok h1
  obtain ⟨u, wn, h3, h4⟩ := andThen_eq_ok h2
  obtain ⟨he3, hs3⟩ := onEnergyGain_eq_ok h3
  injection h4 with _ h5
  subst h5
  simp only [World.rescheduleTask]
  refine ⟨hpos, ?_, ?_, ?_⟩
  · rw [he3]; simp [he, hs]
  · rw [hs3]; simp [hs]
  · rw [hs3]; simp [hs]

theorem RunTask_eq_ok {w w1 : World} {due : Int} (h : RunTask w = .ok due w1) :
    (w.sim.CurrentTime < w.eb.nextEnergyTick ∧ w1 = w) ∨
    (w.eb.nextEnergyTick ≤ w.sim.CurrentTime ∧
      w1.eb = { w.eb with
        currentEnergy := min (w.eb.currentEnergy +
          EnergyPerTick * w.eb.hasteRatingMultiplier * w.eb.energyRegenMultiplier) w.eb.maxEnergy
        nextEnergyTick := w.sim.CurrentTime + EnergyTickDuration }) := by
  unfold RunTask at h
  split at h
  · rename_i hlt
    injection h with _ h2
    exact Or.inl ⟨hlt, h2.symm⟩
  · rename_i hge
    right
    obtain ⟨crossed, wm, h1, h2⟩ := andThen_eq_ok h
    obtain ⟨hpos, he, hs⟩ := addEnergyInternal_eq_ok h1
    obtain ⟨u, wn, h3, h4⟩ := andThen_eq_ok h2
    obtain ⟨he3, hs3⟩ := onEnergyGain_eq_ok h3
    injection h4 with _ h5
    subst h5
    refine ⟨not_lt.mp hge, ?_⟩
    rw [he3]; simp [he, hs]

theorem enable_eq_ok {startAt : Int} {w w1 : World} (h : enable startAt w = .ok () w1) :
    w1.eb.currentEnergy = w.eb.currentEnergy ∧ w1.eb.maxEnergy = w.eb.maxEnergy := by
  unfold enable at h
  simp only [World.randomFloat, World.rescheduleTask] at h
  split at h <;> (injection h with _ h2; subst h2; simp)

theorem BarCall.run_bounded {hr : ℚ} {call : BarCall} {w w1 : World}
    (h : call.run hr w = .ok () w1) (hb : Bounded w.eb) : Bounded w1.eb := by
  unfold Bounded at *
  cases call with
  | addEnergy amount metrics =>
    obtain ⟨_, _, _, he, _⟩ := AddEnergy_eq_ok h
    rw [he]; simp
  | spendEnergy amount metrics =>
    obtain ⟨hpos, he, _⟩ := SpendEnergy_eq_ok h
    rw [he]; simp only
    exact le_trans (by linarith) hb
  | resetEnergyTick =>
    obtain ⟨_, he, _⟩ := ResetEnergyTick_eq_ok h
    rw [he]; simp
  | runTask =>
    obtain ⟨due, wm, h1, h2⟩ := andThen_eq_ok h
    injection h2 with _ h3
    subst h3
    rcases RunTask_eq_ok h1 with ⟨_, he⟩ | ⟨_, he⟩
    · rw [he]; exact hb
    · rw [he]; simp
  | multiplyEnergyRegenSpeed multiplier =>
    obtain ⟨u, wm, h1, h2⟩ := andThen_eq_ok h
    obtain ⟨_, he, _⟩ := ResetEnergyTick_eq_ok h1
    injection h2 with _ h3
    subst h3
    simp [he]
  | updateMaxEnergy bonusEnergy metrics =>
    obtain ⟨u, wm, h1, h2⟩ := andThen_eq_ok h
    obtain ⟨_, he, _⟩ := ResetEnergyTick_eq_ok h1
    simp only at h2
    split at h2
    · obtain ⟨_, _, _, he2, _⟩ := AddEnergy_eq_ok h2
      rw [he2]; simp
    · obtain ⟨hpos, he2, _⟩ := SpendEnergy_eq_ok h2
      rw [he2]
      simp only [he] at hpos ⊢
      rcases le_total (-bonusEnergy) (min (w.eb.currentEnergy + partialTickAmount w) w.eb.maxEnergy)
        with hle | hle
      · rw [min_eq_left hle]
        have := min_le_right (w.eb.currentEnergy + partialTickAmount w) w.eb.maxEnergy
        exact le_trans (by linarith) (le_max_left _ _)
      · rw [min_eq_right hle]
        simp
  | reset =>
    simp only [BarCall.run, Cata.reset] at h
    split at h
    · injection h with _ h2
      subst h2
      exact hb
    · split at h
      · obtain ⟨h1, h2⟩ := enable_eq_ok h
        rw [h1, h2]; simp
      · injection h with _ h2
        subst h2
        simp

theorem runCalls_bounded {hr : ℚ} (calls : List (Int × BarCall)) :
    ∀ {w w1 : World}, runCalls hr calls w = .ok () w1 → Bounded w.eb → Bounded w1.eb := by
  induction calls with
  | nil =>
    intro w w1 h hb
    injection h with _ h2
    subst h2
    exact hb
  | cons c rest ih =>
    intro w w1 h hb
    obtain ⟨now, call⟩ := c
    obtain ⟨u, wm, h1, h2⟩ := andThen_eq_ok h
    exact ih h2 (BarCall.run_bounded h1 hb)

/-! ## Claims on gains, spends and ticks -/

/-- C1, counterexample: on a bar holding 50 of 100, `UpdateMaxEnergy` with a bonus of -150
completes and leaves currentEnergy = 0 above maxEnergy = -50. -/
theorem energy_above_max_after_large_negative_bonus :
    (0 : ℚ) ≤ (barWith 50 100000000).currentEnergy ∧
    (barWith 50 100000000).currentEnergy ≤ (barWith 50 100000000).maxEnergy ∧
    (runCalls 1 [(0, BarCall.updateMaxEnergy (-150) 2)]
      ⟨barWith 50 100000000, simAt 0⟩).completes = true ∧
    (runCalls 1 [(0, BarCall.updateMaxEnergy (-150) 2)]
      ⟨barWith 50 100000000, simAt 0⟩).state.eb.currentEnergy = 0 ∧
    (runCalls 1 [(0, BarCall.updateMaxEnergy (-150) 2)]
      ⟨barWith 50 100000000, simAt 0⟩).state.eb.maxEnergy = -50 ∧
    ¬ ((runCalls 1 [(0, BarCall.updateMaxEnergy (-150) 2)]
      ⟨barWith 50 100000000, simAt 0⟩).state.eb.currentEnergy ≤
        (runCalls 1 [(0, BarCall.updateMaxEnergy (-150) 2)]
          ⟨barWith 50 100000000, simAt 0⟩).state.eb.maxEnergy) := by
  norm_num [runCalls, BarCall.run, UpdateMaxEnergy, ResetEnergyTick, partialTickAmount,
    addEnergyInternal, onEnergyGain, SpendEnergy, AddEnergy, Outcome.andThen, Outcome.completes,
    Outcome.state, barWith, simAt, EnableEnergyBar, plainUnit, World.addEvent,
    World.logIfEnabled, World.rescheduleTask, NextEnergyTickAt, EnergyTickDuration, EnergyPerTick]

/-- C1, as amended: from any state with 0 <= currentEnergy <= maxEnergy, after every finite
sequence of AddEnergy, SpendEnergy, ResetEnergyTick, RunTask, MultiplyEnergyRegenSpeed,
UpdateMaxEnergy (any bonus) and reset calls that completes without panicking, currentEnergy
is at most max(maxEnergy, 0); so currentEnergy <= maxEnergy holds in every state reached whose
maxEnergy is not negative. -/
theorem energy_bounded_after_calls (hr : ℚ) (calls : List (Int × BarCall)) (w w1 : World)
    (h0 : 0 ≤ w.eb.currentEnergy) (hmax : w.eb.currentEnergy ≤ w.eb.maxEnergy)
    (hrun : runCalls hr calls w = .ok () w1) :
    w1.eb.currentEnergy ≤ max w1.eb.maxEnergy 0 ∧
    (0 ≤ w1.eb.maxEnergy → w1.eb.currentEnergy ≤ w1.eb.maxEnergy) := by
  have hb : Bounded w.eb := le_trans hmax (le_max_left _ _)
  have hb1 : Bounded w1.eb := runCalls_bounded calls hrun hb
  have _ := h0
  refine ⟨hb1, fun hpos => ?_⟩
  unfold Bounded at hb1
  rwa [max_eq_left hpos] at hb1

/-- Witness of C1: a gain of 70, a spend of 30 and a tick on a bar holding 50 of 100. -/
theorem energy_bounded_after_calls_witness :
    (0 : ℚ) ≤ (barWith 50 0).currentEnergy ∧
    (barWith 50 0).currentEnergy ≤ (barWith 50 0).maxEnergy ∧
    runCalls 1 [(5, BarCall.addEnergy 70 2), (6, BarCall.spendEnergy 30 3)]
      ⟨barWith 50 0, simAt 0⟩ =
      .ok () ⟨barWith 70 0, { simAt 6 with metrics := [⟨2, 70, 50⟩, ⟨3, -30, -30⟩], nextActionCalls := 1 }⟩ ∧
    (barWith 70 0).currentEnergy ≤ max (barWith 70 0).maxEnergy 0 ∧
    (0 ≤ (barWith 70 0).maxEnergy → (barWith 70 0).currentEnergy ≤ (barWith 70 0).maxEnergy) :=
  have hrun : runCalls 1 [(5, BarCall.addEnergy 70 2), (6, BarCall.spendEnergy 30 3)]
      ⟨barWith 50 0, simAt 0⟩ =
      .ok () ⟨barWith 70 0, { simAt 6 with metrics := [⟨2, 70, 50⟩, ⟨3, -30, -30⟩], nextActionCalls := 1 }⟩ := by
    norm_num [runCalls, BarCall.run, addEnergyInternal, onEnergyGain, SpendEnergy, AddEnergy,
      Outcome.andThen, barWith, simAt, EnableEnergyBar, plainUnit, World.addEvent,
      World.logIfEnabled]
  have h0 : (0 : ℚ) ≤ (barWith 50 0).currentEnergy := by norm_num [barWith]
  have hmax : (barWith 50 0).currentEnergy ≤ (barWith 50 0).maxEnergy := by
    norm_num [barWith, EnableEnergyBar]
  ⟨h0, hmax, hrun, energy_bounded_after_calls 1 _ ⟨barWith 50 0, simAt 0⟩ _ h0 hmax hrun⟩

/-- C2, counterexample: in `float64` arithmetic a gain of 0.6 on a bar holding 50 of 100 leaves
50.6 rounded, and the event recorded has the gross value 0.6 and the net value
0.6000000000000014, that is 84442493013197 / 2^47, above the gross value: the net does not lie
in [0, amount] and the waste gross - net is negative. -/
theorem float64_net_exceeds_gross :
    |sixTenths.toRat - 3 / 5| < 1 / 2 ^ 54 ∧
    (⟨50, 0⟩ : Float64).toRat = 50 ∧ (⟨100, 0⟩ : Float64).toRat = 100 ∧
    (addEnergyInternalFloat64 ⟨50, 0⟩ ⟨100, 0⟩ sixTenths).2.1 = sixTenths ∧
    (addEnergyInternalFloat64 ⟨50, 0⟩ ⟨100, 0⟩ sixTenths).2.2.toRat = 84442493013197 / 2 ^ 47 ∧
    sixTenths.toRat < (addEnergyInternalFloat64 ⟨50, 0⟩ ⟨100, 0⟩ sixTenths).2.2.toRat ∧
    sixTenths.toRat - (addEnergyInternalFloat64 ⟨50, 0⟩ ⟨100, 0⟩ sixTenths).2.2.toRat < 0 := by
  have h : addEnergyInternalFloat64 ⟨50, 0⟩ ⟨100, 0⟩ sixTenths =
      (⟨7121316910779597, -47⟩, sixTenths, ⟨84442493013197, -47⟩) := by decide
  rw [h]
  refine ⟨?_, ?_, ?_, rfl, ?_, ?_, ?_⟩ <;> norm_num [Float64.toRat, sixTenths, abs_lt]

/-- C2, as amended: with the amounts taken as exact rationals (the rounding of `float64` left
out), a completed AddEnergy with amount >= 0 leaves currentEnergy = min(old + amount, maxEnergy)
and records exactly one metrics event, with gross = amount and net = new - old; when
old <= maxEnergy the net value lies in [0, amount], so the waste gross - net is not negative. -/
theorem AddEnergy_clamps_and_records (w w1 : World) (amount : ℚ) (metrics : Nat)
    (hamount : 0 ≤ amount) (h : AddEnergy amount metrics w = .ok () w1) :
    w1.eb.currentEnergy = min (w.eb.currentEnergy + amount) w.eb.maxEnergy ∧
    w1.sim.metrics = w.sim.metrics ++
      [⟨metrics, amount, w1.eb.currentEnergy - w.eb.currentEnergy⟩] ∧
    (w.eb.currentEnergy ≤ w.eb.maxEnergy →
      0 ≤ w1.eb.currentEnergy - w.eb.currentEnergy ∧
      w1.eb.currentEnergy - w.eb.currentEnergy ≤ amount ∧
      0 ≤ amount - (w1.eb.currentEnergy - w.eb.currentEnergy)) := by
  obtain ⟨crossed, wm, h1, he, hs⟩ := AddEnergy_eq_ok h
  obtain ⟨_, _, hsm⟩ := addEnergyInternal_eq_ok h1
  have hc : w1.eb.currentEnergy = min (w.eb.currentEnergy + amount) w.eb.maxEnergy := by
    rw [he]
  refine ⟨hc, ?_, fun hle => ?_⟩
  · rw [hs, hsm, hc]
  · rw [hc]
    have h1 : w.eb.currentEnergy ≤ min (w.eb.currentEnergy + amount) w.eb.maxEnergy :=
      le_min (by linarith) hle
    have h2 := min_le_left (w.eb.currentEnergy + amount) w.eb.maxEnergy
    refine ⟨by linarith, by linarith, by linarith⟩

/-- Witness of C2: a gain of 70 on a bar holding 50 of 100 gives 100 and the event (70, 50). -/
theorem AddEnergy_clamps_and_records_witness :
    ∃ w1, AddEnergy 70 2 ⟨barWith 50 0, simAt 5⟩ = .ok () w1 ∧
      w1.eb.currentEnergy = 100 ∧ w1.sim.metrics = [⟨2, 70, 50⟩] := by
  have hrun : AddEnergy 70 2 ⟨barWith 50 0, simAt 5⟩ =
      .ok () ⟨barWith 100 0, { simAt 5 with metrics := [⟨2, 70, 50⟩], nextActionCalls := 1 }⟩ := by
    norm_num [addEnergyInternal, onEnergyGain, AddEnergy, Outcome.andThen, barWith, simAt,
      EnableEnergyBar, plainUnit, World.addEvent, World.logIfEnabled]
  obtain ⟨hc, hm, _⟩ := AddEnergy_clamps_and_records _ _ 70 2 (by norm_num) hrun
  refine ⟨_, hrun, ?_, ?_⟩
  · rw [hc]; norm_num [barWith, EnableEnergyBar]
  · rw [hm]; norm_num [barWith, simAt]

/-- C7: with amount < 0, AddEnergy and SpendEnergy each panic in the state they were called
in: no metrics event is recorded and currentEnergy, maxEnergy, comboPoints and nextEnergyTick
are unchanged. -/
theorem negative_amount_panics_without_effect (w : World) (amount : ℚ) (metrics : Nat)
    (hneg : amount < 0) :
    AddEnergy amount metrics w = .panic addNegativeMsg w ∧
    SpendEnergy amount metrics w = .panic spendNegativeMsg w := by
  constructor
  · simp [AddEnergy, addEnergyInternal, hneg, Outcome.andThen]
  · simp [SpendEnergy, hneg]

/-- Witness of C7: the amount -1 on a bar holding 50. -/
theorem negative_amount_panics_without_effect_witness :
    ((-1 : ℚ) < 0) ∧
    AddEnergy (-1) 2 ⟨barWith 50 0, simAt 5⟩ = .panic addNegativeMsg ⟨barWith 50 0, simAt 5⟩ ∧
    SpendEnergy (-1) 2 ⟨barWith 50 0, simAt 5⟩ = .panic spendNegativeMsg ⟨barWith 50 0, simAt 5⟩ :=
  ⟨by norm_num, negative_amount_panics_without_effect ⟨barWith 50 0, simAt 5⟩ (-1) 2 (by norm_num)⟩

/-- C8: a completed AddEnergy invokes Rotation.DoNextAction exactly once if the gain crossed a
threshold (no table, or the table entries at int(old currentEnergy) and int(new currentEnergy)
differ), the simulation is not Interactive and CurrentTime >= 0; otherwise it does not invoke
it at all. -/
theorem AddEnergy_next_action_calls (w w1 : World) (amount : ℚ) (metrics : Nat)
    (h : AddEnergy amount metrics w = .ok () w1) :
    ((w1.sim.nextActionCalls = w.sim.nextActionCalls + 1) ↔
      ((w.eb.cumulativeEnergyDecisionThresholds = none ∨
          ∃ tbl, w.eb.cumulativeEnergyDecisionThresholds = some tbl ∧
            sliceGet tbl (goInt w.eb.currentEnergy) ≠
              sliceGet tbl (goInt (min (w.eb.currentEnergy + amount) w.eb.maxEnergy))) ∧
        w.sim.Interactive = false ∧ 0 ≤ w.sim.CurrentTime)) ∧
    (w1.sim.nextActionCalls = w.sim.nextActionCalls + 1 ∨
      w1.sim.nextActionCalls = w.sim.nextActionCalls) := by
  obtain ⟨crossed, wm, h1, he, hs⟩ := AddEnergy_eq_ok h
  have hcr := addEnergyInternal_crossed h1
  rw [hs]
  simp only
  by_cases hc : 0 ≤ w.sim.CurrentTime ∧ w.sim.Interactive = false ∧ crossed = true
  · rw [if_pos hc]
    exact ⟨⟨fun _ => ⟨hcr.mp hc.2.2, hc.2.1, hc.1⟩, fun _ => rfl⟩, Or.inl rfl⟩
  · rw [if_neg hc]
    refine ⟨⟨fun hh => absurd hh (by omega), fun hh => ?_⟩, Or.inr rfl⟩
    exact absurd ⟨hh.2.2, hh.2.1, hcr.mpr hh.1⟩ hc

/-- Witness of C8: a gain on a bar without table at time 5 invokes the callback once. -/
theorem AddEnergy_next_action_calls_witness :
    ∃ w1, AddEnergy 70 2 ⟨barWith 50 0, simAt 5⟩ = .ok () w1 ∧
      w1.sim.nextActionCalls = (simAt 5).nextActionCalls + 1 := by
  have hrun : AddEnergy 70 2 ⟨barWith 50 0, simAt 5⟩ =
      .ok () ⟨barWith 100 0, { simAt 5 with metrics := [⟨2, 70, 50⟩], nextActionCalls := 1 }⟩ := by
    norm_num [addEnergyInternal, onEnergyGain, AddEnergy, Outcome.andThen, barWith, simAt,
      EnableEnergyBar, plainUnit, World.addEvent, World.logIfEnabled]
  refine ⟨_, hrun, ?_⟩
  exact (AddEnergy_next_action_calls _ _ 70 2 hrun).1.mpr
    ⟨Or.inl (by simp [barWith, EnableEnergyBar]), by simp [simAt], by simp [simAt]⟩

/-- C9: for every amount >= 0, SpendEnergy completes and sets currentEnergy to
old currentEnergy - amount without clamping at zero (negative whenever amount exceeds the old
amount), records the one metrics event (-amount, -amount), never invokes the next-action
callback and leaves every other field of the bar unchanged. -/
theorem SpendEnergy_exact (w : World) (amount : ℚ) (metrics : Nat) (hamount : 0 ≤ amount) :
    ∃ w1, SpendEnergy amount metrics w = .ok () w1 ∧
      w1.eb = { w.eb with currentEnergy := w.eb.currentEnergy - amount } ∧
      (w.eb.currentEnergy < amount → w1.eb.currentEnergy < 0) ∧
      w1.sim.metrics = w.sim.metrics ++ [⟨metrics, -amount, -amount⟩] ∧
      w1.sim.nextActionCalls = w.sim.nextActionCalls ∧
      w1.sim.schedulerCalls = w.sim.schedulerCalls := by
  have hrun : ∃ w1, SpendEnergy amount metrics w = .ok () w1 := by
    simp [SpendEnergy, not_lt.mpr hamount]
  obtain ⟨w1, h⟩ := hrun
  obtain ⟨_, he, hs⟩ := SpendEnergy_eq_ok h
  refine ⟨w1, h, he, fun hlt => ?_, ?_, ?_, ?_⟩
  · rw [he]; simp only; linarith
  · rw [hs]
  · rw [hs]
  · rw [hs]

/-- Witness of C9: spending 40 of 100 leaves 60 and records the event (-40, -40). -/
theorem SpendEnergy_exact_witness :
    ∃ w1, SpendEnergy 40 3 ⟨barWith 100 0, simAt 5⟩ = .ok () w1 ∧
      w1.eb.currentEnergy = 60 ∧ w1.sim.metrics = [⟨3, -40, -40⟩] := by
  obtain ⟨w1, h, he, _, hm, _⟩ := SpendEnergy_exact ⟨barWith 100 0, simAt 5⟩ 40 3 (by norm_num)
  refine ⟨w1, h, ?_, ?_⟩
  · rw [he]; norm_num [barWith]
  · rw [hm]; simp [simAt]

/-- C10: for a bar whose last full tick was at nextEnergyTick - EnergyTickDuration and a
completed ResetEnergyTick at now = that instant + t with 0 < t < T = EnergyTickDuration, the
gross gain recorded is EnergyPerTick * hasteRatingMultiplier * energyRegenMultiplier * (t / T),
it is credited clamped at maxEnergy, and nextEnergyTick becomes now + T. -/
theorem ResetEnergyTick_credits_share (w w1 : World) (t : Int)
    (ht0 : 0 < t) (htT : t < EnergyTickDuration)
    (hnow : w.sim.CurrentTime = (w.eb.nextEnergyTick - EnergyTickDuration) + t)
    (h : ResetEnergyTick w = .ok () w1) :
    w1.sim.metrics = w.sim.metrics ++ [⟨w.eb.regenMetrics,
      EnergyPerTick * w.eb.hasteRatingMultiplier * w.eb.energyRegenMultiplier *
        ((t : ℚ) / (EnergyTickDuration : ℚ)),
      w1.eb.currentEnergy - w.eb.currentEnergy⟩] ∧
    w1.eb.currentEnergy = min (w.eb.currentEnergy +
      EnergyPerTick * w.eb.hasteRatingMultiplier * w.eb.energyRegenMultiplier *
        ((t : ℚ) / (EnergyTickDuration : ℚ))) w.eb.maxEnergy ∧
    w1.eb.nextEnergyTick = w.sim.CurrentTime + EnergyTickDuration := by
  obtain ⟨_, he, hm, _⟩ := ResetEnergyTick_eq_ok h
  have _ := ht0
  have _ := htT
  have hp : partialTickAmount w = EnergyPerTick * w.eb.hasteRatingMultiplier *
      w.eb.energyRegenMultiplier * ((t : ℚ) / (EnergyTickDuration : ℚ)) := by
    simp only [partialTickAmount, NextEnergyTickAt, hnow]
    congr 2
    push_cast
    ring
  rw [hm, he, hp]
  exact ⟨rfl, rfl, rfl⟩

/-- Witness of C10: 60ms into a 100ms interval with both multipliers 1, on a bar holding 50:
the gain is 0.6 (that is 3/5) and the next tick is due 100ms after the call. -/
theorem ResetEnergyTick_credits_share_witness :
    ∃ w1, ResetEnergyTick ⟨barWith 50 100000000, simAt 60000000⟩ = .ok () w1 ∧
      w1.sim.metrics = [⟨0, 3 / 5, 3 / 5⟩] ∧ w1.eb.currentEnergy = 50 + 3 / 5 ∧
      w1.eb.nextEnergyTick = 60000000 + 100000000 := by
  have hrun : ResetEnergyTick ⟨barWith 50 100000000, simAt 60000000⟩ =
      .ok () ⟨barWith (50 + 3 / 5) 160000000,
        { simAt 60000000 with
          metrics := [⟨0, 3 / 5, 3 / 5⟩]
          nextActionCalls := 1
          schedulerCalls := [SchedulerCall.reschedule 160000000] }⟩ := by
    norm_num [ResetEnergyTick, partialTickAmount, addEnergyInternal, onEnergyGain,
      Outcome.andThen, barWith, simAt, EnableEnergyBar, plainUnit, World.addEvent,
      World.logIfEnabled, World.rescheduleTask, NextEnergyTickAt, EnergyTickDuration,
      EnergyPerTick]
  obtain ⟨hm, hc, hn⟩ := ResetEnergyTick_credits_share _ _ 60000000 (by norm_num)
    (by norm_num [EnergyTickDuration])
    (by norm_num [barWith, simAt, EnergyTickDuration]) hrun
  refine ⟨_, hrun, ?_, ?_, ?_⟩
  · rw [hm]
    norm_num [barWith, simAt, EnableEnergyBar, EnergyPerTick, EnergyTickDuration]
  · rw [hc]
    norm_num [barWith, simAt, EnableEnergyBar, EnergyPerTick, EnergyTickDuration]
  · rw [hn]
    norm_num [simAt, EnergyTickDuration]

/-! ## The threshold table -/

theorem fillBelow_spec (cum threshold : Int) :
    ∀ (n : Nat) (tbl : List Int) (cur : Int), 0 ≤ cur → threshold ≤ tbl.length →
      n = (threshold - cur).toNat →
      ∃ tbl1, fillBelow cum threshold n tbl cur = .ok (tbl1, max cur threshold) ∧
        tbl1.length = tbl.length ∧
        ∀ i : Nat, tbl1[i]? = if cur ≤ (i : Int) ∧ (i : Int) < threshold then some cum else tbl[i]? := by
  intro n
  induction n with
  | zero =>
    intro tbl cur hcur hlen hn
    have hle : threshold ≤ cur := by omega
    refine ⟨tbl, ?_, rfl, fun i => ?_⟩
    · simp [fillBelow, max_eq_left hle]
    · have : ¬ (cur ≤ (i : Int) ∧ (i : Int) < threshold) := by omega
      simp [this]
  | succ n ih =>
    intro tbl cur hcur hlen hn
    have hlt : cur < threshold := by omega
    have hidx : 0 ≤ cur ∧ cur < tbl.length := ⟨hcur, by omega⟩
    obtain ⟨tbl1, h1, h2, h3⟩ := ih (tbl.set cur.toNat cum) (cur + 1) (by omega)
      (by simpa using hlen) (by omega)
    refine ⟨tbl1, ?_, by simpa using h2, fun i => ?_⟩
    · simp only [fillBelow, hlt, if_true, sliceSet, hidx, and_self]
      rw [h1]
      congr 2
      omega
    · rw [h3 i]
      by_cases hi : (i : Int) = cur
      · have h4 : cur.toNat = i := by omega
        have h5 : i < tbl.length := by omega
        have h6 : ¬ (cur + 1 ≤ (i : Int) ∧ (i : Int) < threshold) := by omega
        have h7 : cur ≤ (i : Int) ∧ (i : Int) < threshold := by omega
        simp [h6, h7, h4, h5]
      · have h4 : cur.toNat ≠ i := by omega
        by_cases h5 : cur ≤ (i : Int) ∧ (i : Int) < threshold
        · have h6 : cur + 1 ≤ (i : Int) ∧ (i : Int) < threshold := by omega
          simp [h5, h6]
        · have h6 : ¬ (cur + 1 ≤ (i : Int) ∧ (i : Int) < threshold) := by omega
          simp [h5, h6, List.getElem?_set_ne h4]

theorem thresholdsAtMost_cons (t : Int) (ts : List Int) (e : Int) :
    thresholdsAtMost (t :: ts) e = (if t ≤ e then 1 else 0) + thresholdsAtMost ts e := by
  unfold thresholdsAtMost
  by_cases h : t ≤ e
  · simp [List.filter_cons, h]; omega
  · simp [List.filter_cons, h]

theorem thresholdsAtMost_eq_zero {ts : List Int} {e : Int} (h : ∀ t ∈ ts, e < t) :
    thresholdsAtMost ts e = 0 := by
  unfold thresholdsAtMost
  rw [List.length_eq_zero, List.filter_eq_nil_iff]
  intro t ht
  have := h t ht
  simp only [decide_eq_true_eq]
  omega

theorem thresholdsAtMost_eq_length {ts : List Int} {e : Int} (h : ∀ t ∈ ts, t ≤ e) :
    thresholdsAtMost ts e = ts.length := by
  unfold thresholdsAtMost
  rw [List.filter_eq_self.mpr]
  intro t ht
  simpa using h t ht

theorem fillThresholds_spec :
    ∀ (ts tbl : List Int) (cur cum : Int), 0 ≤ cur → ts.Pairwise (· < ·) →
      (∀ t ∈ ts, cur < t) → (∀ t ∈ ts, t ≤ tbl.length) →
      ∃ tbl1 cur1, fillThresholds ts tbl cur cum = .ok (tbl1, cur1, cum + ts.length) ∧
        tbl1.length = tbl.length ∧ cur ≤ cur1 ∧ (∀ t ∈ ts, t ≤ cur1) ∧
        ∀ i : Nat, tbl1[i]? =
          if cur ≤ (i : Int) ∧ (i : Int) < cur1 then some (cum + thresholdsAtMost ts i)
          else tbl[i]? := by
  intro ts
  induction ts with
  | nil =>
    intro tbl cur cum hcur _ _ _
    refine ⟨tbl, cur, by simp [fillThresholds], rfl, le_refl _, by simp, fun i => ?_⟩
    have : ¬ (cur ≤ (i : Int) ∧ (i : Int) < cur) := by omega
    simp [this]
  | cons t rest ih =>
    intro tbl cur cum hcur hsorted hgt hlen
    have hct : cur < t := hgt t (List.mem_cons_self _ _)
    have htl : t ≤ tbl.length := hlen t (List.mem_cons_self _ _)
    obtain ⟨tbl1, h1, h2, h3⟩ := fillBelow_spec cum t (t - cur).toNat tbl cur hcur htl rfl
    rw [max_eq_right (le_of_lt hct)] at h1
    have hrest : ∀ x ∈ rest, t < x := (List.pairwise_cons.mp hsorted).1
    obtain ⟨tbl2, cur2, k1, k2, k3, k4, k5⟩ := ih tbl1 t (cum + 1) (by omega)
      (List.pairwise_cons.mp hsorted).2 hrest
      (fun x hx => by rw [h2]; exact hlen x (List.mem_cons_of_mem _ hx))
    refine ⟨tbl2, cur2, ?_, by rw [k2, h2], by omega, ?_, fun i => ?_⟩
    · simp only [fillThresholds, h1, k1, List.length_cons]
      congr 3
      push_cast
      ring
    · intro x hx
      rcases List.mem_cons.mp hx with rfl | hx
      · exact k3
      · exact k4 x hx
    · rw [k5 i, h3 i, thresholdsAtMost_cons]
      by_cases hi : t ≤ (i : Int)
      · by_cases hi2 : (i : Int) < cur2
        · have a1 : t ≤ (i : Int) ∧ (i : Int) < cur2 := ⟨hi, hi2⟩
          have a2 : cur ≤ (i : Int) ∧ (i : Int) < cur2 := ⟨by omega, hi2⟩
          simp only [a1, a2, and_self, if_true, hi]
          congr 1
          push_cast
          ring
        · have a1 : ¬ (t ≤ (i : Int) ∧ (i : Int) < cur2) := fun h => hi2 h.2
          have a2 : ¬ (cur ≤ (i : Int) ∧ (i : Int) < cur2) := fun h => hi2 h.2
          have a3 : ¬ (cur ≤ (i : Int) ∧ (i : Int) < t) := by omega
          simp only [a1, a2, a3, if_false]
      · have a1 : ¬ (t ≤ (i : Int) ∧ (i : Int) < cur2) := fun h => hi h.1
        simp only [a1, if_false]
        by_cases hi2 : cur ≤ (i : Int)
        · have a2 : cur ≤ (i : Int) ∧ (i : Int) < cur2 := ⟨hi2, by omega⟩
          have a3 : cur ≤ (i : Int) ∧ (i : Int) < t := ⟨hi2, by omega⟩
          have a4 : thresholdsAtMost rest i = 0 :=
            thresholdsAtMost_eq_zero fun x hx => by have := hrest x hx; omega
          simp [a2, a3, hi, a4]
        · have a2 : ¬ (cur ≤ (i : Int) ∧ (i : Int) < cur2) := fun h => hi2 h.1
          have a3 : ¬ (cur ≤ (i : Int) ∧ (i : Int) < t) := fun h => hi2 h.1
          simp only [a2, a3, if_false]

theorem buildTable_spec (ts : List Int) (len : Nat) (hsorted : ts.Pairwise (· < ·))
    (hpos : ∀ t ∈ ts, 0 < t) (hlen : ∀ t ∈ ts, t ≤ len) :
    ∃ tbl, buildTable ts len = .ok tbl ∧ tbl.length = len ∧
      ∀ i : Nat, i < len → tbl[i]? = some (thresholdsAtMost ts i : Int) := by
  obtain ⟨tbl1, cur1, h1, h2, h3, h4, h5⟩ := fillThresholds_spec ts (List.replicate len 0) 0 0
    (le_refl _) hsorted hpos (by simpa using hlen)
  obtain ⟨tbl2, k1, k2, k3⟩ := fillBelow_spec (0 + ts.length) len (len - cur1).toNat tbl1 cur1 h3
    (by rw [h2]; simp) rfl
  refine ⟨tbl2, ?_, by rw [k2, h2]; simp, fun i hi => ?_⟩
  · simp only [buildTable, h1, k1]
  · rw [k3 i, h5 i]
    by_cases hc : (i : Int) < cur1
    · have a1 : ¬ (cur1 ≤ (i : Int) ∧ (i : Int) < (len : Int)) := by omega
      have a2 : (0 : Int) ≤ (i : Int) ∧ (i : Int) < cur1 := ⟨by omega, hc⟩
      simp [a1, a2]
    · have a1 : cur1 ≤ (i : Int) ∧ (i : Int) < (len : Int) := by omega
      have a2 : thresholdsAtMost ts i = ts.length :=
        thresholdsAtMost_eq_length fun t ht => by have := h4 t ht; omega
      simp [a1, a2]

theorem goCeilInt_inRange (q : ℚ) : InIntRange (goCeilInt q) := by
  unfold goCeilInt
  split
  · assumption
  · decide

theorem goCeilInt_of_inRange {q : ℚ} (h : InIntRange ⌈q⌉) : goCeilInt q = ⌈q⌉ := by
  rw [goCeilInt, if_pos h]

theorem thresholdCmp_of_inRange {t1 t2 : Int} (h : InIntRange (t1 - t2)) :
    thresholdCmp t1 t2 = t1 - t2 := by
  obtain ⟨h0, h1⟩ := h
  simp only [thresholdCmp, wrapInt64]
  omega

theorem insertSorted_perm (x : Int) (l : List Int) : (insertSorted x l).Perm (x :: l) := by
  induction l with
  | nil => simp [insertSorted]
  | cons y before ih =>
    simp only [insertSorted]
    split
    · exact (List.Perm.cons y ih).trans (List.Perm.swap x y before)
    · exact List.Perm.refl _

theorem foldl_insertSorted_perm (l : List Int) :
    ∀ placed : List Int, (l.foldl (fun placed x => insertSorted x placed) placed).Perm (l ++ placed) := by
  induction l with
  | nil => intro placed; simp
  | cons x rest ih =>
    intro placed
    simp only [List.foldl_cons]
    refine (ih _).trans ?_
    refine (List.Perm.append_left rest (insertSorted_perm x placed)).trans ?_
    simp only [List.cons_append]
    exact List.perm_middle

theorem sortStable_perm (l : List Int) : (sortStable l).Perm l := by
  unfold sortStable
  refine (List.reverse_perm _).trans ?_
  simpa using foldl_insertSorted_perm l []

theorem mem_sortStable {l : List Int} {t : Int} : t ∈ sortStable l ↔ t ∈ l :=
  (sortStable_perm l).mem_iff

theorem insertSorted_sorted (x : Int) (l : List Int) (hl : l.Pairwise (· ≥ ·))
    (hx : ∀ y ∈ l, InIntRange (x - y)) : (insertSorted x l).Pairwise (· ≥ ·) := by
  induction l with
  | nil => simp [insertSorted]
  | cons y before ih =>
    have hy := thresholdCmp_of_inRange (hx y (List.mem_cons_self _ _))
    obtain ⟨h1, h2⟩ := List.pairwise_cons.mp hl
    simp only [insertSorted, hy]
    split
    · rename_i hlt
      refine List.pairwise_cons.mpr ⟨fun z hz => ?_, ih h2 fun z hz => hx z (List.mem_cons_of_mem _ hz)⟩
      rcases List.mem_cons.mp ((insertSorted_perm x before).mem_iff.mp hz) with rfl | hz
      · show y ≥ z
        omega
      · exact h1 z hz
    · rename_i hge
      refine List.pairwise_cons.mpr ⟨fun z hz => ?_, hl⟩
      rcases List.mem_cons.mp hz with rfl | hz
      · show x ≥ z
        omega
      · have := h1 z hz
        show x ≥ z
        omega

theorem foldl_insertSorted_sorted (l : List Int) :
    ∀ placed : List Int, placed.Pairwise (· ≥ ·) →
      (∀ a ∈ l ++ placed, ∀ b ∈ l ++ placed, InIntRange (a - b)) →
      (l.foldl (fun placed x => insertSorted x placed) placed).Pairwise (· ≥ ·) := by
  induction l with
  | nil => intro placed hp _; simpa using hp
  | cons x rest ih =>
    intro placed hp hr
    simp only [List.foldl_cons]
    refine ih _ (insertSorted_sorted x placed hp fun y hy => hr x (by simp) y (by simp [hy])) ?_
    intro a ha b hb
    have ha1 : a ∈ x :: rest ++ placed := by
      rcases List.mem_append.mp ha with h | h
      · simp [h]
      · rcases List.mem_cons.mp ((insertSorted_perm x placed).mem_iff.mp h) with h | h <;> simp [h]
    have hb1 : b ∈ x :: rest ++ placed := by
      rcases List.mem_append.mp hb with h | h
      · simp [h]
      · rcases List.mem_cons.mp ((insertSorted_perm x placed).mem_iff.mp h) with h | h <;> simp [h]
    exact hr a ha1 b hb1

/-- When no difference of two collected values leaves the 64-bit range, the sort puts them in
non-decreasing order. -/
theorem sortStable_sorted (l : List Int) (h : ∀ a ∈ l, ∀ b ∈ l, InIntRange (a - b)) :
    (sortStable l).Pairwise (· ≤ ·) := by
  unfold sortStable
  rw [List.pairwise_reverse]
  exact foldl_insertSorted_sorted l [] List.Pairwise.nil (by simpa using h)

/-- Whatever the order of its input, the loop keeping each value above the last one kept gives a
strictly increasing list of values of the input above the start. -/
theorem uniqueThresholds_increasing :
    ∀ (l : List Int) (cur : Int),
      (uniqueThresholds cur l).Pairwise (· < ·) ∧
      ∀ t ∈ uniqueThresholds cur l, t ∈ l ∧ cur < t := by
  intro l
  induction l with
  | nil => intro cur; simp [uniqueThresholds]
  | cons x rest ih =>
    intro cur
    by_cases hgt : x > cur
    · obtain ⟨k1, k2⟩ := ih x
      simp only [uniqueThresholds, hgt, if_true]
      refine ⟨List.pairwise_cons.mpr ⟨fun y hy => (k2 y hy).2, k1⟩, fun t ht => ?_⟩
      rcases List.mem_cons.mp ht with rfl | ht
      · exact ⟨List.mem_cons_self _ _, hgt⟩
      · exact ⟨List.mem_cons_of_mem _ (k2 t ht).1, by have := (k2 t ht).2; omega⟩
    · obtain ⟨k1, k2⟩ := ih cur
      simp only [uniqueThresholds, hgt, if_false]
      exact ⟨k1, fun t ht => ⟨List.mem_cons_of_mem _ (k2 t ht).1, (k2 t ht).2⟩⟩

theorem collectThresholds_inRange (actions : List APLAction) :
    ∀ t ∈ collectThresholds actions, InIntRange t := by
  intro t ht
  simp only [collectThresholds, spellCostThresholds, compareThresholds, List.mem_append,
    List.mem_flatten, List.mem_map, List.mem_filter] at ht
  rcases ht with ⟨l, ⟨action, _, rfl⟩, ht⟩ | ⟨l, ⟨action, _, rfl⟩, ht⟩
  · simp only [List.mem_map] at ht
    obtain ⟨spell, _, rfl⟩ := ht
    exact goCeilInt_inRange _
  · simp only [List.mem_flatten, List.mem_map] at ht
    obtain ⟨l1, ⟨v, _, rfl⟩, ht⟩ := ht
    cases v with
    | other => simp [compareThreshold] at ht
    | compare lhs rhs =>
      simp only [compareThreshold] at ht
      split at ht
      · simp at ht
      · split at ht
        · rw [List.mem_singleton.mp ht]; exact goCeilInt_inRange _
        · split at ht
          · rw [List.mem_singleton.mp ht]; exact goCeilInt_inRange _
          · simp at ht

/-- Values of the 64-bit range that are not negative have differences in that range, so the
sort orders them. -/
theorem sortStable_sorted_of_nonneg (l : List Int) (h : ∀ t ∈ l, 0 ≤ t ∧ InIntRange t) :
    (sortStable l).Pairwise (· ≤ ·) := by
  refine sortStable_sorted l fun a ha b hb => ?_
  obtain ⟨a0, a1, a2⟩ := h a ha
  obtain ⟨b0, b1, b2⟩ := h b hb
  constructor <;> omega

theorem uniqueThresholds_spec :
    ∀ (l : List Int) (cur : Int), l.Pairwise (· ≤ ·) →
      (uniqueThresholds cur l).Pairwise (· < ·) ∧
      ∀ t, t ∈ uniqueThresholds cur l ↔ t ∈ l ∧ cur < t := by
  intro l
  induction l with
  | nil =>
    intro cur _
    simp [uniqueThresholds]
  | cons x rest ih =>
    intro cur hs
    have hrest := (List.pairwise_cons.mp hs).2
    have hx : ∀ y ∈ rest, x ≤ y := (List.pairwise_cons.mp hs).1
    by_cases hgt : x > cur
    · obtain ⟨k1, k2⟩ := ih x hrest
      simp only [uniqueThresholds, hgt, if_true]
      refine ⟨List.pairwise_cons.mpr ⟨fun y hy => ((k2 y).mp hy).2, k1⟩, fun t => ?_⟩
      rw [List.mem_cons, List.mem_cons, k2 t]
      constructor
      · rintro (rfl | ⟨h1, h2⟩)
        · exact ⟨Or.inl rfl, hgt⟩
        · exact ⟨Or.inr h1, by omega⟩
      · rintro ⟨rfl | h1, h2⟩
        · exact Or.inl rfl
        · have := hx t h1
          by_cases he : t = x
          · exact Or.inl he
          · exact Or.inr ⟨h1, by omega⟩
    · obtain ⟨k1, k2⟩ := ih cur hrest
      simp only [uniqueThresholds, hgt, if_false]
      refine ⟨k1, fun t => ?_⟩
      rw [k2 t, List.mem_cons]
      constructor
      · rintro ⟨h1, h2⟩
        exact ⟨Or.inr h1, h2⟩
      · rintro ⟨rfl | h1, h2⟩
        · exact absurd h2 hgt
        · exact ⟨h1, h2⟩

/-- What `setupEnergyThresholds` does on a bar with a unit and no thresholds yet, when the
table can be allocated and no collected threshold lies beyond its end. -/
theorem setupEnergyThresholds_eq_ok (eb : energyBar) (unit : UnitInfo)
    (hunit : eb.unit = some unit) (hempty : eb.energyDecisionThresholds = [])
    (hmax : 0 ≤ goInt eb.maxEnergy + 1)
    (hfit : ∀ t ∈ collectThresholds unit.aplActions, t ≤ goInt eb.maxEnergy + 1) :
    ∃ tbl, setupEnergyThresholds eb = .ok () { eb with
        energyDecisionThresholds := uniqueThresholds 0 (sortStable (collectThresholds unit.aplActions))
        cumulativeEnergyDecisionThresholds := some tbl } ∧
      (tbl.length : Int) = goInt eb.maxEnergy + 1 ∧
      ∀ i : Nat, (i : Int) ≤ goInt eb.maxEnergy →
        tbl[i]? = some (thresholdsAtMost
          (uniqueThresholds 0 (sortStable (collectThresholds unit.aplActions))) i : Int) := by
  obtain ⟨k1, k2⟩ := uniqueThresholds_increasing (sortStable (collectThresholds unit.aplActions)) 0
  obtain ⟨tbl, h1, h2, h3⟩ := buildTable_spec
    (uniqueThresholds 0 (sortStable (collectThresholds unit.aplActions)))
    (goInt eb.maxEnergy + 1).toNat k1 (fun t ht => (k2 t ht).2)
    (fun t ht => by
      have := hfit t (mem_sortStable.mp (k2 t ht).1)
      omega)
  refine ⟨tbl, ?_, by omega, fun i hi => h3 i (by omega)⟩
  unfold setupEnergyThresholds
  simp only [hunit, hempty, List.nil_append, not_lt.mpr hmax, if_false, h1]

theorem goInt_hundred : goInt (100 : ℚ) = 100 := by
  simp [goInt]

theorem maxEnergy_EnableEnergyBar_hundred (unit : UnitInfo) (a b : Nat) :
    (EnableEnergyBar unit a b 100).maxEnergy = 100 := by
  simp [EnableEnergyBar]

/-- Unfolding of `setupEnergyThresholds` once the list of unique thresholds is known. -/
theorem setupEnergyThresholds_eval (eb : energyBar) (unit : UnitInfo) (l : List Int) (len : Nat)
    (hunit : eb.unit = some unit) (hempty : eb.energyDecisionThresholds = [])
    (hl : uniqueThresholds 0 (sortStable (collectThresholds unit.aplActions)) = l)
    (hlen : goInt eb.maxEnergy + 1 = len) :
    setupEnergyThresholds eb =
      match buildTable l len with
      | .ok tbl => .ok () { eb with
          energyDecisionThresholds := l, cumulativeEnergyDecisionThresholds := some tbl }
      | .error tbl => .panic indexOutOfRangeMsg { eb with
          energyDecisionThresholds := l, cumulativeEnergyDecisionThresholds := some tbl } := by
  unfold setupEnergyThresholds
  have h : ¬ (goInt eb.maxEnergy + 1 < 0) := by omega
  have h2 : (goInt eb.maxEnergy + 1).toNat = len := by omega
  simp only [hunit, hempty, List.nil_append, h, if_false, hl, h2]

theorem collectThresholds_exampleUnit :
    collectThresholds exampleUnit.aplActions = [35, 35, 50, 85, 60] := by
  norm_num [collectThresholds, spellCostThresholds, compareThresholds, compareThreshold,
    exampleUnit, goCeilInt]

theorem collectThresholds_unitWithCosts (costs : List ℚ) :
    collectThresholds (unitWithCosts costs).aplActions = costs.map goCeilInt := by
  simp [collectThresholds, spellCostThresholds, compareThresholds, unitWithCosts,
    List.filter_map, Function.comp_def]

theorem energyDecisionThresholds_setup (eb : energyBar) (unit : UnitInfo)
    (hunit : eb.unit = some unit) (hempty : eb.energyDecisionThresholds = []) :
    (setupEnergyThresholds eb).state.energyDecisionThresholds =
      uniqueThresholds 0 (sortStable (collectThresholds unit.aplActions)) := by
  unfold setupEnergyThresholds
  simp only [hunit, hempty, List.nil_append]
  split
  · rfl
  · split <;> rfl

theorem thresholdsAtMost_mono (ts : List Int) {i j : Int} (h : i ≤ j) :
    thresholdsAtMost ts i ≤ thresholdsAtMost ts j := by
  induction ts with
  | nil => simp [thresholdsAtMost]
  | cons t rest ih =>
    rw [thresholdsAtMost_cons, thresholdsAtMost_cons]
    by_cases h1 : t ≤ i
    · have h2 : t ≤ j := by omega
      simp only [h1, h2, if_true]
      omega
    · simp only [h1, if_false]
      omega

theorem thresholdsAtMost_eq_card {l c : List Int} (hnodup : l.Nodup)
    (hmem : ∀ t, t ∈ l ↔ t ∈ c ∧ 0 < t) (e : Int) :
    thresholdsAtMost l e = (c.toFinset.filter fun t => 0 < t ∧ t ≤ e).card := by
  unfold thresholdsAtMost
  rw [← List.toFinset_card_of_nodup (hnodup.filter _)]
  congr 1
  ext t
  simp only [List.mem_toFinset, List.mem_filter, decide_eq_true_eq, Finset.mem_filter, hmem t]
  tauto

theorem sliceGet_of_getElem? {tbl : List Int} {e : Int} {v : Int} (h0 : 0 ≤ e)
    (h1 : e < tbl.length) (h : tbl[e.toNat]? = some v) : sliceGet tbl e = some v := by
  simp [sliceGet, h0, h1, h]

/-! ## Claims on the threshold table -/

set_option maxRecDepth 100000 in
/-- C3: on the bar of `EnableEnergyBar(100)` for a unit whose one energy spell costs 150, the one
collected threshold is 150 and `setupEnergyThresholds` panics, index out of range, on the store
at index 101 of the table of 101 entries: the filling loop runs up to the threshold without
looking at the length of the table, so no table with the stated entries is built. -/
theorem setup_panics_on_threshold_beyond_table :
    collectThresholds (unitWithCosts [150]).aplActions = [150] ∧
    setupEnergyThresholds (EnableEnergyBar (unitWithCosts [150]) 0 1 100) =
      .panic indexOutOfRangeMsg { EnableEnergyBar (unitWithCosts [150]) 0 1 100 with
        energyDecisionThresholds := [150]
        cumulativeEnergyDecisionThresholds := some (List.replicate 101 0) } := by
  have hc : collectThresholds (unitWithCosts [150]).aplActions = [150] := by
    rw [collectThresholds_unitWithCosts]; norm_num [goCeilInt]
  have hb : buildTable [150] 101 = .error (List.replicate 101 0) := by rfl
  refine ⟨hc, ?_⟩
  rw [setupEnergyThresholds_eval _ (unitWithCosts [150]) [150] 101 rfl rfl
    (by rw [hc]; decide)
    (by rw [maxEnergy_EnableEnergyBar_hundred, goInt_hundred]; rfl), hb]

/-- The table built when no threshold lies beyond it: on a bar with a unit and no thresholds
yet, when int(maxEnergy)+1 is not negative and no collected threshold exceeds int(maxEnergy)+1,
`setupEnergyThresholds` completes, the table has length int(maxEnergy)+1 and, for every e with
0 <= e <= int(maxEnergy), table[e] is the number of entries t of energyDecisionThresholds with
t <= e; when no difference of two collected thresholds leaves the 64-bit range, that is the
number of distinct collected thresholds t with 0 < t <= e. -/
theorem setup_table_counts_thresholds (eb : energyBar) (unit : UnitInfo)
    (hunit : eb.unit = some unit) (hempty : eb.energyDecisionThresholds = [])
    (hmax : 0 ≤ goInt eb.maxEnergy + 1)
    (hfit : ∀ t ∈ collectThresholds unit.aplActions, t ≤ goInt eb.maxEnergy + 1) :
    ∃ eb1 tbl, setupEnergyThresholds eb = .ok () eb1 ∧
      eb1.cumulativeEnergyDecisionThresholds = some tbl ∧
      (tbl.length : Int) = goInt eb.maxEnergy + 1 ∧
      ∀ e : Int, 0 ≤ e → e ≤ goInt eb.maxEnergy →
        sliceGet tbl e = some (thresholdsAtMost eb1.energyDecisionThresholds e : Int) ∧
        ((∀ a ∈ collectThresholds unit.aplActions, ∀ b ∈ collectThresholds unit.aplActions,
            InIntRange (a - b)) →
          thresholdsAtMost eb1.energyDecisionThresholds e =
            ((collectThresholds unit.aplActions).toFinset.filter fun t => 0 < t ∧ t ≤ e).card) := by
  obtain ⟨tbl, h1, h2, h3⟩ := setupEnergyThresholds_eq_ok eb unit hunit hempty hmax hfit
  refine ⟨_, tbl, h1, rfl, h2, fun e he0 he1 => ⟨?_, fun hnowrap => ?_⟩⟩
  · refine sliceGet_of_getElem? he0 (by omega) ?_
    have := h3 e.toNat (by omega)
    rw [this, Int.toNat_of_nonneg he0]
  · obtain ⟨k1, k2⟩ := uniqueThresholds_spec _ 0
      (sortStable_sorted (collectThresholds unit.aplActions) hnowrap)
    exact thresholdsAtMost_eq_card (k1.imp fun h => ne_of_lt h)
      (fun t => by rw [k2 t, mem_sortStable]) e

set_option maxRecDepth 100000 in
/-- The example of the specification: costs 35, 35, 50, 85 and the comparison constant 60 with maxEnergy 100 give
the thresholds [35, 50, 60, 85] and table[34] = 0, table[35] = 1, table[59] = 2, table[60] = 3,
table[85] = 4, table[100] = 4. -/
theorem setup_table_counts_thresholds_witness :
    ∃ eb1 tbl, setupEnergyThresholds (EnableEnergyBar exampleUnit 0 1 100) = .ok () eb1 ∧
      eb1.cumulativeEnergyDecisionThresholds = some tbl ∧
      eb1.energyDecisionThresholds = [35, 50, 60, 85] ∧ tbl.length = 101 ∧
      sliceGet tbl 34 = some 0 ∧ sliceGet tbl 35 = some 1 ∧ sliceGet tbl 59 = some 2 ∧
      sliceGet tbl 60 = some 3 ∧ sliceGet tbl 85 = some 4 ∧ sliceGet tbl 100 = some 4 := by
  have hg : goInt (EnableEnergyBar exampleUnit 0 1 100).maxEnergy = 100 := by
    rw [maxEnergy_EnableEnergyBar_hundred, goInt_hundred]
  obtain ⟨eb1, tbl, h1, h2, h3, h4⟩ := setup_table_counts_thresholds
    (EnableEnergyBar exampleUnit 0 1 100) exampleUnit rfl rfl (by rw [hg]; decide)
    (by rw [hg, collectThresholds_exampleUnit]; decide)
  have hl : eb1.energyDecisionThresholds = [35, 50, 60, 85] := by
    have := energyDecisionThresholds_setup (EnableEnergyBar exampleUnit 0 1 100) exampleUnit rfl rfl
    rw [h1, collectThresholds_exampleUnit] at this
    rw [show eb1.energyDecisionThresholds = _ from this]
    decide
  rw [hg] at h3 h4
  rw [hl] at h4
  refine ⟨eb1, tbl, h1, h2, hl, by omega, ?_, ?_, ?_, ?_, ?_, ?_⟩
  · exact (h4 34 (by decide) (by decide)).1
  · exact (h4 35 (by decide) (by decide)).1
  · exact (h4 59 (by decide) (by decide)).1
  · exact (h4 60 (by decide) (by decide)).1
  · exact (h4 85 (by decide) (by decide)).1
  · exact (h4 100 (by decide) (by decide)).1

set_option maxRecDepth 100000 in
/-- C4, counterexample: with the one collected threshold 101 and maxEnergy 100,
`setupEnergyThresholds` completes with one configured threshold, and the table entry at
int(maxEnergy) = 100 is 0, not 1. -/
theorem table_at_max_misses_threshold_beyond_max :
    setupEnergyThresholds (EnableEnergyBar (unitWithCosts [101]) 0 1 100) =
      .ok () { EnableEnergyBar (unitWithCosts [101]) 0 1 100 with
        energyDecisionThresholds := [101]
        cumulativeEnergyDecisionThresholds := some (List.replicate 101 0) } ∧
    goInt (EnableEnergyBar (unitWithCosts [101]) 0 1 100).maxEnergy = 100 ∧
    sliceGet (List.replicate 101 0) 100 = some 0 ∧
    ([101] : List Int).length = 1 := by
  have hc : collectThresholds (unitWithCosts [101]).aplActions = [101] := by
    rw [collectThresholds_unitWithCosts]; norm_num [goCeilInt]
  have hb : buildTable [101] 101 = .ok (List.replicate 101 0) := by rfl
  have hg : goInt (EnableEnergyBar (unitWithCosts [101]) 0 1 100).maxEnergy = 100 := by
    rw [maxEnergy_EnableEnergyBar_hundred, goInt_hundred]
  refine ⟨?_, hg, by rfl, rfl⟩
  rw [setupEnergyThresholds_eval _ (unitWithCosts [101]) [101] 101 rfl rfl
    (by rw [hc]; decide) (by rw [hg]; rfl), hb]

/-- C4, as amended: on a bar with a unit and no thresholds yet, when int(maxEnergy)+1 is not
negative and no collected threshold exceeds int(maxEnergy)+1, `setupEnergyThresholds` completes
and the table is non-decreasing in the amount index; when moreover int(maxEnergy) >= 0 and no
collected threshold exceeds int(maxEnergy), the entry at int(maxEnergy) is the total number of
configured thresholds. -/
theorem setup_table_monotone (eb : energyBar) (unit : UnitInfo)
    (hunit : eb.unit = some unit) (hempty : eb.energyDecisionThresholds = [])
    (hmax : 0 ≤ goInt eb.maxEnergy + 1)
    (hfit : ∀ t ∈ collectThresholds unit.aplActions, t ≤ goInt eb.maxEnergy + 1) :
    ∃ eb1 tbl, setupEnergyThresholds eb = .ok () eb1 ∧
      eb1.cumulativeEnergyDecisionThresholds = some tbl ∧
      (∀ i j : Int, 0 ≤ i → i ≤ j → j ≤ goInt eb.maxEnergy →
        ∃ a b, sliceGet tbl i = some a ∧ sliceGet tbl j = some b ∧ a ≤ b) ∧
      (0 ≤ goInt eb.maxEnergy →
        (∀ t ∈ collectThresholds unit.aplActions, t ≤ goInt eb.maxEnergy) →
        sliceGet tbl (goInt eb.maxEnergy) = some (eb1.energyDecisionThresholds.length : Int)) := by
  obtain ⟨tbl, h1, h2, h3⟩ := setupEnergyThresholds_eq_ok eb unit hunit hempty hmax hfit
  obtain ⟨k1, k2⟩ := uniqueThresholds_increasing (sortStable (collectThresholds unit.aplActions)) 0
  have hget : ∀ e : Int, 0 ≤ e → e ≤ goInt eb.maxEnergy → sliceGet tbl e = some
      (thresholdsAtMost (uniqueThresholds 0 (sortStable (collectThresholds unit.aplActions))) e :
        Int) := by
    intro e he0 he1
    refine sliceGet_of_getElem? he0 (by omega) ?_
    have := h3 e.toNat (by omega)
    rw [this, Int.toNat_of_nonneg he0]
  refine ⟨_, tbl, h1, rfl, fun i j hi hij hj => ?_, fun h0 hle => ?_⟩
  · refine ⟨_, _, hget i hi (by omega), hget j (by omega) hj, ?_⟩
    exact_mod_cast thresholdsAtMost_mono _ hij
  · rw [hget _ h0 (le_refl _)]
    congr 2
    exact thresholdsAtMost_eq_length fun t ht => hle t (mem_sortStable.mp (k2 t ht).1)

/-- Witness of C4: the example costs with maxEnergy 100 give a table with
table[34] <= table[60] and table[100] = 4, the number of thresholds. -/
theorem setup_table_monotone_witness :
    ∃ eb1 tbl, setupEnergyThresholds (EnableEnergyBar exampleUnit 0 1 100) = .ok () eb1 ∧
      eb1.cumulativeEnergyDecisionThresholds = some tbl ∧
      (∃ a b, sliceGet tbl 34 = some a ∧ sliceGet tbl 60 = some b ∧ a ≤ b) ∧
      sliceGet tbl 100 = some (eb1.energyDecisionThresholds.length : Int) := by
  have hg : goInt (EnableEnergyBar exampleUnit 0 1 100).maxEnergy = 100 := by
    rw [maxEnergy_EnableEnergyBar_hundred, goInt_hundred]
  obtain ⟨eb1, tbl, h1, h2, h3, h4⟩ := setup_table_monotone
    (EnableEnergyBar exampleUnit 0 1 100) exampleUnit rfl rfl (by rw [hg]; decide)
    (by rw [hg, collectThresholds_exampleUnit]; decide)
  rw [hg] at h3 h4
  refine ⟨eb1, tbl, h1, h2, h3 34 60 (by decide) (by decide) (by decide), ?_⟩
  exact h4 (by decide) (by rw [collectThresholds_exampleUnit]; decide)

/-- C5, counterexample: the costs 0 and 35 are collected as the thresholds 0 and 35, and the
list produced is [35]: the collected value 0 does not appear in it. And the costs 50, 9e18,
-9e18 and 20 are collected in that order; each difference the comparison takes wraps around or
is positive, so the sort moves nothing and the list produced is [50, 9e18]: the collected value
20 does not appear in it. -/
theorem zero_threshold_collected_but_dropped :
    ((0 : Int) ∈ collectThresholds (unitWithCosts [0, 35]).aplActions ∧
      (setupEnergyThresholds (EnableEnergyBar (unitWithCosts [0, 35]) 0 1 100)).state.energyDecisionThresholds
        = [35] ∧
      (0 : Int) ∉ ([35] : List Int)) ∧
    ((20 : Int) ∈ collectThresholds
        (unitWithCosts [50, 9000000000000000000, -9000000000000000000, 20]).aplActions ∧
      thresholdCmp (-9000000000000000000) 9000000000000000000 = 446744073709551616 ∧
      sortStable [50, 9000000000000000000, -9000000000000000000, 20] =
        [50, 9000000000000000000, -9000000000000000000, 20] ∧
      (setupEnergyThresholds (EnableEnergyBar
        (unitWithCosts [50, 9000000000000000000, -9000000000000000000, 20]) 0 1
          100)).state.energyDecisionThresholds = [50, 9000000000000000000] ∧
      (20 : Int) ∉ ([50, 9000000000000000000] : List Int)) := by
  have hc : collectThresholds (unitWithCosts [0, 35]).aplActions = [0, 35] := by
    rw [collectThresholds_unitWithCosts]; norm_num [goCeilInt]
  have hd : collectThresholds
      (unitWithCosts [50, 9000000000000000000, -9000000000000000000, 20]).aplActions =
      [50, 9000000000000000000, -9000000000000000000, 20] := by
    rw [collectThresholds_unitWithCosts]; norm_num [goCeilInt, Int.ceil_neg]
  refine ⟨⟨by rw [hc]; decide, ?_, by decide⟩, by rw [hd]; decide, by decide, by decide, ?_,
    by decide⟩
  · rw [energyDecisionThresholds_setup _ (unitWithCosts [0, 35]) rfl rfl, hc]
    decide
  · rw [energyDecisionThresholds_setup _ _ rfl rfl, hd]
    decide

/-- C5, as amended: on a bar with a unit and no thresholds yet, the list
energyDecisionThresholds produced by `setupEnergyThresholds` is strictly increasing (hence
without duplicates) and every element of it is a collected value greater than zero; when no
difference of two collected values leaves the 64-bit range of `int`, every collected value
greater than zero appears in it. -/
theorem setup_thresholds_sorted_positive (eb : energyBar) (unit : UnitInfo)
    (hunit : eb.unit = some unit) (hempty : eb.energyDecisionThresholds = []) :
    (setupEnergyThresholds eb).state.energyDecisionThresholds.Pairwise (· < ·) ∧
    (setupEnergyThresholds eb).state.energyDecisionThresholds.Nodup ∧
    (∀ t ∈ (setupEnergyThresholds eb).state.energyDecisionThresholds,
      t ∈ collectThresholds unit.aplActions ∧ 0 < t) ∧
    ((∀ a ∈ collectThresholds unit.aplActions, ∀ b ∈ collectThresholds unit.aplActions,
        InIntRange (a - b)) →
      ∀ t ∈ collectThresholds unit.aplActions, 0 < t →
        t ∈ (setupEnergyThresholds eb).state.energyDecisionThresholds) := by
  rw [energyDecisionThresholds_setup eb unit hunit hempty]
  obtain ⟨k1, k2⟩ := uniqueThresholds_increasing (sortStable (collectThresholds unit.aplActions)) 0
  refine ⟨k1, k1.imp fun h => ne_of_lt h, fun t ht => ⟨mem_sortStable.mp (k2 t ht).1, (k2 t ht).2⟩,
    fun hnowrap t ht h0 => ?_⟩
  obtain ⟨_, k3⟩ := uniqueThresholds_spec _ 0
    (sortStable_sorted (collectThresholds unit.aplActions) hnowrap)
  exact (k3 t).mpr ⟨mem_sortStable.mpr ht, h0⟩

/-- Witness of C5: the example costs 35, 35, 50, 85 and 60 have differences within the 64-bit
range, and give a strictly increasing list holding 60 and not 20. -/
theorem setup_thresholds_sorted_positive_witness :
    (∀ a ∈ collectThresholds exampleUnit.aplActions, ∀ b ∈ collectThresholds exampleUnit.aplActions,
      InIntRange (a - b)) ∧
    (setupEnergyThresholds (EnableEnergyBar exampleUnit 0 1 100)).state.energyDecisionThresholds.Pairwise
      (· < ·) ∧
    (60 : Int) ∈ (setupEnergyThresholds (EnableEnergyBar exampleUnit 0 1 100)).state.energyDecisionThresholds ∧
    (20 : Int) ∉ (setupEnergyThresholds (EnableEnergyBar exampleUnit 0 1 100)).state.energyDecisionThresholds := by
  have hr : ∀ a ∈ collectThresholds exampleUnit.aplActions,
      ∀ b ∈ collectThresholds exampleUnit.aplActions, InIntRange (a - b) := by
    rw [collectThresholds_exampleUnit]; decide
  obtain ⟨h1, _, h3, h4⟩ := setup_thresholds_sorted_positive
    (EnableEnergyBar exampleUnit 0 1 100) exampleUnit rfl rfl
  refine ⟨hr, h1, h4 hr 60 (by rw [collectThresholds_exampleUnit]; decide) (by decide), fun h => ?_⟩
  have := (h3 20 h).1
  rw [collectThresholds_exampleUnit] at this
  revert this
  decide

theorem addEnergyInternal_eq_ok_table {amount : ℚ} {metrics : Nat} {w w1 : World} {crossed : Bool}
    {tbl : List Int} (h : addEnergyInternal amount metrics w = .ok crossed w1)
    (htbl : w.eb.cumulativeEnergyDecisionThresholds = some tbl) :
    ∃ before after, sliceGet tbl (goInt w.eb.currentEnergy) = some before ∧
      sliceGet tbl (goInt (min (w.eb.currentEnergy + amount) w.eb.maxEnergy)) = some after ∧
      crossed = (before != after) := by
  unfold addEnergyInternal at h
  split at h
  · simp at h
  · simp only [htbl] at h
    split at h
    · rename_i before after hb ha
      injection h with h1 _
      exact ⟨before, after, hb, ha, h1.symm⟩
    · simp at h

theorem sliceGet_replicate_zero {n : Nat} {i v : Int}
    (h : sliceGet (List.replicate n 0) i = some v) : v = 0 := by
  unfold sliceGet at h
  split at h
  · rename_i hi
    rw [List.getElem?_replicate] at h
    split at h
    · injection h with h; exact h.symm
    · simp at h
  · simp at h

theorem buildTable_nil (len : Nat) : buildTable [] len = .ok (List.replicate len 0) := by
  obtain ⟨tbl, h1, h2, h3⟩ := buildTable_spec [] len List.Pairwise.nil (by simp) (by simp)
  rw [h1]
  congr 1
  apply List.ext_getElem?
  intro i
  by_cases hi : i < len
  · rw [h3 i hi]
    simp [thresholdsAtMost, hi]
  · rw [List.getElem?_eq_none (by omega), List.getElem?_eq_none (by simp; omega)]

theorem collectThresholds_plainUnit : collectThresholds plainUnit.aplActions = [] := by
  simp [collectThresholds, spellCostThresholds, compareThresholds, plainUnit]

theorem setupEnergyThresholds_plainUnit :
    setupEnergyThresholds (EnableEnergyBar plainUnit 0 1 100) =
      .ok () { EnableEnergyBar plainUnit 0 1 100 with
        cumulativeEnergyDecisionThresholds := some (List.replicate 101 0) } := by
  rw [setupEnergyThresholds_eval _ plainUnit [] 101 rfl rfl
    (by rw [collectThresholds_plainUnit]; decide)
    (by rw [maxEnergy_EnableEnergyBar_hundred, goInt_hundred]; rfl), buildTable_nil]
  rfl

set_option maxRecDepth 100000 in
theorem addEnergyInternal_zero_table :
    addEnergyInternal 10 2
      ⟨{ EnableEnergyBar plainUnit 0 1 100 with
          cumulativeEnergyDecisionThresholds := some (List.replicate 101 0) }, simAt 5⟩ =
      .ok false
        ⟨{ EnableEnergyBar plainUnit 0 1 100 with
            cumulativeEnergyDecisionThresholds := some (List.replicate 101 0)
            currentEnergy := 10 },
          { simAt 5 with metrics := [⟨2, 10, 10⟩] }⟩ := by
  have h0 : goInt (0 : ℚ) = 0 := by simp [goInt]
  have h10 : goInt (10 : ℚ) = 10 := by simp [goInt]
  have g0 : sliceGet (List.replicate 101 0) 0 = some 0 := by rfl
  have g10 : sliceGet (List.replicate 101 0) 10 = some 0 := by rfl
  norm_num [addEnergyInternal, EnableEnergyBar, simAt, World.addEvent, World.logIfEnabled,
    h0, h10, g0, g10]

/-- C6, counterexample: for a unit without any APL action no threshold is collected,
`setupEnergyThresholds` installs a table of 101 zeros, and a gain of 10 on that bar reports
crossedThreshold = false. -/
theorem gain_after_empty_setup_reports_no_crossing :
    collectThresholds plainUnit.aplActions = [] ∧
    setupEnergyThresholds (EnableEnergyBar plainUnit 0 1 100) =
      .ok () { EnableEnergyBar plainUnit 0 1 100 with
        cumulativeEnergyDecisionThresholds := some (List.replicate 101 0) } ∧
    addEnergyInternal 10 2
      ⟨{ EnableEnergyBar plainUnit 0 1 100 with
          cumulativeEnergyDecisionThresholds := some (List.replicate 101 0) }, simAt 5⟩ =
      .ok false
        ⟨{ EnableEnergyBar plainUnit 0 1 100 with
            cumulativeEnergyDecisionThresholds := some (List.replicate 101 0)
            currentEnergy := 10 },
          { simAt 5 with metrics := [⟨2, 10, 10⟩] }⟩ :=
  ⟨collectThresholds_plainUnit, setupEnergyThresholds_plainUnit, addEnergyInternal_zero_table⟩

/-- C6, as amended: when no threshold is collected, on a bar with a unit, no thresholds yet
and int(maxEnergy)+1 not negative, `setupEnergyThresholds` completes and installs a table of
int(maxEnergy)+1 zeros; with that table every gain that completes reports
crossedThreshold = false (a never-crossing policy). -/
theorem empty_thresholds_never_cross (eb : energyBar) (unit : UnitInfo)
    (hunit : eb.unit = some unit) (hempty : eb.energyDecisionThresholds = [])
    (hmax : 0 ≤ goInt eb.maxEnergy + 1)
    (hnone : collectThresholds unit.aplActions = []) :
    ∃ eb1, setupEnergyThresholds eb = .ok () eb1 ∧
      eb1.energyDecisionThresholds = [] ∧
      eb1.cumulativeEnergyDecisionThresholds =
        some (List.replicate (goInt eb.maxEnergy + 1).toNat 0) ∧
      ∀ (w w1 : World) (amount : ℚ) (metrics : Nat) (crossed : Bool),
        w.eb.cumulativeEnergyDecisionThresholds = eb1.cumulativeEnergyDecisionThresholds →
        addEnergyInternal amount metrics w = .ok crossed w1 → crossed = false := by
  have hrun := setupEnergyThresholds_eval eb unit [] (goInt eb.maxEnergy + 1).toNat hunit hempty
    (by rw [hnone]; decide) (by omega)
  rw [buildTable_nil] at hrun
  refine ⟨_, hrun, rfl, rfl, fun w w1 amount metrics crossed htbl hok => ?_⟩
  obtain ⟨before, after, hb, ha, hc⟩ := addEnergyInternal_eq_ok_table hok htbl
  rw [hc, sliceGet_replicate_zero hb, sliceGet_replicate_zero ha]
  rfl

/-- Witness of C6: the bar of a unit without APL action, maxEnergy 100: the table is 101
zeros and the gain of 10 at amount 0 reports no crossing. -/
theorem empty_thresholds_never_cross_witness :
    ∃ eb1, setupEnergyThresholds (EnableEnergyBar plainUnit 0 1 100) = .ok () eb1 ∧
      eb1.cumulativeEnergyDecisionThresholds = some (List.replicate 101 0) ∧
      ∃ w1, addEnergyInternal 10 2 ⟨eb1, simAt 5⟩ = .ok false w1 := by
  have hg : goInt (EnableEnergyBar plainUnit 0 1 100).maxEnergy = 100 := by
    rw [maxEnergy_EnableEnergyBar_hundred, goInt_hundred]
  obtain ⟨eb1, h1, h2, h3, h4⟩ := empty_thresholds_never_cross
    (EnableEnergyBar plainUnit 0 1 100) plainUnit rfl rfl (by rw [hg]; decide)
    collectThresholds_plainUnit
  rw [hg] at h3
  have h5 : eb1 = { EnableEnergyBar plainUnit 0 1 100 with
      cumulativeEnergyDecisionThresholds := some (List.replicate 101 0) } := by
    have := setupEnergyThresholds_plainUnit
    rw [h1] at this
    injection this with _ h
  refine ⟨eb1, h1, h3, ?_⟩
  rw [h5]
  exact ⟨_, addEnergyInternal_zero_table⟩

/-! ## Lemmas on flushes and ticks -/

/-- A gain completes as soon as its amount is not negative and, with a table, both lookups
are in range. -/
theorem addEnergyInternal_ok_of (amount : ℚ) (metrics : Nat) (w : World) (hamount : 0 ≤ amount)
    (htbl : ∀ tbl, w.eb.cumulativeEnergyDecisionThresholds = some tbl →
      ∃ before after, sliceGet tbl (goInt w.eb.currentEnergy) = some before ∧
        sliceGet tbl (goInt (min (w.eb.currentEnergy + amount) w.eb.maxEnergy)) = some after) :
    ∃ crossed w1, addEnergyInternal amount metrics w = .ok crossed w1 := by
  unfold addEnergyInternal
  rw [if_neg (not_lt.mpr hamount)]
  simp only
  cases hc : w.eb.cumulativeEnergyDecisionThresholds with
  | none => exact ⟨_, _, rfl⟩
  | some tbl =>
    obtain ⟨before, after, hb, ha⟩ := htbl tbl hc
    simp only [hb, ha]
    exact ⟨_, _, rfl⟩

/-- The callback step completes unless it has to go through a nil unit. -/
theorem onEnergyGain_ok_of (crossed : Bool) (w : World)
    (h : (0 ≤ w.sim.CurrentTime ∧ w.sim.Interactive = false ∧ crossed = true) →
      w.eb.unit.isSome = true) :
    ∃ w1, onEnergyGain crossed w = .ok () w1 := by
  unfold onEnergyGain
  split
  · exact ⟨_, rfl⟩
  · rename_i ht
    split
    · rename_i hc
      simp at hc
      have hu := h ⟨not_lt.mp ht, hc.1, hc.2⟩
      cases hunit : w.eb.unit with
      | none => rw [hunit] at hu; simp at hu
      | some u => exact ⟨_, rfl⟩
    · exact ⟨_, rfl⟩

/-- A completed callback step that had to invoke the callback went through a unit. -/
theorem unit_isSome_of_onEnergyGain_ok {crossed : Bool} {w w1 : World}
    (h : onEnergyGain crossed w = .ok () w1)
    (hc : 0 ≤ w.sim.CurrentTime ∧ w.sim.Interactive = false ∧ crossed = true) :
    w.eb.unit.isSome = true := by
  unfold onEnergyGain at h
  rw [if_neg (not_lt.mpr hc.1)] at h
  simp only [hc.2.1, hc.2.2, Bool.not_false, Bool.and_self, if_true] at h
  cases hunit : w.eb.unit with
  | none => rw [hunit] at h; simp at h
  | some u => rfl

/-- Everything a completed `ResetEnergyTick` leaves behind. -/
theorem ResetEnergyTick_eq_ok_full {w w1 : World} (h : ResetEnergyTick w = .ok () w1) :
    ∃ crossed wm, addEnergyInternal (partialTickAmount w) w.eb.regenMetrics w = .ok crossed wm ∧
      ((0 ≤ w.sim.CurrentTime ∧ w.sim.Interactive = false ∧ crossed = true) →
        w.eb.unit.isSome = true) ∧
      w1.eb = { w.eb with
        currentEnergy := min (w.eb.currentEnergy + partialTickAmount w) w.eb.maxEnergy
        nextEnergyTick := w.sim.CurrentTime + EnergyTickDuration } ∧
      w1.sim = { w.sim with
        metrics := w.sim.metrics ++ [⟨w.eb.regenMetrics, partialTickAmount w,
          min (w.eb.currentEnergy + partialTickAmount w) w.eb.maxEnergy - w.eb.currentEnergy⟩]
        logLines := if w.sim.logEnabled then w.sim.logLines + 1 else w.sim.logLines
        nextActionCalls := w.sim.nextActionCalls +
          (if 0 ≤ w.sim.CurrentTime ∧ w.sim.Interactive = false ∧ crossed = true then 1 else 0)
        schedulerCalls := w.sim.schedulerCalls ++
          [SchedulerCall.reschedule (w.sim.CurrentTime + EnergyTickDuration)] } := by
  obtain ⟨crossed, wm, h1, h2⟩ := andThen_eq_ok h
  obtain ⟨hpos, he, hs⟩ := addEnergyInternal_eq_ok h1
  obtain ⟨u, wn, h3, h4⟩ := andThen_eq_ok h2
  obtain ⟨he3, hs3⟩ := onEnergyGain_eq_ok h3
  have hu := unit_isSome_of_onEnergyGain_ok h3
  injection h4 with _ h5
  subst h5
  refine ⟨crossed, wm, h1, ?_, ?_, ?_⟩
  · intro hc
    have := hu (by simpa [hs] using hc)
    simpa [he] using this
  · simp only [World.rescheduleTask]
    rw [he3]; simp [he, hs]
  · simp only [World.rescheduleTask]
    rw [hs3, he3]; simp [he, hs]

/-- A flush completes when its gain does and the callback step finds a unit. -/
theorem ResetEnergyTick_ok_of {w wm : World} {crossed : Bool}
    (h1 : addEnergyInternal (partialTickAmount w) w.eb.regenMetrics w = .ok crossed wm)
    (hu : (0 ≤ w.sim.CurrentTime ∧ w.sim.Interactive = false ∧ crossed = true) →
      w.eb.unit.isSome = true) :
    ∃ w1, ResetEnergyTick w = .ok () w1 := by
  obtain ⟨_, he, hs⟩ := addEnergyInternal_eq_ok h1
  obtain ⟨wn, hn⟩ := onEnergyGain_ok_of crossed
    { wm with eb := { wm.eb with nextEnergyTick := wm.sim.CurrentTime + EnergyTickDuration } }
    (by
      intro hc
      have := hu (by simpa [hs] using hc)
      simpa [he] using this)
  refine ⟨wn.rescheduleTask wn.eb.nextEnergyTick, ?_⟩
  unfold ResetEnergyTick
  rw [h1]
  simp only [Outcome.andThen, hn]

/-- Everything a `RunTask` call leaves behind when it completes. -/
theorem RunTask_eq_ok_full {w w1 : World} {due : Int} (h : RunTask w = .ok due w1) :
    (w.sim.CurrentTime < w.eb.nextEnergyTick ∧ w1 = w ∧ due = w.eb.nextEnergyTick) ∨
    (w.eb.nextEnergyTick ≤ w.sim.CurrentTime ∧
      0 ≤ EnergyPerTick * w.eb.hasteRatingMultiplier * w.eb.energyRegenMultiplier ∧
      due = w.sim.CurrentTime + EnergyTickDuration ∧
      w1.eb = { w.eb with
        currentEnergy := min (w.eb.currentEnergy +
          EnergyPerTick * w.eb.hasteRatingMultiplier * w.eb.energyRegenMultiplier) w.eb.maxEnergy
        nextEnergyTick := w.sim.CurrentTime + EnergyTickDuration } ∧
      w1.sim.metrics = w.sim.metrics ++ [⟨w.eb.regenMetrics,
        EnergyPerTick * w.eb.hasteRatingMultiplier * w.eb.energyRegenMultiplier,
        min (w.eb.currentEnergy +
          EnergyPerTick * w.eb.hasteRatingMultiplier * w.eb.energyRegenMultiplier) w.eb.maxEnergy -
          w.eb.currentEnergy⟩] ∧
      w1.sim.schedulerCalls = w.sim.schedulerCalls ∧
      (w1.sim.nextActionCalls = w.sim.nextActionCalls ∨
        w1.sim.nextActionCalls = w.sim.nextActionCalls + 1)) := by
  unfold RunTask at h
  split at h
  · rename_i hlt
    injection h with h1 h2
    exact Or.inl ⟨hlt, h2.symm, h1.symm⟩
  · rename_i hge
    right
    obtain ⟨crossed, wm, h1, h2⟩ := andThen_eq_ok h
    obtain ⟨hpos, he, hs⟩ := addEnergyInternal_eq_ok h1
    obtain ⟨u, wn, h3, h4⟩ := andThen_eq_ok h2
    obtain ⟨he3, hs3⟩ := onEnergyGain_eq_ok h3
    injection h4 with h5 h6
    subst h6
    refine ⟨not_lt.mp hge, hpos, ?_, ?_, ?_, ?_, ?_⟩
    · rw [← h5, he3]; simp [hs]
    · rw [he3]; simp [he, hs]
    · rw [hs3]; simp [hs]
    · rw [hs3]; simp [hs]
    · rw [hs3]; simp only [hs]
      split
      · exact Or.inr rfl
      · exact Or.inl rfl

theorem partialTickAmount_of_elapsed {w : World} {t : Int}
    (hnow : w.sim.CurrentTime = (w.eb.nextEnergyTick - EnergyTickDuration) + t) :
    partialTickAmount w = EnergyPerTick * w.eb.hasteRatingMultiplier *
      w.eb.energyRegenMultiplier * ((t : ℚ) / (EnergyTickDuration : ℚ)) := by
  simp only [partialTickAmount, NextEnergyTickAt, hnow]
  congr 2
  push_cast
  ring

/-- C12: after a completed ResetEnergyTick, (a) a second ResetEnergyTick at the same simulated
time completes, credits a gain of exactly 0 and leaves currentEnergy and nextEnergyTick
unchanged; (b) when the first call was made t into the interval, 0 <= t < T, the RunTask tick
at the new due time, if it completes, brings the gross regen recorded to a*(t/T) followed by a,
where a = EnergyPerTick * hasteRatingMultiplier * energyRegenMultiplier, in total
a * ((t + T) / T) for the elapsed time t + T. -/
theorem ResetEnergyTick_neither_loses_nor_doubles (w w1 : World)
    (h : ResetEnergyTick w = .ok () w1) :
    (∃ w2, ResetEnergyTick w1 = .ok () w2 ∧
      w2.sim.metrics = w1.sim.metrics ++ [⟨w.eb.regenMetrics, 0, 0⟩] ∧
      w2.eb.currentEnergy = w1.eb.currentEnergy ∧
      w2.eb.nextEnergyTick = w1.eb.nextEnergyTick) ∧
    (∀ (t : Int) (due : Int) (w3 : World), 0 ≤ t → t < EnergyTickDuration →
      w.sim.CurrentTime = (w.eb.nextEnergyTick - EnergyTickDuration) + t →
      RunTask { w1 with sim := { w1.sim with CurrentTime := w1.eb.nextEnergyTick } } = .ok due w3 →
      w1.eb.nextEnergyTick = w.sim.CurrentTime + EnergyTickDuration ∧
      w3.sim.metrics.map (fun e => e.gross) = w.sim.metrics.map (fun e => e.gross) ++
        [EnergyPerTick * w.eb.hasteRatingMultiplier * w.eb.energyRegenMultiplier *
            ((t : ℚ) / (EnergyTickDuration : ℚ)),
          EnergyPerTick * w.eb.hasteRatingMultiplier * w.eb.energyRegenMultiplier] ∧
      EnergyPerTick * w.eb.hasteRatingMultiplier * w.eb.energyRegenMultiplier *
          ((t : ℚ) / (EnergyTickDuration : ℚ)) +
        EnergyPerTick * w.eb.hasteRatingMultiplier * w.eb.energyRegenMultiplier =
        EnergyPerTick * w.eb.hasteRatingMultiplier * w.eb.energyRegenMultiplier *
          (((t : ℚ) + (EnergyTickDuration : ℚ)) / (EnergyTickDuration : ℚ))) := by
  obtain ⟨crossed, wm, h1, hu, he, hs⟩ := ResetEnergyTick_eq_ok_full h
  constructor
  · -- the second flush
    have hp : partialTickAmount w1 = 0 := by
      simp [partialTickAmount, NextEnergyTickAt, he, hs]
    have hc1 : w1.eb.currentEnergy ≤ w1.eb.maxEnergy := by
      rw [he]; exact min_le_right _ _
    have hmin : min (w1.eb.currentEnergy + 0) w1.eb.maxEnergy = w1.eb.currentEnergy := by
      rw [add_zero, min_eq_left hc1]
    have hgain : ∃ crossed2 wm2, addEnergyInternal (partialTickAmount w1) w1.eb.regenMetrics w1 =
        .ok crossed2 wm2 := by
      rw [hp]
      refine addEnergyInternal_ok_of _ _ _ (le_refl _) fun tbl htbl => ?_
      have htbl0 : w.eb.cumulativeEnergyDecisionThresholds = some tbl := by
        rw [he] at htbl; exact htbl
      obtain ⟨before, after, _, ha, _⟩ := addEnergyInternal_eq_ok_table h1 htbl0
      have hcur : w1.eb.currentEnergy =
          min (w.eb.currentEnergy + partialTickAmount w) w.eb.maxEnergy := by rw [he]
      rw [hmin, hcur]
      exact ⟨after, after, ha, ha⟩
    obtain ⟨crossed2, wm2, h2⟩ := hgain
    have hcross : crossed2 = true → crossed = true := by
      intro hc2
      rw [hp] at h2
      have k := (addEnergyInternal_crossed h2).mp hc2
      rw [hmin] at k
      rcases k with hnone | ⟨tbl, _, hne⟩
      · exact (addEnergyInternal_crossed h1).mpr (Or.inl (by rw [he] at hnone; exact hnone))
      · exact absurd rfl hne
    obtain ⟨w2, hw2⟩ := ResetEnergyTick_ok_of h2 (by
      intro hc
      have h3 := hu ⟨by simpa [hs] using hc.1, by simpa [hs] using hc.2.1, hcross hc.2.2⟩
      rw [he]; exact h3)
    obtain ⟨_, he2, hm2, _⟩ := ResetEnergyTick_eq_ok hw2
    refine ⟨w2, hw2, ?_, ?_, ?_⟩
    · rw [hm2, hp, hmin, sub_self, he]
    · rw [he2, hp]; exact hmin
    · rw [he2]
      simp [he, hs]
  · intro t due w3 ht0 htT hnow hrun
    refine ⟨by rw [he], ?_, ?_⟩
    · rcases RunTask_eq_ok_full hrun with ⟨hlt, _, _⟩ | ⟨_, _, _, _, hm3, _⟩
      · simp only at hlt
        omega
      · rw [hm3]
        simp only [hs, he, List.map_append, List.map_cons, List.map_nil,
          partialTickAmount_of_elapsed hnow, List.append_assoc, List.singleton_append]
    · have hT : (EnergyTickDuration : ℚ) ≠ 0 := by norm_num [EnergyTickDuration]
      field_simp
      ring

/-- Witness of C12: two flushes 60ms into a tick on a bar holding 50: the gains recorded are
0.6 and then 0, and the next tick stays due at 160ms. -/
theorem ResetEnergyTick_neither_loses_nor_doubles_witness :
    ∃ w1 w2, ResetEnergyTick ⟨barWith 50 100000000, simAt 60000000⟩ = .ok () w1 ∧
      ResetEnergyTick w1 = .ok () w2 ∧
      w2.sim.metrics = [⟨0, 3 / 5, 3 / 5⟩, ⟨0, 0, 0⟩] ∧ w2.eb.nextEnergyTick = 160000000 := by
  have hrun : ResetEnergyTick ⟨barWith 50 100000000, simAt 60000000⟩ =
      .ok () ⟨barWith (50 + 3 / 5) 160000000,
        { simAt 60000000 with
          metrics := [⟨0, 3 / 5, 3 / 5⟩]
          nextActionCalls := 1
          schedulerCalls := [SchedulerCall.reschedule 160000000] }⟩ := by
    norm_num [ResetEnergyTick, partialTickAmount, addEnergyInternal, onEnergyGain,
      Outcome.andThen, barWith, simAt, EnableEnergyBar, plainUnit, World.addEvent,
      World.logIfEnabled, World.rescheduleTask, NextEnergyTickAt, EnergyTickDuration,
      EnergyPerTick]
  obtain ⟨⟨w2, h2, hm, _, hn⟩, _⟩ := ResetEnergyTick_neither_loses_nor_doubles _ _ hrun
  refine ⟨_, w2, hrun, h2, ?_, ?_⟩
  · rw [hm]; simp [barWith, EnableEnergyBar]
  · rw [hn]; simp [barWith]

set_option maxRecDepth 100000 in
theorem setupEnergyThresholds_exampleUnit :
    setupEnergyThresholds (EnableEnergyBar exampleUnit 0 1 100) = .ok () exampleTableBar := by
  have hb : buildTable [35, 50, 60, 85] 101 = .ok exampleTable := by rfl
  rw [setupEnergyThresholds_eval _ exampleUnit [35, 50, 60, 85] 101 rfl rfl
    (by rw [collectThresholds_exampleUnit]; decide)
    (by rw [maxEnergy_EnableEnergyBar_hundred, goInt_hundred]; rfl), hb]
  rfl

set_option maxRecDepth 100000 in
/-- C13, the code at the failing input: on the bar of the example, whose table was built for
maxEnergy 100, holding 100 energy, `UpdateMaxEnergy` with a bonus of 20 raises maxEnergy to 120,
records the gain of 20 and then panics on the table lookup at index 120; currentEnergy is
still 100. -/
theorem UpdateMaxEnergy_panics_beyond_table :
    setupEnergyThresholds (EnableEnergyBar exampleUnit 0 1 100) = .ok () exampleTableBar ∧
    UpdateMaxEnergy 20 7
      ⟨{ exampleTableBar with
          currentEnergy := 100, hasteRatingMultiplier := 1, nextEnergyTick := 100000000 },
        simAt 0⟩ =
      .panic indexOutOfRangeMsg
        ⟨{ exampleTableBar with
            currentEnergy := 100, hasteRatingMultiplier := 1, nextEnergyTick := 100000000
            maxEnergy := 120 },
          { simAt 0 with
            metrics := [⟨0, 0, 0⟩, ⟨7, 20, 20⟩]
            schedulerCalls := [SchedulerCall.reschedule 100000000] }⟩ := by
  refine ⟨setupEnergyThresholds_exampleUnit, ?_⟩
  have h120 : goInt (120 : ℚ) = 120 := by simp [goInt]
  have g100 : sliceGet exampleTable 100 = some 4 := by rfl
  have g120 : sliceGet exampleTable 120 = none := by rfl
  norm_num [UpdateMaxEnergy, ResetEnergyTick, partialTickAmount, AddEnergy, addEnergyInternal,
    onEnergyGain, Outcome.andThen, exampleTableBar, simAt, EnableEnergyBar, World.addEvent,
    World.logIfEnabled, World.rescheduleTask, NextEnergyTickAt, EnergyTickDuration,
    EnergyPerTick, goInt_hundred, h120, g100, g120]

/-- C14: a RunTask call before the due time returns the pending nextEnergyTick and leaves the
world as it is; a call at or after the due time that completes records exactly one gain of
EnergyPerTick * hasteRatingMultiplier * energyRegenMultiplier, credits it clamped at maxEnergy,
sets nextEnergyTick to CurrentTime + EnergyTickDuration and returns it. The due time returned
is never before the due time held at the call, and in the second case it is after
CurrentTime. -/
theorem RunTask_contract (w : World) :
    (w.sim.CurrentTime < w.eb.nextEnergyTick → RunTask w = .ok w.eb.nextEnergyTick w) ∧
    (w.eb.nextEnergyTick ≤ w.sim.CurrentTime → ∀ (due : Int) (w1 : World),
      RunTask w = .ok due w1 →
        w1.sim.metrics = w.sim.metrics ++ [⟨w.eb.regenMetrics,
          EnergyPerTick * w.eb.hasteRatingMultiplier * w.eb.energyRegenMultiplier,
          w1.eb.currentEnergy - w.eb.currentEnergy⟩] ∧
        w1.eb.currentEnergy = min (w.eb.currentEnergy +
          EnergyPerTick * w.eb.hasteRatingMultiplier * w.eb.energyRegenMultiplier) w.eb.maxEnergy ∧
        w1.eb.nextEnergyTick = w.sim.CurrentTime + EnergyTickDuration ∧
        due = w1.eb.nextEnergyTick ∧ w.sim.CurrentTime < due) ∧
    (∀ (due : Int) (w1 : World), RunTask w = .ok due w1 → w.eb.nextEnergyTick ≤ due) := by
  have hT : (0 : Int) < EnergyTickDuration := by decide
  refine ⟨fun hlt => ?_, fun hge due w1 h => ?_, fun due w1 h => ?_⟩
  · simp [RunTask, hlt]
  · rcases RunTask_eq_ok_full h with ⟨hlt, _, _⟩ | ⟨_, _, hd, he, hm, _⟩
    · omega
    · refine ⟨?_, ?_, ?_, ?_, ?_⟩
      · rw [hm, he]
      · rw [he]
      · rw [he]
      · rw [he, hd]
      · rw [hd]; omega
  · rcases RunTask_eq_ok_full h with ⟨_, _, hd⟩ | ⟨hge, _, hd, _⟩
    · rw [hd]
    · rw [hd]; omega

/-- Witness of C14: with the tick due at 100ms, a call at 60ms returns 100ms and changes
nothing; a call at 130ms on a bar holding 50 records the gain 1 and returns 230ms. -/
theorem RunTask_contract_witness :
    RunTask ⟨barWith 50 100000000, simAt 60000000⟩ =
      .ok 100000000 ⟨barWith 50 100000000, simAt 60000000⟩ ∧
    ∃ w1, RunTask ⟨barWith 50 100000000, simAt 130000000⟩ = .ok 230000000 w1 ∧
      w1.sim.metrics = [⟨0, 1, 1⟩] ∧ w1.eb.currentEnergy = 51 ∧
      w1.eb.nextEnergyTick = 230000000 := by
  have hrun : RunTask ⟨barWith 50 100000000, simAt 130000000⟩ =
      .ok 230000000 ⟨barWith 51 230000000,
        { simAt 130000000 with metrics := [⟨0, 1, 1⟩], nextActionCalls := 1 }⟩ := by
    norm_num [RunTask, addEnergyInternal, onEnergyGain, Outcome.andThen, barWith, simAt,
      EnableEnergyBar, plainUnit, World.addEvent, World.logIfEnabled, EnergyTickDuration,
      EnergyPerTick]
  obtain ⟨hearly, hdue, _⟩ := RunTask_contract ⟨barWith 50 100000000, simAt 60000000⟩
  obtain ⟨_, hdue2, _⟩ := RunTask_contract ⟨barWith 50 100000000, simAt 130000000⟩
  obtain ⟨hm, hc, hn, _, _⟩ := hdue2 (by simp [barWith, simAt]) _ _ hrun
  refine ⟨hearly (by simp [barWith, simAt]), _, hrun, ?_, ?_, ?_⟩
  · rw [hm]; norm_num [barWith, simAt, EnableEnergyBar, EnergyPerTick]
  · rw [hc]; norm_num [barWith, EnableEnergyBar, EnergyPerTick]
  · rw [hn]; norm_num [simAt, EnergyTickDuration]

theorem runTicks_step {n : Nat} {w w1 : World} (h : runTicks (n + 1) w = .ok () w1) :
    ∃ wm, runTicks n wm = .ok () w1 ∧
      0 ≤ EnergyPerTick * w.eb.hasteRatingMultiplier * w.eb.energyRegenMultiplier ∧
      wm.eb = { w.eb with
        currentEnergy := min (w.eb.currentEnergy +
          EnergyPerTick * w.eb.hasteRatingMultiplier * w.eb.energyRegenMultiplier) w.eb.maxEnergy
        nextEnergyTick := w.eb.nextEnergyTick + EnergyTickDuration } := by
  obtain ⟨due, wm, h1, h2⟩ := andThen_eq_ok h
  rcases RunTask_eq_ok_full h1 with ⟨hlt, _, _⟩ | ⟨_, hpos, _, he, _⟩
  · simp only at hlt
    omega
  · exact ⟨wm, h2, hpos, he⟩

theorem runTicks_completes (n : Nat) :
    ∀ w : World, w.eb.cumulativeEnergyDecisionThresholds = none → w.eb.unit.isSome = true →
      0 ≤ EnergyPerTick * w.eb.hasteRatingMultiplier * w.eb.energyRegenMultiplier →
      ∃ w1, runTicks n w = .ok () w1 := by
  induction n with
  | zero => intro w _ _ _; exact ⟨w, rfl⟩
  | succ n ih =>
    intro w htbl hunit ha
    obtain ⟨crossed, wm, h1⟩ := addEnergyInternal_ok_of _ w.eb.regenMetrics
      { w with sim := { w.sim with CurrentTime := w.eb.nextEnergyTick } }
      ha (fun tbl h => by simp [htbl] at h)
    obtain ⟨_, he, hs⟩ := addEnergyInternal_eq_ok h1
    obtain ⟨wn, hn⟩ := onEnergyGain_ok_of crossed
      { wm with eb := { wm.eb with
        nextEnergyTick := wm.sim.CurrentTime + EnergyTickDuration } }
      (fun _ => by simp [he, hunit])
    obtain ⟨hen, _⟩ := onEnergyGain_eq_ok hn
    have hrun : RunTask { w with sim := { w.sim with CurrentTime := w.eb.nextEnergyTick } } =
        .ok wn.eb.nextEnergyTick wn := by
      unfold RunTask
      simp only [lt_self_iff_false, if_false]
      rw [h1]
      simp only [Outcome.andThen, hn]
    obtain ⟨w1, hw1⟩ := ih wn (by rw [hen]; simp [he, htbl]) (by rw [hen]; simp [he, hunit])
      (by rw [hen]; simpa [he] using ha)
    refine ⟨w1, ?_⟩
    simp only [runTicks, hrun, Outcome.andThen, hw1]

set_option maxRecDepth 100000 in
/-- C15, counterexample: in `float64` arithmetic, with maxEnergy 100 and the multipliers 1.1 and
1, so that a = 1.1, ten due ticks from 0 leave 10.999999999999998, that is
6192449487634431 / 2^49, which is below 11, while min(c + n*a, maxEnergy) is at least 11 in
exact arithmetic and 11 in `float64` arithmetic. -/
theorem float64_ticks_below_closed_form :
    |elevenTenths.toRat - 11 / 10| < 1 / 2 ^ 53 ∧
    ((Float64.mul ⟨1, 0⟩ elevenTenths).mul ⟨1, 0⟩).toRat = elevenTenths.toRat ∧
    (runTicksFloat64 ⟨100, 0⟩ elevenTenths ⟨1, 0⟩ 10 ⟨0, 0⟩).toRat =
      6192449487634431 / 2 ^ 49 ∧
    (runTicksFloat64 ⟨100, 0⟩ elevenTenths ⟨1, 0⟩ 10 ⟨0, 0⟩).toRat < 11 ∧
    (11 : ℚ) ≤ min (0 + 10 * elevenTenths.toRat) 100 ∧
    (Float64.min ((⟨0, 0⟩ : Float64).add (Float64.mul ⟨10, 0⟩ elevenTenths)) ⟨100, 0⟩).toRat =
      11 := by
  have h1 : (Float64.mul ⟨1, 0⟩ elevenTenths).mul ⟨1, 0⟩ = elevenTenths := by decide
  have h2 : runTicksFloat64 ⟨100, 0⟩ elevenTenths ⟨1, 0⟩ 10 ⟨0, 0⟩ =
      ⟨6192449487634431, -49⟩ := by decide
  have h3 : Float64.min ((⟨0, 0⟩ : Float64).add (Float64.mul ⟨10, 0⟩ elevenTenths)) ⟨100, 0⟩ =
      ⟨6192449487634432, -49⟩ := by decide
  rw [h1, h2, h3]
  refine ⟨?_, rfl, ?_, ?_, ?_, ?_⟩ <;> norm_num [Float64.toRat, elevenTenths, abs_lt]

/-- C15, as amended: with the amounts taken as exact rationals (the rounding of `float64` left
out), on a bar with currentEnergy = c <= maxEnergy and per-tick amount
a = EnergyPerTick * hasteRatingMultiplier * energyRegenMultiplier >= 0, n RunTask invocations,
each made at its due time, leave currentEnergy = min(c + n*a, maxEnergy) when they complete;
and they do complete on a bar that has a unit and no threshold table. -/
theorem runTicks_clamped (n : Nat) (w : World)
    (hc : w.eb.currentEnergy ≤ w.eb.maxEnergy)
    (ha : 0 ≤ EnergyPerTick * w.eb.hasteRatingMultiplier * w.eb.energyRegenMultiplier) :
    (∀ w1, runTicks n w = .ok () w1 →
      w1.eb.currentEnergy = min (w.eb.currentEnergy +
        (n : ℚ) * (EnergyPerTick * w.eb.hasteRatingMultiplier * w.eb.energyRegenMultiplier))
        w.eb.maxEnergy) ∧
    (w.eb.cumulativeEnergyDecisionThresholds = none → w.eb.unit.isSome = true →
      ∃ w1, runTicks n w = .ok () w1) := by
  refine ⟨?_, fun htbl hunit => runTicks_completes n w htbl hunit ha⟩
  induction n generalizing w with
  | zero =>
    intro w1 h
    injection h with _ h2
    subst h2
    simp [min_eq_left hc]
  | succ n ih =>
    intro w1 h
    obtain ⟨wm, h2, _, he⟩ := runTicks_step h
    have hcm : wm.eb.currentEnergy ≤ wm.eb.maxEnergy := by
      rw [he]; exact min_le_right _ _
    have ham : 0 ≤ EnergyPerTick * wm.eb.hasteRatingMultiplier * wm.eb.energyRegenMultiplier := by
      rw [he]; exact ha
    rw [ih wm hcm ham w1 h2, he]
    simp only
    push_cast
    have hn : (0 : ℚ) ≤ (n : ℚ) *
        (EnergyPerTick * w.eb.hasteRatingMultiplier * w.eb.energyRegenMultiplier) :=
      mul_nonneg (Nat.cast_nonneg n) ha
    rcases le_total (w.eb.currentEnergy +
      EnergyPerTick * w.eb.hasteRatingMultiplier * w.eb.energyRegenMultiplier) w.eb.maxEnergy
      with hle | hle
    · rw [min_eq_left hle]
      congr 1
      ring
    · rw [min_eq_right hle, min_eq_right (by linarith), min_eq_right (by linarith)]

/-- Witness of C15: with maxEnergy 100 and a = 1, ten ticks starting from 100 give 100, not
110, and ten ticks starting from 95 give 100, not 105; with a = 3/2, ten ticks starting from 0
give 15. -/
theorem runTicks_clamped_witness :
    (∃ w1, runTicks 10 ⟨barWith 100 0, simAt 0⟩ = .ok () w1 ∧ w1.eb.currentEnergy = 100) ∧
    (∃ w1, runTicks 10 ⟨barWith 95 0, simAt 0⟩ = .ok () w1 ∧ w1.eb.currentEnergy = 100) ∧
    (∃ w1, runTicks 10 ⟨{ barWith 0 0 with energyRegenMultiplier := 3 / 2 }, simAt 0⟩ =
      .ok () w1 ∧ w1.eb.currentEnergy = 15) := by
  refine ⟨?_, ?_, ?_⟩
  · obtain ⟨h1, h2⟩ := runTicks_clamped 10 ⟨barWith 100 0, simAt 0⟩
      (by norm_num [barWith, EnableEnergyBar])
      (by norm_num [barWith, EnableEnergyBar, EnergyPerTick])
    obtain ⟨w1, hw1⟩ := h2 rfl rfl
    refine ⟨w1, hw1, ?_⟩
    rw [h1 w1 hw1]
    norm_num [barWith, EnableEnergyBar, EnergyPerTick]
  · obtain ⟨h1, h2⟩ := runTicks_clamped 10 ⟨barWith 95 0, simAt 0⟩
      (by norm_num [barWith, EnableEnergyBar])
      (by norm_num [barWith, EnableEnergyBar, EnergyPerTick])
    obtain ⟨w1, hw1⟩ := h2 rfl rfl
    refine ⟨w1, hw1, ?_⟩
    rw [h1 w1 hw1]
    norm_num [barWith, EnableEnergyBar, EnergyPerTick]
  · obtain ⟨h1, h2⟩ := runTicks_clamped 10
      ⟨{ barWith 0 0 with energyRegenMultiplier := 3 / 2 }, simAt 0⟩
      (by norm_num [barWith, EnableEnergyBar])
      (by norm_num [barWith, EnableEnergyBar, EnergyPerTick])
    obtain ⟨w1, hw1⟩ := h2 rfl rfl
    refine ⟨w1, hw1, ?_⟩
    rw [h1 w1 hw1]
    norm_num [barWith, EnableEnergyBar, EnergyPerTick]

/-- C16: for every start time and every draw r with 0 <= r < 1, `enable` completes and sets
nextEnergyTick to startAt + trunc(r * EnergyTickDuration), which lies in
[startAt, startAt + EnergyTickDuration). -/
theorem enable_first_tick_offset (w : World) (startAt : Int)
    (hr0 : 0 ≤ w.sim.randomStream w.sim.randomDraws)
    (hr1 : w.sim.randomStream w.sim.randomDraws < 1) :
    ∃ w1, enable startAt w = .ok () w1 ∧
      w1.eb.nextEnergyTick =
        startAt + goInt (w.sim.randomStream w.sim.randomDraws * (EnergyTickDuration : ℚ)) ∧
      startAt ≤ w1.eb.nextEnergyTick ∧ w1.eb.nextEnergyTick < startAt + EnergyTickDuration ∧
      w1.sim.randomDraws = w.sim.randomDraws + 1 := by
  have hT : (0 : ℚ) < (EnergyTickDuration : ℚ) := by norm_num [EnergyTickDuration]
  have hx0 : 0 ≤ w.sim.randomStream w.sim.randomDraws * (EnergyTickDuration : ℚ) :=
    mul_nonneg hr0 (le_of_lt hT)
  have hx1 : w.sim.randomStream w.sim.randomDraws * (EnergyTickDuration : ℚ) <
      (EnergyTickDuration : ℚ) := by
    have := mul_lt_mul_of_pos_right hr1 hT
    rwa [one_mul] at this
  have hg0 : 0 ≤ goInt (w.sim.randomStream w.sim.randomDraws * (EnergyTickDuration : ℚ)) := by
    rw [goInt, if_pos hx0]
    exact Int.floor_nonneg.mpr hx0
  have hg1 : goInt (w.sim.randomStream w.sim.randomDraws * (EnergyTickDuration : ℚ)) <
      EnergyTickDuration := by
    rw [goInt, if_pos hx0]
    exact Int.floor_lt.mpr hx1
  have hrun : ∃ w1, enable startAt w = .ok () w1 ∧ w1.eb.nextEnergyTick =
      startAt + goInt (w.sim.randomStream w.sim.randomDraws * (EnergyTickDuration : ℚ)) ∧
      w1.sim.randomDraws = w.sim.randomDraws + 1 := by
    unfold enable
    simp only [World.randomFloat, World.rescheduleTask]
    split
    · exact ⟨_, rfl, rfl, rfl⟩
    · exact ⟨_, rfl, rfl, rfl⟩
  obtain ⟨w1, h1, h2, h3⟩ := hrun
  exact ⟨w1, h1, h2, by rw [h2]; omega, by rw [h2]; omega, h3⟩

/-- Witness of C16: the draw 1/2 at start time -5s puts the first tick 50ms later. -/
theorem enable_first_tick_offset_witness :
    ∃ w1, enable (-5000000000)
        ⟨barWith 100 0, { simAt (-5000000000) with randomStream := fun _ => 1 / 2 }⟩ = .ok () w1 ∧
      w1.eb.nextEnergyTick = -5000000000 + 50000000 := by
  obtain ⟨w1, h1, h2, _⟩ := enable_first_tick_offset
    ⟨barWith 100 0, { simAt (-5000000000) with randomStream := fun _ => 1 / 2 }⟩ (-5000000000)
    (by norm_num) (by norm_num)
  refine ⟨w1, h1, ?_⟩
  rw [h2]
  norm_num [goInt, EnergyTickDuration, Int.floor_eq_iff]

/-! ## Claims on combo points and energy costs -/

theorem wrapInt32_of_inRange {x : Int} (h0 : -2147483648 ≤ x) (h1 : x < 2147483648) :
    wrapInt32 x = x := by
  unfold wrapInt32
  omega

/-- C17, counterexample: with 1 combo point, adding the int32 value 2147483647 wraps around
and leaves comboPoints = -2147483648, outside [0, 5]. -/
theorem AddComboPoints_overflow_leaves_range :
    (0 : Int) ≤ 1 ∧ (1 : Int) ≤ 5 ∧ (0 : Int) ≤ 2147483647 ∧ (2147483647 : Int) < 2147483648 ∧
    (AddComboPoints 2147483647 4
      ⟨{ barWith 0 0 with comboPoints := 1 }, simAt 0⟩).state.eb.comboPoints = -2147483648 ∧
    ¬ (0 ≤ (AddComboPoints 2147483647 4
      ⟨{ barWith 0 0 with comboPoints := 1 }, simAt 0⟩).state.eb.comboPoints) := by
  have h : (AddComboPoints 2147483647 4
      ⟨{ barWith 0 0 with comboPoints := 1 }, simAt 0⟩).state.eb.comboPoints = -2147483648 := by
    simp only [AddComboPoints, Outcome.state, World.addEvent, World.logIfEnabled, simAt]
    decide
  refine ⟨by decide, by decide, by decide, by decide, h, ?_⟩
  rw [h]
  decide

/-- C17, as amended: for every counter value in [0, 5] and every pointsToAdd >= 0 whose sum
with the counter does not exceed the largest int32, AddComboPoints completes and leaves
comboPoints = min(old + pointsToAdd, 5), again in [0, 5], and records one metrics event with
gross = pointsToAdd and net = new - old. -/
theorem AddComboPoints_clamps (w : World) (pointsToAdd : Int) (metrics : Nat)
    (hk0 : 0 ≤ w.eb.comboPoints) (hk5 : w.eb.comboPoints ≤ 5) (hp : 0 ≤ pointsToAdd)
    (hsum : w.eb.comboPoints + pointsToAdd ≤ 2147483647) :
    ∃ w1, AddComboPoints pointsToAdd metrics w = .ok () w1 ∧
      w1.eb.comboPoints = min (w.eb.comboPoints + pointsToAdd) 5 ∧
      0 ≤ w1.eb.comboPoints ∧ w1.eb.comboPoints ≤ 5 ∧
      w1.sim.metrics = w.sim.metrics ++
        [⟨metrics, (pointsToAdd : ℚ), ((w1.eb.comboPoints - w.eb.comboPoints : Int) : ℚ)⟩] := by
  have hw : wrapInt32 (w.eb.comboPoints + pointsToAdd) = w.eb.comboPoints + pointsToAdd :=
    wrapInt32_of_inRange (by omega) (by omega)
  have hmin0 : 0 ≤ min (w.eb.comboPoints + pointsToAdd) 5 := le_min (by omega) (by decide)
  have hmin5 : min (w.eb.comboPoints + pointsToAdd) 5 ≤ 5 := min_le_right _ _
  have hw2 : wrapInt32 (min (w.eb.comboPoints + pointsToAdd) 5 - w.eb.comboPoints) =
      min (w.eb.comboPoints + pointsToAdd) 5 - w.eb.comboPoints :=
    wrapInt32_of_inRange (by omega) (by omega)
  refine ⟨_, rfl, ?_, ?_, ?_, ?_⟩
  · simp only [hw]
  · simp only [hw]
    exact hmin0
  · simp only [hw]
    exact hmin5
  · simp only [World.addEvent, World.logIfEnabled, hw, hw2]
    split <;> rfl

/-- Witness of C17: adding 3 points to a counter at 4 leaves 5 and records the event (3, 1). -/
theorem AddComboPoints_clamps_witness :
    ∃ w1, AddComboPoints 3 4 ⟨{ barWith 0 0 with comboPoints := 4 }, simAt 0⟩ = .ok () w1 ∧
      w1.eb.comboPoints = 5 ∧ w1.sim.metrics = [⟨4, 3, 1⟩] := by
  obtain ⟨w1, h1, h2, _, _, h5⟩ := AddComboPoints_clamps
    ⟨{ barWith 0 0 with comboPoints := 4 }, simAt 0⟩ 3 4 (by decide) (by decide) (by decide)
    (by decide)
  have h6 : w1.eb.comboPoints = 5 := by rw [h2]; decide
  refine ⟨w1, h1, h6, ?_⟩
  rw [h5, h6]
  norm_num [simAt]

/-- C18, counterexample: adding the int32 value 2147483647 to a counter at 1 leaves the counter
at k = -2147483648, and SpendComboPoints on that counter records the event with gross = net =
-2147483648, which is k and not -k = 2147483648: the int32 negation wraps around. -/
theorem SpendComboPoints_least_int32_not_negated :
    (AddComboPoints 2147483647 4
      ⟨{ barWith 0 0 with comboPoints := 1 }, simAt 0⟩).state.eb.comboPoints = -2147483648 ∧
    (SpendComboPoints 4 ⟨{ barWith 0 0 with comboPoints := -2147483648 }, simAt 0⟩).state.sim.metrics
      = [⟨4, -2147483648, -2147483648⟩] ∧
    (-2147483648 : ℚ) ≠ ((-(-2147483648 : Int) : Int) : ℚ) := by
  refine ⟨?_, ?_, by norm_num⟩
  · simp only [AddComboPoints, Outcome.state, World.addEvent, World.logIfEnabled, simAt]
    decide
  · have h : wrapInt32 2147483648 = -2147483648 := by decide
    simp [SpendComboPoints, Outcome.state, World.addEvent, World.logIfEnabled, simAt, barWith, h]

/-- C18, as amended: for every counter value k, SpendComboPoints completes, records exactly one
metrics event, sets comboPoints to 0 and leaves the rest of the bar, currentEnergy and maxEnergy
included, unchanged; for every k above the least int32 value -2147483648 (so for every k in
[0, 5]) the event has gross = net = -k, and it is recorded also when k = 0; AddComboPoints
records one event whatever the net change. -/
theorem SpendComboPoints_resets (w : World) (metrics : Nat) :
    (∃ w1 event, SpendComboPoints metrics w = .ok () w1 ∧
      w1.sim.metrics = w.sim.metrics ++ [event] ∧ event.sink = metrics ∧
      w1.eb = { w.eb with comboPoints := 0 } ∧
      (-2147483648 < w.eb.comboPoints → w.eb.comboPoints < 2147483648 →
        event.gross = ((-w.eb.comboPoints : Int) : ℚ) ∧
        event.net = ((-w.eb.comboPoints : Int) : ℚ)) ∧
      (w.eb.comboPoints = 0 → event = ⟨metrics, 0, 0⟩)) ∧
    (∀ pointsToAdd : Int, ∃ w2 event, AddComboPoints pointsToAdd metrics w = .ok () w2 ∧
      w2.sim.metrics = w.sim.metrics ++ [event] ∧ event.sink = metrics ∧
      event.gross = (pointsToAdd : ℚ)) := by
  refine ⟨⟨_, ⟨metrics, ((wrapInt32 (-w.eb.comboPoints) : Int) : ℚ),
      ((wrapInt32 (-w.eb.comboPoints) : Int) : ℚ)⟩, rfl, ?_, rfl, ?_, ?_, ?_⟩,
    fun pointsToAdd => ⟨_, ⟨metrics, (pointsToAdd : ℚ),
      ((wrapInt32 (min (wrapInt32 (w.eb.comboPoints + pointsToAdd)) 5 - w.eb.comboPoints) : Int) :
        ℚ)⟩, rfl, ?_, rfl, rfl⟩⟩
  · simp only [World.addEvent, World.logIfEnabled]
    split <;> rfl
  · simp only [World.addEvent, World.logIfEnabled]
    split <;> rfl
  · intro h0 h1
    have hw : wrapInt32 (-w.eb.comboPoints) = -w.eb.comboPoints :=
      wrapInt32_of_inRange (by omega) (by omega)
    simp only [hw, and_self]
  · intro hk
    simp [wrapInt32, hk]
  · simp only [World.addEvent, World.logIfEnabled]
    split <;> rfl

/-- Witness of C18: spending from a counter at 3 records the event (-3, -3) and leaves 0. -/
theorem SpendComboPoints_resets_witness :
    ∃ w1, SpendComboPoints 4 ⟨{ barWith 70 0 with comboPoints := 3 }, simAt 0⟩ = .ok () w1 ∧
      w1.sim.metrics = [⟨4, -3, -3⟩] ∧ w1.eb.comboPoints = 0 ∧ w1.eb.currentEnergy = 70 := by
  obtain ⟨⟨w1, event, h1, h2, h3, h4, h5, _⟩, _⟩ := SpendComboPoints_resets
    ⟨{ barWith 70 0 with comboPoints := 3 }, simAt 0⟩ 4
  obtain ⟨h6, h7⟩ := h5 (by decide) (by decide)
  refine ⟨w1, h1, ?_, ?_, ?_⟩
  · rw [h2]
    obtain ⟨sink, gross, net⟩ := event
    simp only at h3 h6 h7
    subst h3 h6 h7
    norm_num [simAt]
  · rw [h4]
  · rw [h4]; simp [barWith]

theorem AddEnergy_metrics {amount : ℚ} {metrics : Nat} {w w1 : World}
    (h : AddEnergy amount metrics w = .ok () w1) :
    w1.sim.metrics = w.sim.metrics ++
      [⟨metrics, amount, min (w.eb.currentEnergy + amount) w.eb.maxEnergy - w.eb.currentEnergy⟩] := by
  obtain ⟨crossed, wm, h1, _, hs⟩ := AddEnergy_eq_ok h
  obtain ⟨_, _, hsm⟩ := addEnergyInternal_eq_ok h1
  rw [hs, hsm]

/-- C19: EnergyCost.MeetsRequirement sets spell.CurCast.Cost to ApplyCostModifiers of its old
value and changes nothing else, and returns true iff currentEnergy >= that finalized cost; when
it returned true and the finalized cost is >= 0, the following SpendCost completes and sets
currentEnergy to currentEnergy - finalized cost, which is >= 0, recording the spend on
ResourceMetrics. -/
theorem MeetsRequirement_guards_spend (ec : EnergyCost) (spell : Spell) (w : World) :
    (ec.MeetsRequirement spell w).2 =
      { spell with CurCastCost := spell.ApplyCostModifiers spell.CurCastCost } ∧
    ((ec.MeetsRequirement spell w).1 = true ↔
      w.eb.currentEnergy ≥ spell.ApplyCostModifiers spell.CurCastCost) ∧
    ((ec.MeetsRequirement spell w).1 = true →
      0 ≤ spell.ApplyCostModifiers spell.CurCastCost →
      ∃ w1, ec.SpendCost (ec.MeetsRequirement spell w).2 w = .ok () w1 ∧
        w1.eb.currentEnergy =
          w.eb.currentEnergy - spell.ApplyCostModifiers spell.CurCastCost ∧
        0 ≤ w1.eb.currentEnergy ∧
        w1.sim.metrics = w.sim.metrics ++
          [⟨ec.ResourceMetrics, -spell.ApplyCostModifiers spell.CurCastCost,
            -spell.ApplyCostModifiers spell.CurCastCost⟩]) := by
  have hiff : (ec.MeetsRequirement spell w).1 = true ↔
      w.eb.currentEnergy ≥ spell.ApplyCostModifiers spell.CurCastCost := by
    simp [EnergyCost.MeetsRequirement, CurrentEnergy]
  refine ⟨rfl, hiff, fun hmeets hcost => ?_⟩
  have hge := hiff.mp hmeets
  have hrun : ∃ w1, SpendEnergy (spell.ApplyCostModifiers spell.CurCastCost)
      ec.ResourceMetrics w = .ok () w1 := by
    simp [SpendEnergy, not_lt.mpr hcost]
  obtain ⟨w1, h1⟩ := hrun
  obtain ⟨_, he, hs⟩ := SpendEnergy_eq_ok h1
  refine ⟨w1, h1, by rw [he], ?_, by rw [hs]⟩
  rw [he]
  simp only
  linarith

/-- Witness of C19: a spell costing 40, finalized to 35, on a bar holding 50: the check
answers true and the spend leaves 15. -/
theorem MeetsRequirement_guards_spend_witness :
    ((⟨0, none, 5, 6⟩ : EnergyCost).MeetsRequirement (spellCosting 40)
      ⟨barWith 50 0, simAt 0⟩).1 = true ∧
    ∃ w1, (⟨0, none, 5, 6⟩ : EnergyCost).SpendCost
        ((⟨0, none, 5, 6⟩ : EnergyCost).MeetsRequirement (spellCosting 40)
          ⟨barWith 50 0, simAt 0⟩).2 ⟨barWith 50 0, simAt 0⟩ = .ok () w1 ∧
      w1.eb.currentEnergy = 15 ∧ w1.sim.metrics = [⟨5, -35, -35⟩] := by
  obtain ⟨_, h2, h3⟩ := MeetsRequirement_guards_spend ⟨0, none, 5, 6⟩ (spellCosting 40)
    ⟨barWith 50 0, simAt 0⟩
  have hmeets := h2.mpr (by norm_num [spellCosting, barWith])
  obtain ⟨w1, k1, k2, _, k4⟩ := h3 hmeets (by norm_num [spellCosting])
  refine ⟨hmeets, w1, k1, ?_, ?_⟩
  · rw [k2]; norm_num [spellCosting, barWith]
  · rw [k4]; norm_num [spellCosting, simAt]

/-- C20, counterexample: in `float64` arithmetic, on a bar holding 25.158069415076422 of 100, a
spell costing 5.1 with Refund = 1: the spend leaves 20.058069415076424 and the refund of 5.1
leaves 25.158069415076426, that is 7081367002693704 / 2^48, above the amount before the spend,
7081367002693703 / 2^48. -/
theorem float64_refund_exceeds_old :
    |oddEnergy.toRat - 25158069415076422 / 1000000000000000| < 1 / 2 ^ 49 ∧
    |fiftyOneTenths.toRat - 51 / 10| < 1 / 2 ^ 51 ∧
    oddEnergy.toRat = 7081367002693703 / 2 ^ 48 ∧
    (spendThenRefundFloat64 oddEnergy ⟨100, 0⟩ fiftyOneTenths ⟨1, 0⟩).toRat =
      7081367002693704 / 2 ^ 48 ∧
    oddEnergy.toRat < (spendThenRefundFloat64 oddEnergy ⟨100, 0⟩ fiftyOneTenths ⟨1, 0⟩).toRat := by
  have h : spendThenRefundFloat64 oddEnergy ⟨100, 0⟩ fiftyOneTenths ⟨1, 0⟩ =
      ⟨7081367002693704, -48⟩ := by decide
  rw [h]
  refine ⟨?_, ?_, ?_, ?_, ?_⟩ <;> norm_num [Float64.toRat, oddEnergy, fiftyOneTenths, abs_lt]

/-- C20, as amended: EnergyCost.IssueRefund changes nothing and records nothing when
Refund <= 0; when Refund > 0 it performs AddEnergy(Refund * spell.CurCast.Cost) recorded on
RefundMetrics. newEnergyCost sets RefundMetrics to the unit's EnergyRefundMetrics when
Refund > 0 and none is supplied, leaves it nil when Refund <= 0 and none is supplied, keeps a
supplied one, and RefundMetrics differs from ResourceMetrics whenever the sink returned by
NewEnergyMetrics is neither the unit's EnergyRefundMetrics nor the supplied sink. With the
amounts taken as exact rationals (the rounding of `float64` left out), for 0 < Refund <= 1 and
cost >= 0, a completed SpendCost followed by a completed IssueRefund leaves
currentEnergy = min(old - cost + Refund * cost, maxEnergy) <= old, with the spend recorded on
ResourceMetrics and the refund on RefundMetrics; on a bar that has its unit and no threshold
table both calls complete. -/
theorem IssueRefund_conditional (ec : EnergyCost) (spell : Spell) (w : World) :
    (ec.Refund ≤ 0 → ec.IssueRefund spell w = .ok () w) ∧
    (0 < ec.Refund → ∀ m, ec.RefundMetrics = some m →
      ec.IssueRefund spell w = AddEnergy (ec.Refund * spell.CurCastCost) m w) ∧
    (∀ (energySink comboSink : Nat) (spell0 : Spell) (options : EnergyCostOptions),
      (newEnergyCost energySink comboSink w.eb spell0 options).2.Refund = options.Refund ∧
      (newEnergyCost energySink comboSink w.eb spell0 options).2.ResourceMetrics = energySink ∧
      (0 < options.Refund → options.RefundMetrics = none →
        (newEnergyCost energySink comboSink w.eb spell0 options).2.RefundMetrics =
          some w.eb.EnergyRefundMetrics) ∧
      (options.Refund ≤ 0 → options.RefundMetrics = none →
        (newEnergyCost energySink comboSink w.eb spell0 options).2.RefundMetrics = none) ∧
      (∀ m, options.RefundMetrics = some m →
        (newEnergyCost energySink comboSink w.eb spell0 options).2.RefundMetrics = some m) ∧
      (energySink ≠ w.eb.EnergyRefundMetrics → options.RefundMetrics ≠ some energySink →
        (newEnergyCost energySink comboSink w.eb spell0 options).2.RefundMetrics ≠
          some (newEnergyCost energySink comboSink w.eb spell0 options).2.ResourceMetrics) ∧
      (0 < options.Refund →
        ∃ m, (newEnergyCost energySink comboSink w.eb spell0 options).2.RefundMetrics = some m)) ∧
    (∀ (m : Nat) (w1 w2 : World), ec.RefundMetrics = some m → 0 < ec.Refund → ec.Refund ≤ 1 →
      0 ≤ spell.CurCastCost → ec.SpendCost spell w = .ok () w1 →
      ec.IssueRefund spell w1 = .ok () w2 →
      w2.eb.currentEnergy = min (w.eb.currentEnergy - spell.CurCastCost +
        ec.Refund * spell.CurCastCost) w.eb.maxEnergy ∧
      w2.eb.currentEnergy ≤ w.eb.currentEnergy ∧
      w2.sim.metrics = w.sim.metrics ++
        [⟨ec.ResourceMetrics, -spell.CurCastCost, -spell.CurCastCost⟩,
          ⟨m, ec.Refund * spell.CurCastCost,
            w2.eb.currentEnergy - (w.eb.currentEnergy - spell.CurCastCost)⟩]) ∧
    (∀ m : Nat, ec.RefundMetrics = some m → 0 < ec.Refund → 0 ≤ spell.CurCastCost →
      w.eb.cumulativeEnergyDecisionThresholds = none → w.eb.unit.isSome = true →
      ∃ w1 w2, ec.SpendCost spell w = .ok () w1 ∧ ec.IssueRefund spell w1 = .ok () w2) := by
  refine ⟨fun hle => ?_, fun hpos m hm => ?_, fun energySink comboSink spell0 options => ?_,
    fun m w1 w2 hm hpos hle1 hcost hspend hrefund => ?_,
    fun m hm hpos hcost htbl hunit => ?_⟩
  · simp [EnergyCost.IssueRefund, not_lt.mpr hle]
  · simp [EnergyCost.IssueRefund, hpos, hm]
  · refine ⟨?_, rfl, fun hpos hnone => ?_, fun hle hnone => ?_, fun m hm => ?_,
      fun hfresh hsupplied => ?_, fun hpos => ?_⟩
    · simp only [newEnergyCost]
      split <;> rfl
    · simp [newEnergyCost, hpos, hnone]
    · simp [newEnergyCost, not_lt.mpr hle, hnone]
    · simp [newEnergyCost, hm]
    · simp only [newEnergyCost]
      split
      · exact fun h => hfresh (Option.some.inj h).symm
      · exact hsupplied
    · cases hopt : options.RefundMetrics with
      | none => exact ⟨w.eb.EnergyRefundMetrics, by simp [newEnergyCost, hpos, hopt]⟩
      | some m => exact ⟨m, by simp [newEnergyCost, hopt]⟩
  · obtain ⟨_, he1, hs1⟩ := SpendEnergy_eq_ok hspend
    have hrefund2 : AddEnergy (ec.Refund * spell.CurCastCost) m w1 = .ok () w2 := by
      simpa [EnergyCost.IssueRefund, hpos, hm] using hrefund
    obtain ⟨crossed, wm, k1, he2, _⟩ := AddEnergy_eq_ok hrefund2
    have hm2 := AddEnergy_metrics hrefund2
    have hc : w2.eb.currentEnergy = min (w.eb.currentEnergy - spell.CurCastCost +
        ec.Refund * spell.CurCastCost) w.eb.maxEnergy := by
      rw [he2, he1]
    refine ⟨hc, ?_, ?_⟩
    · rw [hc]
      refine le_trans (min_le_left _ _) ?_
      nlinarith
    · rw [hm2, hs1, he1, hc]
      simp
  · have hspend : ∃ w1, ec.SpendCost spell w = .ok () w1 := by
      simp only [EnergyCost.SpendCost, SpendEnergy, not_lt.mpr hcost, if_false]
      exact ⟨_, rfl⟩
    obtain ⟨w1, hw1⟩ := hspend
    obtain ⟨_, he1, _⟩ := SpendEnergy_eq_ok hw1
    obtain ⟨crossed, wm, h1⟩ := addEnergyInternal_ok_of (ec.Refund * spell.CurCastCost) m w1
      (mul_nonneg (le_of_lt hpos) hcost) (fun tbl h => by simp [he1, htbl] at h)
    obtain ⟨_, hem, _⟩ := addEnergyInternal_eq_ok h1
    obtain ⟨w2, hw2⟩ := onEnergyGain_ok_of crossed wm (fun _ => by simp [hem, he1, hunit])
    refine ⟨w1, w2, hw1, ?_⟩
    simp only [EnergyCost.IssueRefund, hpos, if_true, hm, AddEnergy, h1, Outcome.andThen, hw2]

/-- Witness of C20: a spell costing 40 with a refund of 4/5 on a bar holding 100 of 100: the
refund sink is the unit's, sink 1, and differs from the spell's own sink 5; the spend leaves 60
and is recorded on sink 5, the refund of 32 leaves 92 and is recorded on sink 1. -/
theorem IssueRefund_conditional_witness :
    exampleCost.RefundMetrics = some (barWith 100 0).EnergyRefundMetrics ∧
    exampleCost.RefundMetrics ≠ some exampleCost.ResourceMetrics ∧
    ∃ w1 w2, exampleCost.SpendCost (spellCosting 40) ⟨barWith 100 0, simAt 0⟩ = .ok () w1 ∧
      exampleCost.IssueRefund (spellCosting 40) w1 = .ok () w2 ∧
      w2.eb.currentEnergy = 92 ∧ w2.sim.metrics = [⟨5, -40, -40⟩, ⟨1, 32, 32⟩] := by
  have hR : exampleCost.Refund = 4 / 5 := by
    norm_num [exampleCost, newEnergyCost]
  have hM : exampleCost.RefundMetrics = some 1 := by
    norm_num [exampleCost, newEnergyCost, barWith, EnableEnergyBar]
  have hS : exampleCost.ResourceMetrics = 5 := rfl
  have hspend : exampleCost.SpendCost (spellCosting 40) ⟨barWith 100 0, simAt 0⟩ =
      .ok () ⟨barWith 60 0, { simAt 0 with metrics := [⟨5, -40, -40⟩] }⟩ := by
    norm_num [EnergyCost.SpendCost, SpendEnergy, hS, spellCosting, barWith, simAt,
      World.addEvent, World.logIfEnabled]
  have hrefund : exampleCost.IssueRefund (spellCosting 40)
      ⟨barWith 60 0, { simAt 0 with metrics := [⟨5, -40, -40⟩] }⟩ =
      .ok () ⟨barWith 92 0,
        { simAt 0 with metrics := [⟨5, -40, -40⟩, ⟨1, 32, 32⟩], nextActionCalls := 1 }⟩ := by
    norm_num [EnergyCost.IssueRefund, hR, hM, AddEnergy, addEnergyInternal, onEnergyGain,
      Outcome.andThen, spellCosting, barWith, simAt, EnableEnergyBar, plainUnit, World.addEvent,
      World.logIfEnabled]
  obtain ⟨_, _, hnew, hboth, _⟩ := IssueRefund_conditional exampleCost (spellCosting 40)
    ⟨barWith 100 0, simAt 0⟩
  obtain ⟨hc, _, hm⟩ := hboth 1 _ _ hM (by rw [hR]; norm_num) (by rw [hR]; norm_num)
    (by norm_num [spellCosting]) hspend hrefund
  refine ⟨?_, ?_, _, _, hspend, hrefund, ?_, ?_⟩
  · exact (hnew 5 6 (spellCosting 40) ⟨40, 4 / 5, none⟩).2.2.1 (by norm_num) rfl
  · exact (hnew 5 6 (spellCosting 40) ⟨40, 4 / 5, none⟩).2.2.2.2.2.1
      (by simp [barWith, EnableEnergyBar]) (by simp)
  · rw [hc, hR]; norm_num [spellCosting, barWith, EnableEnergyBar]
  · rw [hm, hc, hR, hS]; norm_num [spellCosting, barWith, simAt, EnableEnergyBar]

/-! ## Claims on crossing detection and on the regen paths -/

theorem goInt_nonneg {x : ℚ} (h : 0 ≤ x) : 0 ≤ goInt x := by
  rw [goInt, if_pos h]
  exact Int.floor_nonneg.mpr h

theorem goInt_mono_of_nonneg {x y : ℚ} (hx : 0 ≤ x) (hxy : x ≤ y) : goInt x ≤ goInt y := by
  rw [goInt, goInt, if_pos hx, if_pos (le_trans hx hxy)]
  exact Int.floor_mono hxy

/-- The lookup of a table of int(maxEnergy)+1 entries is in range at every amount between 0
and maxEnergy. -/
theorem sliceGet_goInt_isSome {tbl : List Int} {x maxEnergy : ℚ}
    (hlen : (tbl.length : Int) = goInt maxEnergy + 1) (hx0 : 0 ≤ x) (hx1 : x ≤ maxEnergy) :
    ∃ v, sliceGet tbl (goInt x) = some v := by
  have h0 := goInt_nonneg hx0
  have h1 := goInt_mono_of_nonneg hx0 hx1
  have hlt : (goInt x).toNat < tbl.length := by omega
  refine ⟨tbl[(goInt x).toNat], ?_⟩
  unfold sliceGet
  rw [if_pos ⟨h0, by omega⟩]
  exact List.getElem?_eq_getElem hlt

theorem thresholdsAtMost_ne_iff (ts : List Int) {i j : Int} (hij : i ≤ j) :
    thresholdsAtMost ts i ≠ thresholdsAtMost ts j ↔ ∃ t ∈ ts, i < t ∧ t ≤ j := by
  induction ts with
  | nil => simp [thresholdsAtMost]
  | cons t rest ih =>
    have hmono := thresholdsAtMost_mono rest hij
    rw [thresholdsAtMost_cons, thresholdsAtMost_cons]
    constructor
    · intro hne
      by_cases hrest : thresholdsAtMost rest i ≠ thresholdsAtMost rest j
      · obtain ⟨x, hx, hx1⟩ := ih.mp hrest
        exact ⟨x, List.mem_cons_of_mem _ hx, hx1⟩
      · have heq : thresholdsAtMost rest i = thresholdsAtMost rest j := not_not.mp hrest
        refine ⟨t, List.mem_cons_self _ _, ?_⟩
        by_cases h1 : t ≤ i
        · have h2 : t ≤ j := by omega
          simp [h1, h2, heq] at hne
        · by_cases h2 : t ≤ j
          · omega
          · simp [h1, h2, heq] at hne
    · rintro ⟨x, hx, hx1, hx2⟩
      rcases List.mem_cons.mp hx with rfl | hx
      · have h1 : ¬ (x ≤ i) := by omega
        simp only [h1, hx2, if_true, if_false]
        omega
      · have hne := ih.mpr ⟨x, hx, hx1, hx2⟩
        by_cases h1 : t ≤ i
        · have h2 : t ≤ j := by omega
          simp only [h1, h2, if_true]
          omega
        · by_cases h2 : t ≤ j
          · simp only [h1, h2, if_true, if_false]
            omega
          · simp only [h1, h2, if_false]
            omega

/-- C21: for a bar whose table was built by setupEnergyThresholds with every collected
threshold in [1, int(maxEnergy)], every gain with amount >= 0 made at 0 <= currentEnergy <=
maxEnergy completes, and returns crossedThreshold = true if and only if some configured
threshold t satisfies int(old currentEnergy) < t <= int(new currentEnergy). -/
theorem crossing_iff_threshold_between (eb0 : energyBar) (unit : UnitInfo)
    (hunit : eb0.unit = some unit) (hempty : eb0.energyDecisionThresholds = [])
    (hrange : ∀ t ∈ collectThresholds unit.aplActions, 1 ≤ t ∧ t ≤ goInt eb0.maxEnergy)
    (w : World) (amount : ℚ) (metrics : Nat)
    (htbl : w.eb.cumulativeEnergyDecisionThresholds =
      (setupEnergyThresholds eb0).state.cumulativeEnergyDecisionThresholds)
    (hmaxEq : w.eb.maxEnergy = eb0.maxEnergy)
    (hamount : 0 ≤ amount) (hc0 : 0 ≤ w.eb.currentEnergy)
    (hcM : w.eb.currentEnergy ≤ w.eb.maxEnergy) :
    (setupEnergyThresholds eb0).completes = true ∧
    ∃ crossed w1, addEnergyInternal amount metrics w = .ok crossed w1 ∧
      (crossed = true ↔
        ∃ t ∈ (setupEnergyThresholds eb0).state.energyDecisionThresholds,
          goInt w.eb.currentEnergy < t ∧
          t ≤ goInt (min (w.eb.currentEnergy + amount) w.eb.maxEnergy)) ∧
      (crossed = true ↔
        ∃ t ∈ collectThresholds unit.aplActions,
          goInt w.eb.currentEnergy < t ∧
          t ≤ goInt (min (w.eb.currentEnergy + amount) w.eb.maxEnergy)) := by
  have hM0 : 0 ≤ eb0.maxEnergy := by rw [← hmaxEq]; exact le_trans hc0 hcM
  have hgM : 0 ≤ goInt eb0.maxEnergy := goInt_nonneg hM0
  obtain ⟨tbl, h1, h2, h3⟩ := setupEnergyThresholds_eq_ok eb0 unit hunit hempty (by omega)
    (fun t ht => by have := (hrange t ht).2; omega)
  obtain ⟨k1, k2⟩ := uniqueThresholds_spec _ 0
    (sortStable_sorted_of_nonneg (collectThresholds unit.aplActions) fun t ht =>
      ⟨by have := (hrange t ht).1; omega, collectThresholds_inRange _ t ht⟩)
  rw [h1] at htbl ⊢
  simp only [Outcome.state] at htbl ⊢
  have hnew0 : 0 ≤ min (w.eb.currentEnergy + amount) w.eb.maxEnergy :=
    le_min (by linarith) (le_trans hc0 hcM)
  have hnewM : min (w.eb.currentEnergy + amount) w.eb.maxEnergy ≤ eb0.maxEnergy := by
    rw [← hmaxEq]; exact min_le_right _ _
  have hcnew : w.eb.currentEnergy ≤ min (w.eb.currentEnergy + amount) w.eb.maxEnergy :=
    le_min (by linarith) hcM
  have hi0 := goInt_nonneg hc0
  have hij := goInt_mono_of_nonneg hc0 hcnew
  have hjM := goInt_mono_of_nonneg hnew0 hnewM
  have hget : ∀ e : Int, 0 ≤ e → e ≤ goInt eb0.maxEnergy → sliceGet tbl e = some
      (thresholdsAtMost (uniqueThresholds 0 (sortStable (collectThresholds unit.aplActions))) e :
        Int) := by
    intro e he0 he1
    refine sliceGet_of_getElem? he0 (by omega) ?_
    have := h3 e.toNat (by omega)
    rw [this, Int.toNat_of_nonneg he0]
  have hb := hget _ hi0 (by omega)
  have ha := hget _ (by omega) hjM
  obtain ⟨crossed, w1, hrun⟩ := addEnergyInternal_ok_of amount metrics w hamount
    (fun tbl1 htbl1 => by
      rw [htbl] at htbl1
      injection htbl1 with htbl1
      subst htbl1
      exact ⟨_, _, hb, ha⟩)
  obtain ⟨before, after, hb2, ha2, hcross⟩ := addEnergyInternal_eq_ok_table hrun htbl
  rw [hb] at hb2
  rw [ha] at ha2
  injection hb2 with hb2
  injection ha2 with ha2
  have hiff : crossed = true ↔
      ∃ t ∈ uniqueThresholds 0 (sortStable (collectThresholds unit.aplActions)),
        goInt w.eb.currentEnergy < t ∧
        t ≤ goInt (min (w.eb.currentEnergy + amount) w.eb.maxEnergy) := by
    rw [← thresholdsAtMost_ne_iff _ hij, hcross, ← hb2, ← ha2]
    simp
  refine ⟨rfl, crossed, w1, hrun, hiff, ?_⟩
  rw [hiff]
  constructor
  · rintro ⟨t, ht, h⟩
    exact ⟨t, mem_sortStable.mp ((k2 t).mp ht).1, h⟩
  · rintro ⟨t, ht, h⟩
    exact ⟨t, (k2 t).mpr ⟨mem_sortStable.mpr ht, by have := (hrange t ht).1; omega⟩, h⟩

/-- Witness of C21: on the bar of the example (thresholds 35, 50, 60, 85, maxEnergy 100) a
gain of 10 at 30 energy moves the integral amount from 30 to 40, past the threshold 35, and
reports a crossing. -/
theorem crossing_iff_threshold_between_witness :
    ∃ w1, addEnergyInternal 10 2 ⟨{ exampleTableBar with currentEnergy := 30 }, simAt 5⟩ =
      .ok true w1 := by
  have hg : goInt (EnableEnergyBar exampleUnit 0 1 100).maxEnergy = 100 := by
    rw [maxEnergy_EnableEnergyBar_hundred, goInt_hundred]
  obtain ⟨_, crossed, w1, hrun, _, hiff⟩ := crossing_iff_threshold_between
    (EnableEnergyBar exampleUnit 0 1 100) exampleUnit rfl rfl
    (by rw [hg, collectThresholds_exampleUnit]; decide)
    ⟨{ exampleTableBar with currentEnergy := 30 }, simAt 5⟩ 10 2
    (by rw [setupEnergyThresholds_exampleUnit]; rfl)
    (by simp [exampleTableBar])
    (by norm_num) (by norm_num) (by norm_num [exampleTableBar, EnableEnergyBar])
  have hc : crossed = true := by
    refine hiff.mpr ⟨35, by rw [collectThresholds_exampleUnit]; decide, ?_, ?_⟩
    · have : goInt (30 : ℚ) = 30 := by simp [goInt]
      simp only [this]
      decide
    · have h40 : min ((30 : ℚ) + 10) 100 = 40 := by norm_num
      have : goInt (40 : ℚ) = 40 := by simp [goInt]
      simp only [exampleTableBar, EnableEnergyBar, max_self, h40, this]
      decide
  rw [hc] at hrun
  exact ⟨w1, hrun⟩

/-- The regen paths on a bar whose table, if any, has int(maxEnergy)+1 entries. -/
theorem regen_paths_ok_of_table_length (w : World)
    (hhaste : 0 ≤ w.eb.hasteRatingMultiplier) (hregen : 0 ≤ w.eb.energyRegenMultiplier)
    (hc0 : 0 ≤ w.eb.currentEnergy) (hcM : w.eb.currentEnergy ≤ w.eb.maxEnergy)
    (htbl : ∀ tbl, w.eb.cumulativeEnergyDecisionThresholds = some tbl →
      (tbl.length : Int) = goInt w.eb.maxEnergy + 1)
    (hnow : w.eb.nextEnergyTick - EnergyTickDuration ≤ w.sim.CurrentTime) :
    0 ≤ partialTickAmount w ∧
    0 ≤ EnergyPerTick * w.eb.hasteRatingMultiplier * w.eb.energyRegenMultiplier ∧
    (∃ crossed w1, addEnergyInternal (partialTickAmount w) w.eb.regenMetrics w =
      .ok crossed w1) ∧
    (∃ crossed w1, addEnergyInternal
      (EnergyPerTick * w.eb.hasteRatingMultiplier * w.eb.energyRegenMultiplier)
      w.eb.regenMetrics w = .ok crossed w1) ∧
    (w.eb.unit.isSome = true →
      (∃ w1, ResetEnergyTick w = .ok () w1) ∧ (∃ due w1, RunTask w = .ok due w1)) := by
  have hrate : 0 ≤ EnergyPerTick * w.eb.hasteRatingMultiplier * w.eb.energyRegenMultiplier := by
    have : (0 : ℚ) ≤ EnergyPerTick := by norm_num [EnergyPerTick]
    exact mul_nonneg (mul_nonneg this hhaste) hregen
  have hpart : 0 ≤ partialTickAmount w := by
    unfold partialTickAmount
    simp only [NextEnergyTickAt]
    refine mul_nonneg hrate (div_nonneg ?_ (by norm_num [EnergyTickDuration]))
    exact_mod_cast (by omega : (0 : Int) ≤
      w.sim.CurrentTime - (w.eb.nextEnergyTick - EnergyTickDuration))
  have hgain : ∀ amount : ℚ, 0 ≤ amount →
      ∃ crossed w1, addEnergyInternal amount w.eb.regenMetrics w = .ok crossed w1 := by
    intro amount hamount
    refine addEnergyInternal_ok_of amount _ w hamount fun tbl h => ?_
    have hlen := htbl tbl h
    obtain ⟨before, hb⟩ := sliceGet_goInt_isSome hlen hc0 hcM
    obtain ⟨after, ha⟩ := sliceGet_goInt_isSome hlen
      (le_min (by linarith) (le_trans hc0 hcM) :
        0 ≤ min (w.eb.currentEnergy + amount) w.eb.maxEnergy) (min_le_right _ _)
    exact ⟨before, after, hb, ha⟩
  refine ⟨hpart, hrate, hgain _ hpart, hgain _ hrate, fun hunit => ⟨?_, ?_⟩⟩
  · obtain ⟨crossed, wm, h1⟩ := hgain _ hpart
    exact ResetEnergyTick_ok_of h1 (fun _ => hunit)
  · by_cases hlt : w.sim.CurrentTime < w.eb.nextEnergyTick
    · exact ⟨w.eb.nextEnergyTick, w, by simp [RunTask, hlt]⟩
    · obtain ⟨crossed, wm, h1⟩ := hgain _ hrate
      obtain ⟨_, he, hs⟩ := addEnergyInternal_eq_ok h1
      obtain ⟨wn, hn⟩ := onEnergyGain_ok_of crossed
        { wm with eb := { wm.eb with
          nextEnergyTick := wm.sim.CurrentTime + EnergyTickDuration } }
        (fun _ => by simp [he, hunit])
      refine ⟨wn.eb.nextEnergyTick, wn, ?_⟩
      unfold RunTask
      rw [if_neg hlt, h1]
      simp only [Outcome.andThen, hn]


theorem fillBelow_length (cum threshold : Int) :
    ∀ (n : Nat) (tbl : List Int) (cur : Int) (r : List Int × Int),
      fillBelow cum threshold n tbl cur = .ok r → r.1.length = tbl.length := by
  intro n
  induction n with
  | zero =>
    intro tbl cur r h
    simp only [fillBelow] at h
    injection h with h
    rw [← h]
  | succ n ih =>
    intro tbl cur r h
    simp only [fillBelow] at h
    split at h
    · split at h
      · rename_i tbl1 hset
        have hlen : tbl1.length = tbl.length := by
          unfold sliceSet at hset
          split at hset
          · injection hset with hset
            rw [← hset, List.length_set]
          · simp at hset
        rw [ih tbl1 (cur + 1) r h, hlen]
      · simp at h
    · injection h with h
      rw [← h]

theorem fillThresholds_length :
    ∀ (ts tbl : List Int) (cur cum : Int) (r : List Int × Int × Int),
      fillThresholds ts tbl cur cum = .ok r → r.1.length = tbl.length := by
  intro ts
  induction ts with
  | nil =>
    intro tbl cur cum r h
    simp only [fillThresholds] at h
    injection h with h
    rw [← h]
  | cons t rest ih =>
    intro tbl cur cum r h
    simp only [fillThresholds] at h
    split at h
    · rename_i tbl1 cur1 hfill
      rw [ih tbl1 cur1 (cum + 1) r h]
      exact fillBelow_length cum t _ tbl cur (tbl1, cur1) hfill
    · simp at h

theorem buildTable_length {ts : List Int} {len : Nat} {tbl : List Int}
    (h : buildTable ts len = .ok tbl) : tbl.length = len := by
  unfold buildTable at h
  split at h
  · rename_i tbl1 cur1 cum1 hfill
    split at h
    · rename_i tbl2 cur2 hfill2
      injection h with h
      rw [← h]
      have h1 := fillBelow_length cum1 len _ tbl1 cur1 (tbl2, cur2) hfill2
      have h2 := fillThresholds_length ts _ 0 0 (tbl1, cur1, cum1) hfill
      simp only at h1 h2
      rw [h1, h2, List.length_replicate]
    · simp at h
  · simp at h

/-- The table `setupEnergyThresholds` leaves on a bar with a unit has int(maxEnergy)+1
entries, whatever the thresholds. -/
theorem setupEnergyThresholds_table_length {eb eb1 : energyBar} {unit : UnitInfo}
    (hunit : eb.unit = some unit) (h : setupEnergyThresholds eb = .ok () eb1) :
    eb1.maxEnergy = eb.maxEnergy ∧
    ∃ tbl, eb1.cumulativeEnergyDecisionThresholds = some tbl ∧
      (tbl.length : Int) = goInt eb.maxEnergy + 1 := by
  unfold setupEnergyThresholds at h
  simp only [hunit] at h
  split at h
  · simp at h
  · rename_i hlen
    split at h
    · rename_i tbl hb
      injection h with _ h
      subst h
      refine ⟨rfl, tbl, rfl, ?_⟩
      rw [buildTable_length hb]
      omega
    · simp at h

/-- C27: for every bar with hasteRatingMultiplier >= 0, energyRegenMultiplier >= 0,
0 <= currentEnergy <= maxEnergy, a threshold table that is absent or was built by
setupEnergyThresholds for the current maxEnergy, and every time
now >= nextEnergyTick - EnergyTickDuration: the gain computed by ResetEnergyTick and the gain
computed by RunTask are >= 0, both gains go through addEnergyInternal without panic (both table
indices are in range), and on a bar that has its unit ResetEnergyTick and RunTask complete. -/
theorem regen_paths_do_not_panic (w : World)
    (hhaste : 0 ≤ w.eb.hasteRatingMultiplier) (hregen : 0 ≤ w.eb.energyRegenMultiplier)
    (hc0 : 0 ≤ w.eb.currentEnergy) (hcM : w.eb.currentEnergy ≤ w.eb.maxEnergy)
    (htbl : w.eb.cumulativeEnergyDecisionThresholds = none ∨
      ∃ (eb0 eb1 : energyBar) (unit : UnitInfo), eb0.unit = some unit ∧
        eb0.maxEnergy = w.eb.maxEnergy ∧ setupEnergyThresholds eb0 = .ok () eb1 ∧
        w.eb.cumulativeEnergyDecisionThresholds = eb1.cumulativeEnergyDecisionThresholds)
    (hnow : w.eb.nextEnergyTick - EnergyTickDuration ≤ w.sim.CurrentTime) :
    0 ≤ partialTickAmount w ∧
    0 ≤ EnergyPerTick * w.eb.hasteRatingMultiplier * w.eb.energyRegenMultiplier ∧
    (∃ crossed w1, addEnergyInternal (partialTickAmount w) w.eb.regenMetrics w =
      .ok crossed w1) ∧
    (∃ crossed w1, addEnergyInternal
      (EnergyPerTick * w.eb.hasteRatingMultiplier * w.eb.energyRegenMultiplier)
      w.eb.regenMetrics w = .ok crossed w1) ∧
    (w.eb.unit.isSome = true →
      (∃ w1, ResetEnergyTick w = .ok () w1) ∧ (∃ due w1, RunTask w = .ok due w1)) := by
  refine regen_paths_ok_of_table_length w hhaste hregen hc0 hcM (fun tbl h => ?_) hnow
  rcases htbl with hnone | ⟨eb0, eb1, unit, hunit, hmax, hsetup, hsame⟩
  · rw [hnone] at h
    simp at h
  · obtain ⟨_, tbl1, h1, h2⟩ := setupEnergyThresholds_table_length hunit hsetup
    rw [hsame, h1] at h
    injection h with h
    rw [← h, h2, hmax]

/-- Witness of C27: the bar of the example with the table setupEnergyThresholds built for
maxEnergy 100, holding 99.5 of 100, 60ms into a tick: the flush and the tick complete. -/
theorem regen_paths_do_not_panic_witness :
    (∃ w1, ResetEnergyTick
      ⟨{ exampleTableBar with
          currentEnergy := 199 / 2, hasteRatingMultiplier := 1, nextEnergyTick := 100000000 },
        simAt 60000000⟩ = .ok () w1) ∧
    (∃ due w1, RunTask
      ⟨{ exampleTableBar with
          currentEnergy := 199 / 2, hasteRatingMultiplier := 1, nextEnergyTick := 100000000 },
        simAt 60000000⟩ = .ok due w1) := by
  have h := regen_paths_do_not_panic
    ⟨{ exampleTableBar with
        currentEnergy := 199 / 2, hasteRatingMultiplier := 1, nextEnergyTick := 100000000 },
      simAt 60000000⟩
    (by norm_num) (by norm_num [exampleTableBar, EnableEnergyBar]) (by norm_num)
    (by norm_num [exampleTableBar, EnableEnergyBar])
    (Or.inr ⟨EnableEnergyBar exampleUnit 0 1 100, exampleTableBar, exampleUnit, rfl,
      by simp [exampleTableBar], setupEnergyThresholds_exampleUnit, rfl⟩)
    (by simp [simAt, EnergyTickDuration])
  exact h.2.2.2.2 rfl

/-! ## Claims on the order of flush and change -/

/-- C11: a completed MultiplyEnergyRegenSpeed(m) records a flush whose gross gain is computed
with the energyRegenMultiplier in force before the call, leaves energyRegenMultiplier = old * m,
and the next due RunTask tick credits EnergyPerTick * hasteRatingMultiplier * (old * m); a
completed ProcessDynamicHasteRatingChange records its flush with the old hasteRatingMultiplier
and then recomputes it from the unit. Both calls do complete on a bar that has its unit, with
hasteRatingMultiplier >= 0, energyRegenMultiplier >= 0, 0 <= currentEnergy <= maxEnergy, a
threshold table that is absent or has int(maxEnergy)+1 entries, and now >=
nextEnergyTick - EnergyTickDuration; and when m >= 0 so does every RunTask tick that is due
after the MultiplyEnergyRegenSpeed call. -/
theorem MultiplyEnergyRegenSpeed_flushes_first (w : World) (multiplier hr : ℚ) :
    (∀ w1, MultiplyEnergyRegenSpeed multiplier w = .ok () w1 →
      w1.sim.metrics = w.sim.metrics ++ [⟨w.eb.regenMetrics,
        (EnergyPerTick * w.eb.hasteRatingMultiplier * w.eb.energyRegenMultiplier) *
          (((w.sim.CurrentTime - (w.eb.nextEnergyTick - EnergyTickDuration) : Int) : ℚ) /
            (EnergyTickDuration : ℚ)),
        w1.eb.currentEnergy - w.eb.currentEnergy⟩] ∧
      w1.eb.energyRegenMultiplier = w.eb.energyRegenMultiplier * multiplier ∧
      w1.eb.hasteRatingMultiplier = w.eb.hasteRatingMultiplier ∧
      (∀ (now : Int) (due : Int) (w2 : World), w1.eb.nextEnergyTick ≤ now →
        RunTask { w1 with sim := { w1.sim with CurrentTime := now } } = .ok due w2 →
        w2.sim.metrics = w1.sim.metrics ++ [⟨w.eb.regenMetrics,
          EnergyPerTick * w.eb.hasteRatingMultiplier * (w.eb.energyRegenMultiplier * multiplier),
          w2.eb.currentEnergy - w1.eb.currentEnergy⟩])) ∧
    (∀ w3, ProcessDynamicHasteRatingChange hr w = .ok () w3 →
      w3.sim.metrics = w.sim.metrics ++ [⟨w.eb.regenMetrics,
        (EnergyPerTick * w.eb.hasteRatingMultiplier * w.eb.energyRegenMultiplier) *
          (((w.sim.CurrentTime - (w.eb.nextEnergyTick - EnergyTickDuration) : Int) : ℚ) /
            (EnergyTickDuration : ℚ)),
        w3.eb.currentEnergy - w.eb.currentEnergy⟩] ∧
      w3.eb.energyRegenMultiplier = w.eb.energyRegenMultiplier ∧
      ∃ unit, w.eb.unit = some unit ∧ w3.eb.hasteRatingMultiplier = hasteFactor hr unit) ∧
    (0 ≤ w.eb.hasteRatingMultiplier → 0 ≤ w.eb.energyRegenMultiplier →
      0 ≤ w.eb.currentEnergy → w.eb.currentEnergy ≤ w.eb.maxEnergy →
      (∀ tbl, w.eb.cumulativeEnergyDecisionThresholds = some tbl →
        (tbl.length : Int) = goInt w.eb.maxEnergy + 1) →
      w.eb.nextEnergyTick - EnergyTickDuration ≤ w.sim.CurrentTime →
      w.eb.unit.isSome = true →
      (∃ w1, MultiplyEnergyRegenSpeed multiplier w = .ok () w1 ∧
        (0 ≤ multiplier → ∀ now : Int, w1.eb.nextEnergyTick ≤ now →
          ∃ due w2, RunTask { w1 with sim := { w1.sim with CurrentTime := now } } = .ok due w2)) ∧
      (∃ w3, ProcessDynamicHasteRatingChange hr w = .ok () w3)) := by
  refine ⟨fun w1 h => ?_, fun w3 h3 => ?_, fun hhaste hregen hc0 hcM htbl hnow hunit => ?_⟩
  · obtain ⟨u, wm, h1, h2⟩ := andThen_eq_ok h
    obtain ⟨_, he, hm, _⟩ := ResetEnergyTick_eq_ok h1
    injection h2 with _ h3
    subst h3
    refine ⟨?_, ?_, ?_, ?_⟩
    · simp only [hm, he]
      rfl
    · simp [he]
    · simp [he]
    · intro now due w2 hdue hrun
      rcases RunTask_eq_ok_full hrun with ⟨hlt, _, _⟩ | ⟨_, _, _, he2, hm2, _⟩
      · simp only at hlt hdue
        omega
      · simp only [hm2, he2, he]
  · obtain ⟨u3, wm3, k1, k2⟩ := andThen_eq_ok h3
    obtain ⟨_, he3, hm3, _⟩ := ResetEnergyTick_eq_ok k1
    cases hu : wm3.eb.unit with
    | none => simp [hu] at k2
    | some unit =>
      simp only [hu] at k2
      injection k2 with _ k3
      subst k3
      refine ⟨?_, ?_, unit, ?_, rfl⟩
      · simp only [hm3, he3]
        rfl
      · simp [he3]
      · rw [← hu, he3]
  · obtain ⟨hpart, _, _, _, hrt⟩ :=
      regen_paths_ok_of_table_length w hhaste hregen hc0 hcM htbl hnow
    obtain ⟨⟨wr, hwr⟩, _⟩ := hrt hunit
    obtain ⟨_, _, _, _, he, _⟩ := ResetEnergyTick_eq_ok_full hwr
    refine ⟨⟨{ wr with eb := { wr.eb with
        energyRegenMultiplier := wr.eb.energyRegenMultiplier * multiplier } }, ?_, ?_⟩, ?_⟩
    · simp only [MultiplyEnergyRegenSpeed, hwr, Outcome.andThen]
    · intro hm now hdue
      have hmin0 : 0 ≤ min (w.eb.currentEnergy + partialTickAmount w) w.eb.maxEnergy :=
        le_min (by linarith) (le_trans hc0 hcM)
      obtain ⟨_, _, _, _, hrt2⟩ := regen_paths_ok_of_table_length
        { eb := { wr.eb with energyRegenMultiplier := wr.eb.energyRegenMultiplier * multiplier },
          sim := { wr.sim with CurrentTime := now } }
        (by simpa [he] using hhaste)
        (by simp only [he]; exact mul_nonneg hregen hm)
        (by simpa [he] using hmin0)
        (by simp [he])
        (by simpa [he] using htbl)
        (by
          simp only [he] at hdue ⊢
          have : (0 : Int) < EnergyTickDuration := by decide
          omega)
      exact (hrt2 (by simpa [he] using hunit)).2
    · cases hu : wr.eb.unit with
      | none =>
        rw [he] at hu
        simp only at hu
        rw [hu] at hunit
        simp at hunit
      | some unit =>
        refine ⟨{ wr with eb := { wr.eb with hasteRatingMultiplier := hasteFactor hr unit } }, ?_⟩
        simp only [ProcessDynamicHasteRatingChange, hwr, Outcome.andThen, hu]

/-- Witness of C11: on a bar holding 50 with both multipliers 1, for a unit with 50 melee haste
rating, 60ms into a tick: doubling the regen speed records the gain 0.6 (at the old multiplier)
and leaves the multiplier 2, and the tick due 100ms later completes; a haste change with one
rating per percent records the gain 0.6 (at the old haste multiplier 1) and leaves the haste
multiplier 3/2. -/
theorem MultiplyEnergyRegenSpeed_flushes_first_witness :
    ∃ w1 w3,
      MultiplyEnergyRegenSpeed 2
        ⟨{ barWith 50 100000000 with unit := some { plainUnit with meleeHaste := 50 } },
          simAt 60000000⟩ = .ok () w1 ∧
      w1.sim.metrics = [⟨0, 3 / 5, 3 / 5⟩] ∧ w1.eb.energyRegenMultiplier = 2 ∧
      (∃ due w2, RunTask { w1 with sim := { w1.sim with CurrentTime := 160000000 } } =
        .ok due w2) ∧
      ProcessDynamicHasteRatingChange 1
        ⟨{ barWith 50 100000000 with unit := some { plainUnit with meleeHaste := 50 } },
          simAt 60000000⟩ = .ok () w3 ∧
      w3.sim.metrics = [⟨0, 3 / 5, 3 / 5⟩] ∧ w3.eb.hasteRatingMultiplier = 3 / 2 := by
  have hrun1 : MultiplyEnergyRegenSpeed 2
      ⟨{ barWith 50 100000000 with unit := some { plainUnit with meleeHaste := 50 } },
        simAt 60000000⟩ =
      .ok () ⟨{ barWith (50 + 3 / 5) 160000000 with
          unit := some { plainUnit with meleeHaste := 50 }
          energyRegenMultiplier := 2 },
        { simAt 60000000 with
          metrics := [⟨0, 3 / 5, 3 / 5⟩]
          nextActionCalls := 1
          schedulerCalls := [SchedulerCall.reschedule 160000000] }⟩ := by
    norm_num [MultiplyEnergyRegenSpeed, ResetEnergyTick, partialTickAmount, addEnergyInternal,
      onEnergyGain, Outcome.andThen, barWith, simAt, EnableEnergyBar, plainUnit, World.addEvent,
      World.logIfEnabled, World.rescheduleTask, NextEnergyTickAt, EnergyTickDuration,
      EnergyPerTick]
  have hrun3 : ProcessDynamicHasteRatingChange 1
      ⟨{ barWith 50 100000000 with unit := some { plainUnit with meleeHaste := 50 } },
        simAt 60000000⟩ =
      .ok () ⟨{ barWith (50 + 3 / 5) 160000000 with
          unit := some { plainUnit with meleeHaste := 50 }
          hasteRatingMultiplier := 3 / 2 },
        { simAt 60000000 with
          metrics := [⟨0, 3 / 5, 3 / 5⟩]
          nextActionCalls := 1
          schedulerCalls := [SchedulerCall.reschedule 160000000] }⟩ := by
    norm_num [ProcessDynamicHasteRatingChange, hasteFactor, ResetEnergyTick, partialTickAmount,
      addEnergyInternal, onEnergyGain, Outcome.andThen, barWith, simAt, EnableEnergyBar, plainUnit,
      World.addEvent, World.logIfEnabled, World.rescheduleTask, NextEnergyTickAt,
      EnergyTickDuration, EnergyPerTick]
  obtain ⟨ha, hb, hc⟩ := MultiplyEnergyRegenSpeed_flushes_first
    ⟨{ barWith 50 100000000 with unit := some { plainUnit with meleeHaste := 50 } },
      simAt 60000000⟩ 2 1
  obtain ⟨⟨w1, h1, htick⟩, _⟩ := hc
    (by norm_num [barWith, EnableEnergyBar]) (by norm_num [barWith, EnableEnergyBar])
    (by norm_num [barWith, EnableEnergyBar]) (by norm_num [barWith, EnableEnergyBar])
    (by simp [barWith, EnableEnergyBar]) (by simp [barWith, simAt, EnergyTickDuration]) rfl
  obtain ⟨a1, a2, _, _⟩ := ha _ hrun1
  obtain ⟨b1, _, unit, b3, b4⟩ := hb _ hrun3
  rw [hrun1] at h1
  injection h1 with _ h1
  subst h1
  refine ⟨_, _, hrun1, ?_, ?_, ?_, hrun3, ?_, ?_⟩
  · rw [a1]
    norm_num [barWith, simAt, EnableEnergyBar, EnergyPerTick, EnergyTickDuration]
  · rw [a2]
    norm_num [barWith, EnableEnergyBar]
  · exact htick (by norm_num) 160000000 (by simp [barWith])
  · rw [b1]
    norm_num [barWith, simAt, EnableEnergyBar, EnergyPerTick, EnergyTickDuration]
  · rw [b4]
    simp only at b3
    injection b3 with b3
    rw [← b3]
    norm_num [hasteFactor]

/-! ## Claims on UpdateMaxEnergy with a negative bonus, and on the sinks of a spell -/

/-- C22, counterexample: a bar holding 10 of 100, 60ms into a tick with both multipliers 1:
UpdateMaxEnergy with bonusEnergy = -10.5 < -10 completes and leaves currentEnergy = 0.1, since
the flush has credited 0.6 before the spend of 10.5. -/
theorem UpdateMaxEnergy_not_zeroed_after_flush :
    (0 : ℚ) ≤ (barWith 10 100000000).currentEnergy ∧
    (-21 / 2 : ℚ) < -(barWith 10 100000000).currentEnergy ∧
    UpdateMaxEnergy (-21 / 2) 7 ⟨barWith 10 100000000, simAt 60000000⟩ =
      .ok () ⟨{ barWith (1 / 10) 160000000 with maxEnergy := 179 / 2 },
        { simAt 60000000 with
          metrics := [⟨0, 3 / 5, 3 / 5⟩, ⟨7, -21 / 2, -21 / 2⟩]
          nextActionCalls := 1
          schedulerCalls := [SchedulerCall.reschedule 160000000] }⟩ ∧
    (1 / 10 : ℚ) ≠ 0 := by
  refine ⟨by norm_num [barWith], by norm_num [barWith], ?_, by norm_num⟩
  norm_num [UpdateMaxEnergy, ResetEnergyTick, partialTickAmount, SpendEnergy, addEnergyInternal,
    onEnergyGain, Outcome.andThen, barWith, simAt, EnableEnergyBar, plainUnit, World.addEvent,
    World.logIfEnabled, World.rescheduleTask, NextEnergyTickAt, EnergyTickDuration,
    EnergyPerTick]

/-- C22, as amended: for every completed call UpdateMaxEnergy(bonusEnergy) with
bonusEnergy < 0, currentEnergy after the call is max(c + bonusEnergy, 0), where c is
currentEnergy after the initial flush, min(currentEnergy + partialTickAmount, maxEnergy); so it
is exactly 0 when bonusEnergy <= -c, and in particular when bonusEnergy < -currentEnergy and
the flush credits nothing. -/
theorem UpdateMaxEnergy_zeroes_after_flush (w w1 : World) (bonusEnergy : ℚ) (metrics : Nat)
    (hneg : bonusEnergy < 0) (h : UpdateMaxEnergy bonusEnergy metrics w = .ok () w1) :
    w1.eb.currentEnergy =
      max (min (w.eb.currentEnergy + partialTickAmount w) w.eb.maxEnergy + bonusEnergy) 0 ∧
    (bonusEnergy ≤ -(min (w.eb.currentEnergy + partialTickAmount w) w.eb.maxEnergy) →
      w1.eb.currentEnergy = 0) ∧
    (partialTickAmount w = 0 → w.eb.currentEnergy ≤ w.eb.maxEnergy →
      bonusEnergy < -w.eb.currentEnergy → w1.eb.currentEnergy = 0) ∧
    w1.eb.maxEnergy = w.eb.maxEnergy + bonusEnergy := by
  obtain ⟨u, wm, h1, h2⟩ := andThen_eq_ok h
  obtain ⟨_, he, _⟩ := ResetEnergyTick_eq_ok h1
  simp only [if_neg (not_le.mpr hneg)] at h2
  obtain ⟨hpos, he2, _⟩ := SpendEnergy_eq_ok h2
  simp only [he] at hpos he2
  have hc0 : 0 ≤ min (w.eb.currentEnergy + partialTickAmount w) w.eb.maxEnergy := by
    rcases le_total (-bonusEnergy)
      (min (w.eb.currentEnergy + partialTickAmount w) w.eb.maxEnergy) with hle | hle
    · linarith
    · rwa [min_eq_right hle] at hpos
  have hcur : w1.eb.currentEnergy =
      max (min (w.eb.currentEnergy + partialTickAmount w) w.eb.maxEnergy + bonusEnergy) 0 := by
    rw [he2]
    simp only
    rcases le_total (-bonusEnergy)
      (min (w.eb.currentEnergy + partialTickAmount w) w.eb.maxEnergy) with hle | hle
    · rw [min_eq_left hle, max_eq_left (by linarith)]
      ring
    · rw [min_eq_right hle, max_eq_right (by linarith)]
      ring
  refine ⟨hcur, fun hle => ?_, fun hp hcM hlt => ?_, by rw [he2]⟩
  · rw [hcur, max_eq_right (by linarith)]
  · rw [hcur, hp, add_zero, min_eq_left hcM, max_eq_right (by linarith)]

/-- Witness of C22: on the same bar, holding 10.6 after the flush, the bonus -11 leaves 0. -/
theorem UpdateMaxEnergy_zeroes_after_flush_witness :
    ∃ w1, UpdateMaxEnergy (-11) 7 ⟨barWith 10 100000000, simAt 60000000⟩ = .ok () w1 ∧
      w1.eb.currentEnergy = 0 ∧ w1.eb.maxEnergy = 89 := by
  have hrun : UpdateMaxEnergy (-11) 7 ⟨barWith 10 100000000, simAt 60000000⟩ =
      .ok () ⟨{ barWith 0 160000000 with maxEnergy := 89 },
        { simAt 60000000 with
          metrics := [⟨0, 3 / 5, 3 / 5⟩, ⟨7, -(53 / 5), -(53 / 5)⟩]
          nextActionCalls := 1
          schedulerCalls := [SchedulerCall.reschedule 160000000] }⟩ := by
    norm_num [UpdateMaxEnergy, ResetEnergyTick, partialTickAmount, SpendEnergy, addEnergyInternal,
      onEnergyGain, Outcome.andThen, barWith, simAt, EnableEnergyBar, plainUnit, World.addEvent,
      World.logIfEnabled, World.rescheduleTask, NextEnergyTickAt, EnergyTickDuration,
      EnergyPerTick]
  obtain ⟨_, hzero, _, hmax⟩ := UpdateMaxEnergy_zeroes_after_flush _ _ (-11) 7 (by norm_num) hrun
  refine ⟨_, hrun, hzero ?_, ?_⟩
  · norm_num [partialTickAmount, barWith, simAt, EnableEnergyBar, NextEnergyTickAt,
      EnergyTickDuration, EnergyPerTick]
  · rw [hmax]; norm_num [barWith, EnableEnergyBar]

/-- C26, the code at the failing input: for a spell whose EnergyCost has ResourceMetrics = sink
5 and ComboPointMetrics = sink 6, `Spell.EnergyMetrics` returns sink 6, the combo point sink,
the same as `Spell.ComboPointMetrics`, and not sink 5. -/
theorem EnergyMetrics_returns_combo_point_sink :
    ({ spellCosting 40 with Cost := some ⟨0, none, 5, 6⟩ } : Spell).EnergyMetrics = some 6 ∧
    ({ spellCosting 40 with Cost := some ⟨0, none, 5, 6⟩ } : Spell).ComboPointMetrics = some 6 ∧
    ({ spellCosting 40 with Cost := some ⟨0, none, 5, 6⟩ } : Spell).EnergyMetrics ≠
      some (⟨0, none, 5, 6⟩ : EnergyCost).ResourceMetrics ∧
    (⟨0, none, 5, 6⟩ : EnergyCost).ResourceMetrics ≠
      (⟨0, none, 5, 6⟩ : EnergyCost).ComboPointMetrics := by
  refine ⟨rfl, rfl, ?_, ?_⟩
  · simp [Spell.EnergyMetrics]
  · decide

/-! ## Claims on the paladin and warrior talents -/

theorem vengeanceStackChanges_from (b : ℚ) (hb : 0 ≤ b) :
    ∀ (chain : List Int) (s : Int) (m : ℚ), 0 ≤ s → (∀ x ∈ chain, 0 ≤ x) →
      vengeanceStackChanges b s chain (m * (1 + b * (s : ℚ))) =
        m * (1 + b * (lastStacks s chain : ℚ)) := by
  intro chain
  induction chain with
  | nil => intro s m _ _; rfl
  | cons s1 rest ih =>
    intro s m hs hall
    have hs1 : 0 ≤ s1 := hall s1 (List.mem_cons_self _ _)
    have hpos : (0 : ℚ) < 1 + b * (s : ℚ) := by
      have : (0 : ℚ) ≤ (s : ℚ) := by exact_mod_cast hs
      have := mul_nonneg hb this
      linarith
    have hstep : vengeanceOnStacksChange b s s1 (m * (1 + b * (s : ℚ))) =
        m * (1 + b * (s1 : ℚ)) := by
      unfold vengeanceOnStacksChange
      rw [mul_div_assoc, div_self (ne_of_gt hpos), mul_one]
    simp only [vengeanceStackChanges, lastStacks, hstep]
    exact ih s1 m hs1 (fun x hx => hall x (List.mem_cons_of_mem _ hx))

/-- C23: with the multiplier an exact rational and bonusPerStack >= 0, for every chain of
stack changes starting at 0 stacks, each count >= 0, with OnStacksChange called once per change,
DamageDealtMultiplier afterwards is its initial value times (1 + bonusPerStack * last count);
a change from 3 to 5 multiplies by (1 + 5b) / (1 + 3b) in one step, and a chain that ends at 0
stacks restores the initial multiplier exactly. -/
theorem vengeance_undoes_itself (bonusPerStack : ℚ) (hb : 0 ≤ bonusPerStack)
    (chain : List Int) (hchain : ∀ s ∈ chain, 0 ≤ s) (multiplier : ℚ) :
    vengeanceStackChanges bonusPerStack 0 chain multiplier =
      multiplier * (1 + bonusPerStack * (lastStacks 0 chain : ℚ)) ∧
    vengeanceOnStacksChange bonusPerStack 3 5 multiplier =
      multiplier * ((1 + 5 * bonusPerStack) / (1 + 3 * bonusPerStack)) ∧
    (lastStacks 0 chain = 0 →
      vengeanceStackChanges bonusPerStack 0 chain multiplier = multiplier) := by
  have h := vengeanceStackChanges_from bonusPerStack hb chain 0 multiplier (le_refl _) hchain
  simp only [Int.cast_zero, mul_zero, add_zero, mul_one] at h
  refine ⟨h, ?_, fun hlast => ?_⟩
  · unfold vengeanceOnStacksChange
    push_cast
    rw [div_mul_eq_mul_div, mul_div_assoc, mul_comm bonusPerStack 5, mul_comm bonusPerStack 3]
  · rw [h, hlast]
    simp

/-- Witness of C23: talent rank 3 (bonusPerStack 3/100), multiplier 2, stacks 0, 1, 3, 2, 0:
the multiplier is 2 again. -/
theorem vengeance_undoes_itself_witness :
    vengeanceStackChanges (vengeanceBonusPerStack 3) 0 [1, 3, 2, 0] 2 = 2 ∧
    vengeanceStackChanges (vengeanceBonusPerStack 3) 0 [1, 3] 2 = 2 * (1 + 3 / 100 * 3) := by
  have hb : (0 : ℚ) ≤ vengeanceBonusPerStack 3 := by norm_num [vengeanceBonusPerStack]
  obtain ⟨_, _, h3⟩ := vengeance_undoes_itself (vengeanceBonusPerStack 3) hb [1, 3, 2, 0]
    (by decide) 2
  obtain ⟨k1, _, _⟩ := vengeance_undoes_itself (vengeanceBonusPerStack 3) hb [1, 3]
    (by decide) 2
  refine ⟨h3 rfl, ?_⟩
  rw [k1]
  norm_num [vengeanceBonusPerStack, lastStacks]

/-- C24: on the pool of one target, a tick with triggering damage d and talent rank r maps the
pool p to (3/4) * (p + d * 0.10 * r) and releases (1/4) * (p + d * 0.10 * r), so that released
plus new pool is p plus the amount added; OnSpellHitDealt, which re-binds the tick effect,
leaves the pool unchanged; OnExpire sets the pool to 0, so an application after expiry starts
from pool = 0; a tick leaves the pool at 0 only when old pool plus added amount is 0. -/
theorem righteousVengeance_pool_lifecycle (rank : Int) (dot : RighteousVengeanceDot) (d : ℚ) :
    (rvCalculator rank d dot.pool).2 = (3 / 4) * (dot.pool + d * (1 / 10) * (rank : ℚ)) ∧
    (rvCalculator rank d dot.pool).1 = (1 / 4) * (dot.pool + d * (1 / 10) * (rank : ℚ)) ∧
    (rvCalculator rank d dot.pool).1 + (rvCalculator rank d dot.pool).2 =
      dot.pool + d * (1 / 10) * (rank : ℚ) ∧
    (dot.boundDamage = some d →
      rvTick rank dot = (some ((1 / 4) * (dot.pool + d * (1 / 10) * (rank : ℚ))),
        { dot with pool := (3 / 4) * (dot.pool + d * (1 / 10) * (rank : ℚ)) })) ∧
    (∀ (didCrit landed triggers : Bool) (d2 : ℚ),
      (rvOnSpellHitDealt didCrit landed triggers d2 dot).pool = dot.pool) ∧
    (rvOnExpire dot).pool = 0 ∧ (rvDotExpire dot).pool = 0 ∧
    (∀ d2 : ℚ, rvOnSpellHitDealt true true true d2 (rvDotExpire dot) =
      { pool := 0, boundDamage := some d2, active := true }) ∧
    ((rvCalculator rank d dot.pool).2 = 0 ↔ dot.pool + d * (1 / 10) * (rank : ℚ) = 0) := by
  have h2 : (rvCalculator rank d dot.pool).2 =
      (3 / 4) * (dot.pool + d * (1 / 10) * (rank : ℚ)) := by
    simp only [rvCalculator]; ring
  have h1 : (rvCalculator rank d dot.pool).1 =
      (1 / 4) * (dot.pool + d * (1 / 10) * (rank : ℚ)) := by
    simp only [rvCalculator]; ring
  refine ⟨h2, h1, by rw [h1, h2]; ring, fun hbound => ?_, fun didCrit landed triggers d2 => ?_,
    rfl, rfl, fun d2 => ?_, ?_⟩
  · simp only [rvTick, hbound, h1, h2]
  · unfold rvOnSpellHitDealt
    split
    · rfl
    · split
      · simp only [rvDotRefresh, rvDotApply]
        split <;> rfl
      · rfl
  · simp [rvOnSpellHitDealt, rvDotExpire, rvOnExpire, rvDotApply, rvDotRefresh]
  · rw [h2]
    constructor
    · intro h
      linarith
    · intro h
      rw [h, mul_zero]

/-- Witness of C24: rank 3, pool 100, a tick bound to a hit of 1000: 300 is added, 100 is
released and 300 stays in the pool. -/
theorem righteousVengeance_pool_lifecycle_witness :
    rvTick 3 ⟨100, some 1000, true⟩ = (some 100, ⟨300, some 1000, true⟩) := by
  obtain ⟨_, _, _, h, _⟩ := righteousVengeance_pool_lifecycle 3 ⟨100, some 1000, true⟩ 1000
  rw [h rfl]
  norm_num

/-- C25: when the spell is not Rend or the internal cooldown is not ready, the hook leaves the
state as it is: the random stream, the cooldown and the aura are unchanged and `sim.Proc` is
not called. When the spell is Rend and the cooldown is ready, `sim.Proc` is called once on the
state of the stream; if it procs the cooldown is started and the aura activated, otherwise
cooldown and aura are unchanged. -/
theorem tasteForBlood_icd_before_draw {ρ : Type} (proc : ℚ → ρ → Bool × ρ) (procChance : ℚ)
    (now : Int) (isRend : Bool) (st : TasteForBloodState ρ) :
    ((isRend = false ∨ icdIsReady now st = false) →
      tasteForBloodOnPeriodicDamageDealt proc procChance now isRend st = st) ∧
    (isRend = true → icdIsReady now st = true →
      (tasteForBloodOnPeriodicDamageDealt proc procChance now isRend st).random =
        (proc procChance st.random).2 ∧
      ((proc procChance st.random).1 = true →
        tasteForBloodOnPeriodicDamageDealt proc procChance now isRend st =
          { random := (proc procChance st.random).2
            icdReadyAt := now + tasteForBloodIcdDuration
            auraActive := true
            auraExpires := now + tasteForBloodDuration }) ∧
      ((proc procChance st.random).1 = false →
        tasteForBloodOnPeriodicDamageDealt proc procChance now isRend st =
          { st with random := (proc procChance st.random).2 }) ∧
      ((tasteForBloodOnPeriodicDamageDealt proc procChance now isRend st).icdReadyAt =
          now + tasteForBloodIcdDuration ↔ (proc procChance st.random).1 = true)) := by
  constructor
  · rintro (h | h)
    · simp [tasteForBloodOnPeriodicDamageDealt, h]
    · unfold tasteForBloodOnPeriodicDamageDealt
      split
      · rfl
      · simp [h]
  · intro hrend hready
    have hle : st.icdReadyAt ≤ now := by simpa [icdIsReady] using hready
    have hT : (0 : Int) < tasteForBloodIcdDuration := by decide
    cases hp : (proc procChance st.random).1 with
    | true =>
      have hrun : tasteForBloodOnPeriodicDamageDealt proc procChance now isRend st =
          { random := (proc procChance st.random).2
            icdReadyAt := now + tasteForBloodIcdDuration
            auraActive := true
            auraExpires := now + tasteForBloodDuration } := by
        simp [tasteForBloodOnPeriodicDamageDealt, hrend, hready, hp, tfbAuraActivate, icdUse]
      refine ⟨by rw [hrun], fun _ => hrun, fun h => by simp at h, ?_⟩
      rw [hrun]
      simp
    | false =>
      have hrun : tasteForBloodOnPeriodicDamageDealt proc procChance now isRend st =
          { st with random := (proc procChance st.random).2 } := by
        simp [tasteForBloodOnPeriodicDamageDealt, hrend, hready, hp]
      refine ⟨by rw [hrun], fun h => by simp at h, fun _ => hrun, ?_⟩
      rw [hrun]
      simp only [Bool.false_eq_true, iff_false]
      omega

/-- Witness of C25: at rank 1 (chance 0.33) with the cooldown ready since 2s, an event of Rend
at 3s draws 1/2, which does not proc; with the cooldown ready only at 4s the same event draws
nothing. -/
theorem tasteForBlood_icd_before_draw_witness :
    tasteForBloodOnPeriodicDamageDealt exampleProc (33 / 100) 3000000000 true
      ⟨0, 2000000000, false, 0⟩ = ⟨1, 2000000000, false, 0⟩ ∧
    tasteForBloodOnPeriodicDamageDealt exampleProc (33 / 100) 3000000000 true
      ⟨0, 4000000000, false, 0⟩ = ⟨0, 4000000000, false, 0⟩ := by
  obtain ⟨_, h1⟩ := tasteForBlood_icd_before_draw exampleProc (33 / 100) 3000000000 true
    ⟨0, 2000000000, false, 0⟩
  obtain ⟨h2, _⟩ := tasteForBlood_icd_before_draw exampleProc (33 / 100) 3000000000 true
    ⟨0, 4000000000, false, 0⟩
  have hp : (exampleProc (33 / 100) 0).1 = false := by
    norm_num [exampleProc]
  refine ⟨?_, h2 (Or.inr (by decide))⟩
  rw [(h1 rfl (by decide)).2.2.1 hp]
  rfl

end Cata
